import Mathlib

/-!
# Comentario: comment lifecycle, vote ledger and SSO callback

A shallow embedding of `internal/api/restapi/handlers/comment.go`,
`internal/api/oauth_sso_callback.go` and the login and deletion part of
`internal/api/restapi/handlers/owner.go`.

* The relational store is a record of tables (`DB`), each table a list of rows.
  Every SQL statement of the source is modelled by its effect on these lists.
* Everything the handlers obtain from outside these files (clock, random
  source, markdown renderer, spam oracle, lookups implemented elsewhere, the
  crypto and JSON libraries, and whether the database driver reports an error
  for a given statement) is gathered in `Env`, so that every theorem holds for
  all behaviours of these collaborators.
* Go strings are `String`, byte slices are `List Nat`, timestamps are `Nat`.
-/

namespace Comentario

/-! ## Errors -/

/-- The error values of package `util` that the modelled code returns, plus
`Other` for errors produced by library calls (hex decoding, JSON, random source). -/
inductive Error where
  | MissingField
  | Internal
  | NoSuchComment
  | NoSuchDomain
  | NoSuchToken
  | NoSuchCommenter
  | NotModerator
  | NotAuthorised
  | DomainFrozen
  | ThreadLocked
  | SelfVote
  | UnauthorisedVote
  | MissingConfig
  | InvalidEmailPassword
  | UnconfirmedEmail
  | CannotDeleteOwnerWithActiveDomains
  | NoSuchOwner
  | Other (msg : String)
  deriving DecidableEq, Repr

/-! ## Data model -/

/-- Modelled from the spec: the declaration of `AnonymousCommenterHexID` is not among
the source files; the spec calls it the well-known sentinel identifier of the
anonymous commenter, and `commentDelete` writes it as the SQL literal
`'anonymous'`. -/
def AnonymousCommenterHexID : String := "anonymous"

/-- Value of `models.CommentStateApproved` -/
def CommentStateApproved : String := "approved"

/-- Value of `models.CommentStateUnapproved` -/
def CommentStateUnapproved : String := "unapproved"

/-- Value of `models.CommentStateFlagged` -/
def CommentStateFlagged : String := "flagged"

/-- The fields of `models.Commenter` -/
structure Commenter where
  commenterHex : String
  email : String
  name : String
  link : String
  photo : String
  provider : String
  isModerator : Bool
  deriving DecidableEq, Repr

/-- An entry of `domain.Moderators` -/
structure DomainModerator where
  email : String
  deriving DecidableEq, Repr

/-- The fields of a loaded domain that the modelled code reads -/
structure Domain where
  domain : String
  state : String
  requireIdentification : Bool
  requireModeration : Bool
  moderateAllAnonymous : Bool
  autoSpamFilter : Bool
  moderators : List DomainModerator
  defaultSortPolicy : String
  idps : List (String × Bool)
  ssoSecret : String
  ssoUrl : String
  deriving DecidableEq, Repr

/-- A row of table `comments`. The columns `score`, `deleted`, `deleterHex` and
`deletionDate` are not named by the insert in `commentNew`; a new row gets the
column defaults (0, false, null, null). -/
structure CommentRow where
  commentHex : String
  domain : String
  path : String
  commenterHex : String
  parentHex : String
  markdown : String
  html : String
  score : Int
  state : String
  deleted : Bool
  creationDate : Nat
  deleterHex : Option String
  deletionDate : Option Nat
  deriving DecidableEq, Repr

/-- A row of table `votes` -/
structure VoteRow where
  commentHex : String
  commenterHex : String
  direction : Int
  voteDate : Nat
  deriving DecidableEq, Repr

/-- A row of table `pages` -/
structure PageRow where
  domain : String
  path : String
  isLocked : Bool
  commentCount : Nat
  deriving DecidableEq, Repr

/-- A row of table `moderators` -/
structure ModeratorRow where
  domain : String
  email : String
  deriving DecidableEq, Repr

/-- A row of table `commenters` -/
structure CommenterRow where
  commenterHex : String
  email : String
  name : String
  link : String
  photo : String
  provider : String
  passwordHash : String
  joinDate : Nat
  deriving DecidableEq, Repr

/-- A row of table `commenterSessions`; a pending session has `commenterHex = "none"` -/
structure CommenterSessionRow where
  commenterToken : String
  commenterHex : String
  deriving DecidableEq, Repr

/-- A row of table `ssoTokens` -/
structure SsoTokenRow where
  token : String
  domain : String
  commenterToken : String
  deriving DecidableEq, Repr

/-- The relational store -/
structure DB where
  comments : List CommentRow
  votes : List VoteRow
  pages : List PageRow
  moderators : List ModeratorRow
  commenters : List CommenterRow
  commenterSessions : List CommenterSessionRow
  ssoTokens : List SsoTokenRow
  deriving DecidableEq, Repr

/-- The SQL statement sites of the modelled code; `Env.fault` says for each
whether the database driver reports an error there. -/
inductive Stmt where
  | commentApproveUpdate
  | commentDeleteUpdate
  | commentDomainPathGetSelect
  | commentEditUpdate
  | commentGetByCommentHexSelect
  | commentListSelect
  | commentListScan (commentHex : String)
  | commentListVoteSelect (commentHex : String)
  | commentNewInsert
  | commentVoteSelect
  | commentVoteUpsert
  | isDomainModeratorSelect
  | pageGetSelect
  | pageNewInsert
  | ssoTokenExtractSelect
  | ssoTokenExtractDelete
  | commenterGetByEmailSelect
  | commenterNewInsert
  | commenterUpdateUpdate
  | commenterSessionUpdateUpdate
  deriving DecidableEq, Repr

/-- The JSON object of the SSO payload -/
structure ssoPayload where
  token : String
  email : String
  name : String
  link : String
  photo : String
  deriving DecidableEq, Repr

/-- The collaborators of the modelled code: what a handler call reads from
outside the source files. -/
structure Env where
  /-- Result of `time.Now().UTC()` -/
  now : Nat
  /-- Whether the driver reports an error at a statement site -/
  fault : Stmt → Bool
  /-- Result of `util.RandomHex(32)` -/
  randomHex : Except Error String
  /-- The renderer `util.MarkdownToHTML` -/
  markdownToHTML : String → String
  /-- The spam oracle `checkForSpam(domain, ip, userAgent, name, email, link, markdown)` -/
  checkForSpam : String → String → String → String → String → String → String → Bool
  /-- The lookup `commenterGetByCommenterToken`, implemented outside the source files -/
  commenterGetByCommenterToken : String → Except Error Commenter
  /-- The lookup `commenterGetByHex`, implemented outside the source files -/
  commenterGetByHex : String → Except Error Commenter
  /-- The lookup `domainGet`, implemented outside the source files -/
  domainGet : String → Except Error Domain
  /-- The library function `hex.DecodeString` -/
  hexDecodeString : String → Except Error (List Nat)
  /-- The library function `json.Unmarshal` into an `ssoPayload` -/
  jsonUnmarshal : List Nat → Except Error ssoPayload
  /-- The keyed digest computed by `hmac.New(sha256.New, key)`, `Write`, `Sum(nil)`: key first, message second -/
  hmacSha256 : List Nat → List Nat → List Nat
  /-- The table `util.FederatedIdProviders`: provider id and its goth name -/
  federatedIdProviders : List (String × String)
  /-- Whether `goth.GetProviders()` has an entry for a goth name -/
  gothProviderConfigured : String → Bool

/-- The fields of `models.APIResponseBase`; `message` is the error whose text is sent -/
structure APIResponseBase where
  message : Option Error
  success : Bool
  deriving DecidableEq, Repr

/-- The fields of `models.Page` that the modelled code reads -/
structure Page where
  domain : String
  path : String
  isLocked : Bool
  commentCount : Nat
  deriving DecidableEq, Repr

/-! ## Pages (helpers of `commentNew`) -/

/-- Modelled from the spec: `pageGet` is not among the source files. A page is "created
lazily on first comment" and "tracks lock state and cached comment count", so a
lookup of a page without a row yields an unlocked page with no comments. -/
def pageGet (env : Env) (db : DB) (domain path : String) : Except Error Page :=
  if env.fault Stmt.pageGetSelect then Except.error Error.Internal
  else
    match db.pages.find? (fun p => decide (p.domain = domain) && decide (p.path = path)) with
    | some p => Except.ok { domain := p.domain, path := p.path, isLocked := p.isLocked, commentCount := p.commentCount }
    | none => Except.ok { domain := domain, path := path, isLocked := false, commentCount := 0 }

/-- Modelled from the spec: `pageNew` is not among the source files. "A new comment always
creates its Page row if absent (idempotent upsert) before the insert." -/
def pageNew (env : Env) (db : DB) (domain path : String) : Except Error Unit × DB :=
  if domain = "" then (Except.error Error.MissingField, db)
  else if env.fault Stmt.pageNewInsert then (Except.error Error.Internal, db)
  else if db.pages.any (fun p => decide (p.domain = domain) && decide (p.path = path)) then (Except.ok (), db)
  else (Except.ok (), { db with pages := db.pages ++ [{ domain := domain, path := path, isLocked := false, commentCount := 0 }] })

/-! ## Comment creation -/

/-- Embedding of `commentNew`: validates, checks the page lock, draws the identifier,
upserts the page and inserts the row. The insert fails when the driver reports an
error or when the identifier is already a key of `comments`. -/
def commentNew (env : Env) (db : DB) (commenterHex domain path parentHex markdown state : String)
    (creationDate : Nat) : Except Error String × DB :=
  if commenterHex = "" ∨ domain = "" ∨ parentHex = "" ∨ markdown = "" ∨ state = "" then
    (Except.error Error.MissingField, db)
  else
    match pageGet env db domain path with
    | Except.error _ => (Except.error Error.Internal, db)
    | Except.ok p =>
      if p.isLocked then (Except.error Error.ThreadLocked, db)
      else
        match env.randomHex with
        | Except.error err => (Except.error err, db)
        | Except.ok commentHex =>
          let html := env.markdownToHTML markdown
          match pageNew env db domain path with
          | (Except.error err, db1) => (Except.error err, db1)
          | (Except.ok _, db1) =>
            if env.fault Stmt.commentNewInsert || db1.comments.any (fun r => decide (r.commentHex = commentHex)) then
              (Except.error Error.Internal, db1)
            else
              (Except.ok commentHex,
                { db1 with comments := db1.comments ++ [{
                    commentHex := commentHex, domain := domain, path := path,
                    commenterHex := commenterHex, parentHex := parentHex,
                    markdown := markdown, html := html, score := 0, state := state,
                    deleted := false, creationDate := creationDate,
                    deleterHex := none, deletionDate := none }] })

/-- The request body of `CommentNew` with the request's client address and agent -/
structure CommentNewParams where
  domain : String
  path : String
  commenterToken : String
  parentHex : String
  markdown : String
  userIP : String
  userAgent : String
  deriving DecidableEq, Repr

/-- The fields of `operations.CommentNewOKBody` -/
structure CommentNewOKBody where
  commentHex : String
  html : String
  state : String
  message : Option Error
  success : Bool
  deriving DecidableEq, Repr

/-- What a handler does besides answering and writing to the store -/
inductive Effect where
  | spamCheck (domain userIP userAgent name email link markdown : String)
  | emailNotificationNew (domain : Domain) (path commenterHex commentHex html parentHex state : String)
  | domainViewRecord (domain : String) (commenter : Option Commenter)
  deriving DecidableEq, Repr

/-- The failure body of `CommentNew` -/
def CommentNewOKBody.failure (err : Error) : CommentNewOKBody :=
  { commentHex := "", html := "", state := "", message := some err, success := false }

/-- The state computation of `CommentNew` (the `if isModerator ... else ...` chain),
given the resolved author and moderator flag. -/
def CommentNewState (env : Env) (domain : Domain) (params : CommentNewParams)
    (commenterHex commenterEmail commenterName commenterLink : String) (isModerator : Bool) : String :=
  if isModerator then CommentStateApproved
  else if domain.requireModeration ||
      (decide (commenterHex = AnonymousCommenterHexID) && domain.moderateAllAnonymous) then
    CommentStateUnapproved
  else if domain.autoSpamFilter &&
      env.checkForSpam params.domain params.userIP params.userAgent commenterName commenterEmail
        commenterLink params.markdown then CommentStateFlagged
  else CommentStateApproved

/-- The calls of `checkForSpam` made by the state computation of `CommentNew`: one
call exactly when the third condition of the chain is evaluated with the filter on. -/
def CommentNewSpamEffects (domain : Domain) (params : CommentNewParams)
    (commenterHex commenterEmail commenterName commenterLink : String) (isModerator : Bool) : List Effect :=
  if !isModerator &&
      !(domain.requireModeration ||
        (decide (commenterHex = AnonymousCommenterHexID) && domain.moderateAllAnonymous)) &&
      domain.autoSpamFilter then
    [Effect.spamCheck params.domain params.userIP params.userAgent commenterName commenterEmail
      commenterLink params.markdown]
  else []

/-- The resolution of the author in `CommentNew`: identifier, email, name, link
and moderator flag; the anonymous token resolves to the defaults. -/
def CommentNewActor (env : Env) (domain : Domain) (params : CommentNewParams) :
    Except Error (String × String × String × String × Bool) :=
  if params.commenterToken ≠ AnonymousCommenterHexID then
    match env.commenterGetByCommenterToken params.commenterToken with
    | Except.error err => Except.error err
    | Except.ok c =>
      Except.ok (c.commenterHex, c.email, c.name, c.link,
        domain.moderators.any (fun mod => decide (mod.email = c.email)))
  else Except.ok (AnonymousCommenterHexID, "", "Anonymous", "", false)

/-- Embedding of the handler `CommentNew`. Returns the response body, the store
after the call and the effects performed. -/
def CommentNew (env : Env) (db : DB) (params : CommentNewParams) : CommentNewOKBody × DB × List Effect :=
  let domainName := params.domain
  match env.domainGet domainName with
  | Except.error err => (CommentNewOKBody.failure err, db, [])
  | Except.ok domain =>
    if domain.state = "frozen" then (CommentNewOKBody.failure Error.DomainFrozen, db, [])
    else if domain.requireIdentification && decide (params.commenterToken = AnonymousCommenterHexID) then
      (CommentNewOKBody.failure Error.NotAuthorised, db, [])
    else
      match CommentNewActor env domain params with
      | Except.error err => (CommentNewOKBody.failure err, db, [])
      | Except.ok (commenterHex, commenterEmail, commenterName, commenterLink, isModerator) =>
        let state := CommentNewState env domain params commenterHex commenterEmail commenterName
          commenterLink isModerator
        let spamFx := CommentNewSpamEffects domain params commenterHex commenterEmail commenterName
          commenterLink isModerator
        match commentNew env db commenterHex domainName params.path params.parentHex params.markdown state env.now with
        | (Except.error err, db1) => (CommentNewOKBody.failure err, db1, spamFx)
        | (Except.ok commentHex, db1) =>
          let html := env.markdownToHTML params.markdown
          ({ commentHex := commentHex, html := html, state := state, message := none, success := true },
            db1,
            spamFx ++ [Effect.emailNotificationNew domain params.path commenterHex commentHex html params.parentHex state])

/-! ## Comment lookups and single-statement mutations -/

/-- The fields of `models.Comment` -/
structure Comment where
  commentHex : String
  commenterHex : String
  markdown : String
  html : String
  parentHex : String
  score : Int
  state : String
  deleted : Bool
  creationDate : Nat
  direction : Int
  deriving DecidableEq, Repr

/-- Embedding of `commentsRowScan`: the selected columns of a row, `Direction` left at its zero value -/
def commentsRowScan (r : CommentRow) : Comment :=
  { commentHex := r.commentHex, commenterHex := r.commenterHex, markdown := r.markdown,
    html := r.html, parentHex := r.parentHex, score := r.score, state := r.state,
    deleted := r.deleted, creationDate := r.creationDate, direction := 0 }

/-- Embedding of `commentGetByCommentHex` -/
def commentGetByCommentHex (env : Env) (db : DB) (commentHex : String) : Except Error Comment :=
  if commentHex = "" then Except.error Error.MissingField
  else if env.fault Stmt.commentGetByCommentHexSelect then Except.error Error.NoSuchComment
  else
    match db.comments.find? (fun r => decide (r.commentHex = commentHex)) with
    | none => Except.error Error.NoSuchComment
    | some r => Except.ok (commentsRowScan r)

/-- Embedding of `commentDomainPathGet` -/
def commentDomainPathGet (env : Env) (db : DB) (commentHex : String) : Except Error (String × String) :=
  if commentHex = "" then Except.error Error.MissingField
  else if env.fault Stmt.commentDomainPathGetSelect then Except.error Error.NoSuchDomain
  else
    match db.comments.find? (fun r => decide (r.commentHex = commentHex)) with
    | none => Except.error Error.NoSuchDomain
    | some r => Except.ok (r.domain, r.path)

/-- Modelled from the spec: `isDomainModerator` is not among the source files.
"`isModerator(domain, email) -> bool`: true iff the email appears in the domain's
moderator list"; a storage failure is reported as `Internal`. -/
def isDomainModerator (env : Env) (db : DB) (domain email : String) : Except Error Bool :=
  if env.fault Stmt.isDomainModeratorSelect then Except.error Error.Internal
  else Except.ok (db.moderators.any (fun m => decide (m.domain = domain) && decide (m.email = email)))

/-- Embedding of `commentApprove` -/
def commentApprove (env : Env) (db : DB) (commentHex : String) : Except Error Unit × DB :=
  if commentHex = "" then (Except.error Error.MissingField, db)
  else if env.fault Stmt.commentApproveUpdate then (Except.error Error.Internal, db)
  else
    (Except.ok (),
      { db with comments := db.comments.map (fun r =>
          if r.commentHex = commentHex then { r with state := "approved" } else r) })

/-- Embedding of `commentDelete` -/
def commentDelete (env : Env) (db : DB) (commentHex deleterHex : String) : Except Error Unit × DB :=
  if commentHex = "" ∨ deleterHex = "" then (Except.error Error.MissingField, db)
  else if env.fault Stmt.commentDeleteUpdate then (Except.error Error.NoSuchComment, db)
  else
    (Except.ok (),
      { db with comments := db.comments.map (fun r =>
          if r.commentHex = commentHex then
            { r with deleted := true, markdown := "[deleted]", html := "[deleted]",
                     commenterHex := "anonymous", deleterHex := some deleterHex,
                     deletionDate := some env.now }
          else r) })

/-- Embedding of `commentEdit` -/
def commentEdit (env : Env) (db : DB) (commentHex markdown html : String) : Except Error Unit × DB :=
  if env.fault Stmt.commentEditUpdate then (Except.error Error.NoSuchComment, db)
  else
    (Except.ok (),
      { db with comments := db.comments.map (fun r =>
          if r.commentHex = commentHex then { r with markdown := markdown, html := html } else r) })

/-- The statement of `commentVote`,
`insert into votes(commentHex, commenterHex, direction, voteDate) values($1, $2, $3, $4)
on conflict (commentHex, commenterHex) do update set direction = $3`:
a row with the key gets the new direction and keeps every other column;
without such a row a new one is appended. -/
def voteUpsert (votes : List VoteRow) (commentHex commenterHex : String) (direction : Int)
    (voteDate : Nat) : List VoteRow :=
  if votes.any (fun v => decide (v.commentHex = commentHex) && decide (v.commenterHex = commenterHex)) then
    votes.map (fun v =>
      if v.commentHex = commentHex ∧ v.commenterHex = commenterHex then { v with direction := direction }
      else v)
  else
    votes ++ [{ commentHex := commentHex, commenterHex := commenterHex, direction := direction,
                voteDate := voteDate }]

/-- Embedding of `commentVote` -/
def commentVote (env : Env) (db : DB) (commenterHex commentHex : String) (direction : Int) :
    Except Error Unit × DB :=
  if commentHex = "" ∨ commenterHex = "" then (Except.error Error.MissingField, db)
  else
    let scanned : Option String :=
      if env.fault Stmt.commentVoteSelect then none
      else (db.comments.find? (fun r => decide (r.commentHex = commentHex))).map (fun r => r.commenterHex)
    match scanned with
    | none => (Except.error Error.Internal, db)
    | some authorHex =>
      if authorHex = commenterHex then (Except.error Error.SelfVote, db)
      else if env.fault Stmt.commentVoteUpsert then (Except.error Error.Internal, db)
      else
        (Except.ok (),
          { db with votes := voteUpsert db.votes commentHex commenterHex direction env.now })

/-! ## Mutating comment handlers -/

/-- The failure body `APIResponseBase` with a message -/
def APIResponseBase.failure (err : Error) : APIResponseBase := { message := some err, success := false }

/-- The success body `APIResponseBase` -/
def APIResponseBase.succeeded : APIResponseBase := { message := none, success := true }

/-- The request body of `CommentApprove` and of `CommentDelete` -/
structure CommentHexParams where
  commenterToken : String
  commentHex : String
  deriving DecidableEq, Repr

/-- Embedding of the handler `CommentApprove` -/
def CommentApprove (env : Env) (db : DB) (params : CommentHexParams) : APIResponseBase × DB :=
  match env.commenterGetByCommenterToken params.commenterToken with
  | Except.error err => (APIResponseBase.failure err, db)
  | Except.ok c =>
    match commentDomainPathGet env db params.commentHex with
    | Except.error err => (APIResponseBase.failure err, db)
    | Except.ok (domain, _) =>
      match isDomainModerator env db domain c.email with
      | Except.error err => (APIResponseBase.failure err, db)
      | Except.ok isModerator =>
        if !isModerator then (APIResponseBase.failure Error.NotModerator, db)
        else
          match commentApprove env db params.commentHex with
          | (Except.error err, db1) => (APIResponseBase.failure err, db1)
          | (Except.ok _, db1) => (APIResponseBase.succeeded, db1)

/-- Embedding of the handler `CommentDelete` -/
def CommentDelete (env : Env) (db : DB) (params : CommentHexParams) : APIResponseBase × DB :=
  match env.commenterGetByCommenterToken params.commenterToken with
  | Except.error err => (APIResponseBase.failure err, db)
  | Except.ok commenter =>
    match commentGetByCommentHex env db params.commentHex with
    | Except.error err => (APIResponseBase.failure err, db)
    | Except.ok comment =>
      let denied : Option Error :=
        if comment.commenterHex ≠ commenter.commenterHex then
          match commentDomainPathGet env db params.commentHex with
          | Except.error err => some err
          | Except.ok (domain, _) =>
            match isDomainModerator env db domain commenter.email with
            | Except.error err => some err
            | Except.ok isModerator => if !isModerator then some Error.NotModerator else none
        else none
      match denied with
      | some err => (APIResponseBase.failure err, db)
      | none =>
        match commentDelete env db params.commentHex commenter.commenterHex with
        | (Except.error err, db1) => (APIResponseBase.failure err, db1)
        | (Except.ok _, db1) => (APIResponseBase.succeeded, db1)

/-- The request body of `CommentEdit`; `markdown` is a nullable string -/
structure CommentEditParams where
  commenterToken : String
  commentHex : String
  markdown : Option String
  deriving DecidableEq, Repr

/-- The fields of `operations.CommentEditOKBody` -/
structure CommentEditOKBody where
  html : String
  message : Option Error
  success : Bool
  deriving DecidableEq, Repr

/-- The failure body of `CommentEdit` -/
def CommentEditOKBody.failure (err : Error) : CommentEditOKBody :=
  { html := "", message := some err, success := false }

/-- Embedding of the handler `CommentEdit` -/
def CommentEdit (env : Env) (db : DB) (params : CommentEditParams) : CommentEditOKBody × DB :=
  match env.commenterGetByCommenterToken params.commenterToken with
  | Except.error err => (CommentEditOKBody.failure err, db)
  | Except.ok commenter =>
    match commentGetByCommentHex env db params.commentHex with
    | Except.error err => (CommentEditOKBody.failure err, db)
    | Except.ok comment =>
      let denied : Option Error :=
        if comment.commenterHex ≠ commenter.commenterHex then
          match commentDomainPathGet env db params.commentHex with
          | Except.error err => some err
          | Except.ok (domain, _) =>
            match isDomainModerator env db domain commenter.email with
            | Except.error err => some err
            | Except.ok isModerator => if !isModerator then some Error.NotModerator else none
        else none
      match denied with
      | some err => (CommentEditOKBody.failure err, db)
      | none =>
        let markdown := params.markdown.getD ""
        let html := env.markdownToHTML markdown
        match commentEdit env db params.commentHex markdown html with
        | (Except.error err, db1) => (CommentEditOKBody.failure err, db1)
        | (Except.ok _, db1) => ({ html := html, message := none, success := true }, db1)

/-- The request body of `CommentVote` -/
structure CommentVoteParams where
  commenterToken : String
  commentHex : String
  direction : Int
  deriving DecidableEq, Repr

/-- Embedding of the handler `CommentVote` -/
def CommentVote (env : Env) (db : DB) (params : CommentVoteParams) : APIResponseBase × DB :=
  if params.commenterToken = AnonymousCommenterHexID then
    (APIResponseBase.failure Error.UnauthorisedVote, db)
  else
    match env.commenterGetByCommenterToken params.commenterToken with
    | Except.error err => (APIResponseBase.failure err, db)
    | Except.ok c =>
      let direction : Int :=
        if params.direction > 0 then 1
        else if params.direction < 0 then -1
        else 0
      match commentVote env db c.commenterHex params.commentHex direction with
      | (Except.error err, db1) => (APIResponseBase.failure err, db1)
      | (Except.ok _, db1) => (APIResponseBase.succeeded, db1)

/-! ## Listing -/

/-- The where-clause built by `commentList`: fixed part plus the role part -/
def commentListWhere (commenter : Option Commenter) (domain path : String) (isModerator : Bool)
    (r : CommentRow) : Bool :=
  decide (r.domain = domain) && decide (r.path = path) && decide (r.deleted = false) &&
    (if !isModerator then
      match commenter with
      | none => decide (r.state = "approved")
      | some c => decide (r.state = "approved") || decide (r.commenterHex = c.commenterHex)
    else true)

/-- The vote lookup in the row loop of `commentList`: the requester's direction on
the comment, 0 for an anonymous requester, when the lookup fails or finds no row. -/
def commentListDirection (env : Env) (db : DB) (commenter : Option Commenter) (commentHex : String) : Int :=
  match commenter with
  | some c =>
    if env.fault (Stmt.commentListVoteSelect commentHex) then 0
    else
      match db.votes.find? (fun v => decide (v.commentHex = commentHex) && decide (v.commenterHex = c.commenterHex)) with
      | some v => v.direction
      | none => 0
  | none => 0

/-- The condition under which the row loop of `commentList` clears the markdown:
`commenter == nil || !isModerator && commenter.CommenterHex != comment.CommenterHex` -/
def commentListHidesMarkdown (commenter : Option Commenter) (isModerator : Bool) (authorHex : String) : Bool :=
  match commenter with
  | none => true
  | some c => !isModerator && !decide (c.commenterHex = authorHex)

/-- The body of the row loop of `commentList` up to the append: scan, the
requester's vote, markdown redaction, state redaction. -/
def commentListRow (env : Env) (db : DB) (commenter : Option Commenter) (isModerator : Bool)
    (r : CommentRow) : Comment :=
  let comment := commentsRowScan r
  let comment : Comment :=
    { comment with direction := commentListDirection env db commenter comment.commentHex }
  let comment : Comment :=
    if commentListHidesMarkdown commenter isModerator comment.commenterHex then
      { comment with markdown := "" }
    else comment
  if !isModerator then { comment with state := "" } else comment

/-- The row loop of `commentList`: `comments` and `commenters` are the accumulators -/
def commentListLoop (env : Env) (db : DB) (commenter : Option Commenter) (isModerator : Bool) :
    List CommentRow → List Comment → List (String × Commenter) →
      Except Error (List Comment × List (String × Commenter))
  | [], comments, commenters => Except.ok (comments, commenters)
  | r :: rows, comments, commenters =>
    if env.fault (Stmt.commentListScan r.commentHex) then Except.error Error.Internal
    else
      let comment := commentListRow env db commenter isModerator r
      let comments := comments ++ [comment]
      if commenters.any (fun e => decide (e.1 = comment.commenterHex)) then
        commentListLoop env db commenter isModerator rows comments commenters
      else
        match env.commenterGetByHex comment.commenterHex with
        | Except.error _ => Except.error Error.Internal
        | Except.ok cr =>
          commentListLoop env db commenter isModerator rows comments (commenters ++ [(comment.commenterHex, cr)])

/-- Embedding of `commentList`; the commenter directory is a list of key-value pairs -/
def commentList (env : Env) (db : DB) (commenter : Option Commenter) (domain path : String)
    (isModerator : Bool) : Except Error (List Comment × List (String × Commenter)) :=
  if env.fault Stmt.commentListSelect then Except.error Error.Internal
  else
    let rows := db.comments.filter (commentListWhere commenter domain path isModerator)
    let commenters : List (String × Commenter) :=
      [(AnonymousCommenterHexID,
        { commenterHex := AnonymousCommenterHexID, email := "undefined", name := "Anonymous",
          link := "undefined", photo := "undefined", provider := "undefined", isModerator := false })]
    commentListLoop env db commenter isModerator rows [] commenters

/-- The request body of `CommentList` -/
structure CommentListParams where
  domain : String
  path : String
  commenterToken : String
  deriving DecidableEq, Repr

/-- The fields of `operations.CommentListOKBody` -/
structure CommentListOKBody where
  attributes : Option Page
  commenters : List (String × Commenter)
  comments : List Comment
  configuredOauths : List (String × Bool)
  defaultSortPolicy : String
  domain : String
  isFrozen : Bool
  isModerator : Bool
  requireIdentification : Bool
  requireModeration : Bool
  message : Option Error
  success : Bool
  deriving DecidableEq, Repr

/-- The failure body of `CommentList` -/
def CommentListOKBody.failure (err : Error) : CommentListOKBody :=
  { attributes := none, commenters := [], comments := [], configuredOauths := [],
    defaultSortPolicy := "", domain := "", isFrozen := false, isModerator := false,
    requireIdentification := false, requireModeration := false, message := some err, success := false }

/-- The first loop of `CommentList`: whether the requester is a moderator of the domain -/
def CommentListIsModerator (moderators : List DomainModerator) (commenter : Option Commenter) : Bool :=
  moderators.any (fun mod =>
    match commenter with
    | none => false
    | some c => decide (mod.email = c.email))

/-- Assignment `m[k] = v` on a map kept as a list of pairs -/
def mapSet (m : List (String × Bool)) (k : String) (v : Bool) : List (String × Bool) :=
  if m.any (fun e => decide (e.1 = k)) then m.map (fun e => if e.1 = k then (k, v) else e)
  else m ++ [(k, v)]

/-- Read `m[k]` of a map kept as a list of pairs, the zero value when absent -/
def mapGet (m : List (String × Bool)) (k : String) : Bool :=
  match m.find? (fun e => decide (e.1 = k)) with
  | some e => e.2
  | none => false

/-- Embedding of the handler `CommentList` -/
def CommentList (env : Env) (db : DB) (params : CommentListParams) : CommentListOKBody × List Effect :=
  let domainName := params.domain
  match env.domainGet domainName with
  | Except.error err => (CommentListOKBody.failure err, [])
  | Except.ok domain =>
    match pageGet env db domainName params.path with
    | Except.error err => (CommentListOKBody.failure err, [])
    | Except.ok page =>
      let resolved : Except Error (Option Commenter) :=
        if params.commenterToken ≠ AnonymousCommenterHexID then
          match env.commenterGetByCommenterToken params.commenterToken with
          | Except.error err => Except.error err
          | Except.ok c => Except.ok (some c)
        else Except.ok none
      match resolved with
      | Except.error err => (CommentListOKBody.failure err, [])
      | Except.ok commenter =>
        let isModerator := CommentListIsModerator domain.moderators commenter
        let moderatorEmail : String → Bool := fun email =>
          domain.moderators.any (fun mod => decide (mod.email = email))
        let fx := [Effect.domainViewRecord domainName commenter]
        match commentList env db commenter domainName params.path isModerator with
        | Except.error err => (CommentListOKBody.failure err, fx)
        | Except.ok (comments, commenters) =>
          let commenters1 := commenters.map (fun e =>
            (e.1, { e.2 with isModerator := if moderatorEmail e.2.email then true else e.2.isModerator,
                             email := "" }))
          let idps := env.federatedIdProviders.foldl
            (fun m e => mapSet m e.1 (mapGet m e.1 && env.gothProviderConfigured e.2)) domain.idps
          ({ attributes := some page, commenters := commenters1, comments := comments,
             configuredOauths := idps, defaultSortPolicy := domain.defaultSortPolicy,
             domain := domainName, isFrozen := decide (domain.state = "frozen"),
             isModerator := isModerator, requireIdentification := domain.requireIdentification,
             requireModeration := domain.requireModeration, message := none, success := true }, fx)

/-! ## SSO callback -/

/-- Modelled from the spec: `ssoTokenExtract` is not among the source files. It resolves
the per-attempt token to (domain, pending session token); a token that is unknown
or already consumed fails resolution, so a resolved token is consumed. -/
def ssoTokenExtract (env : Env) (db : DB) (token : String) : Except Error (String × String) × DB :=
  if env.fault Stmt.ssoTokenExtractSelect then (Except.error Error.NoSuchToken, db)
  else
    match db.ssoTokens.find? (fun t => decide (t.token = token)) with
    | none => (Except.error Error.NoSuchToken, db)
    | some t =>
      if env.fault Stmt.ssoTokenExtractDelete then (Except.error Error.Internal, db)
      else (Except.ok (t.domain, t.commenterToken),
            { db with ssoTokens := db.ssoTokens.filter (fun u => !decide (u.token = token)) })

/-- Modelled from the spec: `commenterGetByEmail` is not among the source files. A commenter
is keyed by the pair (provider, email); absence is `NoSuchCommenter`. -/
def commenterGetByEmail (env : Env) (db : DB) (provider email : String) : Except Error CommenterRow :=
  if provider = "" ∨ email = "" then Except.error Error.MissingField
  else if env.fault Stmt.commenterGetByEmailSelect then Except.error Error.Internal
  else
    match db.commenters.find? (fun c => decide (c.email = email) && decide (c.provider = provider)) with
    | none => Except.error Error.NoSuchCommenter
    | some c => Except.ok c

/-- Modelled from the spec: `commenterNew` is not among the source files. It creates a
commenter under a fresh identifier; for a non-local provider the password digest
is absent. The insert fails when the identifier or the pair (provider, email) is taken. -/
def commenterNew (env : Env) (db : DB) (email name link photo provider _password : String) :
    Except Error String × DB :=
  if email = "" ∨ name = "" ∨ link = "" ∨ photo = "" ∨ provider = "" then
    (Except.error Error.MissingField, db)
  else
    match env.randomHex with
    | Except.error err => (Except.error err, db)
    | Except.ok commenterHex =>
      if env.fault Stmt.commenterNewInsert ||
          db.commenters.any (fun c => decide (c.commenterHex = commenterHex) ||
            (decide (c.email = email) && decide (c.provider = provider))) then
        (Except.error Error.Internal, db)
      else
        (Except.ok commenterHex,
          { db with commenters := db.commenters ++ [{
              commenterHex := commenterHex, email := email, name := name, link := link,
              photo := photo, provider := provider, passwordHash := "", joinDate := env.now }] })

/-- Modelled from the spec: `commenterUpdate` is not among the source files. It rewrites
the display name, link, photo and email of the commenter with the given
identifier and provider. -/
def commenterUpdate (env : Env) (db : DB) (commenterHex email name link photo provider : String) :
    Except Error Unit × DB :=
  if email = "" ∨ name = "" ∨ link = "" ∨ photo = "" ∨ provider = "" then
    (Except.error Error.MissingField, db)
  else if env.fault Stmt.commenterUpdateUpdate then (Except.error Error.Internal, db)
  else
    (Except.ok (),
      { db with commenters := db.commenters.map (fun c =>
          if c.commenterHex = commenterHex ∧ c.provider = provider then
            { c with email := email, name := name, link := link, photo := photo }
          else c) })

/-- Modelled from the spec: `commenterSessionUpdate` is not among the source files. It
binds the commenter to the session with the given token. -/
def commenterSessionUpdate (env : Env) (db : DB) (commenterToken commenterHex : String) :
    Except Error Unit × DB :=
  if commenterToken = "" ∨ commenterHex = "" then (Except.error Error.MissingField, db)
  else if env.fault Stmt.commenterSessionUpdateUpdate then (Except.error Error.Internal, db)
  else
    (Except.ok (),
      { db with commenterSessions := db.commenterSessions.map (fun s =>
          if s.commenterToken = commenterToken then { s with commenterHex := commenterHex } else s) })

/-- What `ssoCallbackHandler` writes to the response -/
inductive ssoResponse where
  | invalidPayloadHex (err : Error)
  | invalidSignatureHex (err : Error)
  | cannotUnmarshal (err : Error)
  | error (err : Error)
  | hmacVerificationFailed
  | closeWindow
  deriving DecidableEq, Repr

/-- Whether the response is one of the `Error: ...` texts -/
def ssoResponse.isError : ssoResponse → Bool
  | ssoResponse.closeWindow => false
  | _ => true

/-- Embedding of `ssoCallbackHandler`; `payloadHex` and `signature` are the form
values `payload` and `hmac`. -/
def ssoCallbackHandler (env : Env) (db : DB) (payloadHex signature : String) : ssoResponse × DB :=
  match env.hexDecodeString payloadHex with
  | Except.error err => (ssoResponse.invalidPayloadHex err, db)
  | Except.ok payloadBytes =>
    match env.hexDecodeString signature with
    | Except.error err => (ssoResponse.invalidSignatureHex err, db)
    | Except.ok signatureBytes =>
      match env.jsonUnmarshal payloadBytes with
      | Except.error err => (ssoResponse.cannotUnmarshal err, db)
      | Except.ok payload0 =>
        if payload0.token = "" ∨ payload0.email = "" ∨ payload0.name = "" then
          (ssoResponse.error Error.MissingField, db)
        else
          let payload1 : ssoPayload :=
            if payload0.link = "" then { payload0 with link := "undefined" } else payload0
          let payload : ssoPayload :=
            if payload1.photo = "" then { payload1 with photo := "undefined" } else payload1
          match ssoTokenExtract env db payload.token with
          | (Except.error err, db1) => (ssoResponse.error err, db1)
          | (Except.ok (domain, commenterToken), db1) =>
            match env.domainGet domain with
            | Except.error err =>
              if err = Error.NoSuchDomain then (ssoResponse.error err, db1)
              else (ssoResponse.error Error.Internal, db1)
            | Except.ok d =>
              if d.ssoSecret = "" ∨ d.ssoUrl = "" then (ssoResponse.error Error.MissingConfig, db1)
              else
                match env.hexDecodeString d.ssoSecret with
                | Except.error err => (ssoResponse.error err, db1)
                | Except.ok key =>
                  let expectedSignatureBytes := env.hmacSha256 key payloadBytes
                  if !decide (expectedSignatureBytes = signatureBytes) then
                    (ssoResponse.hmacVerificationFailed, db1)
                  else
                    let tokenErr : Option Error :=
                      match env.commenterGetByCommenterToken commenterToken with
                      | Except.error err => if err ≠ Error.NoSuchToken then some err else none
                      | Except.ok _ => none
                    match tokenErr with
                    | some err => (ssoResponse.error err, db1)
                    | none =>
                      match commenterGetByEmail env db1 ("sso:" ++ domain) payload.email with
                      | Except.error err =>
                        if err ≠ Error.NoSuchCommenter then (ssoResponse.error err, db1)
                        else
                          match commenterNew env db1 payload.email payload.name payload.link payload.photo
                              ("sso:" ++ domain) "" with
                          | (Except.error err1, db2) => (ssoResponse.error err1, db2)
                          | (Except.ok commenterHex, db2) =>
                            match commenterSessionUpdate env db2 commenterToken commenterHex with
                            | (Except.error err2, db3) => (ssoResponse.error err2, db3)
                            | (Except.ok _, db3) => (ssoResponse.closeWindow, db3)
                      | Except.ok c =>
                        let db2 := (commenterUpdate env db1 c.commenterHex payload.email payload.name
                          payload.link payload.photo ("sso:" ++ domain)).2
                        match commenterSessionUpdate env db2 commenterToken c.commenterHex with
                        | (Except.error err2, db3) => (ssoResponse.error err2, db3)
                        | (Except.ok _, db3) => (ssoResponse.closeWindow, db3)

/-! ## Owners: login and deletion -/

/-- A row of table `owners` -/
structure OwnerRow where
  ownerHex : String
  email : String
  name : String
  passwordHash : String
  confirmedEmail : Bool
  joinDate : Nat
  deriving DecidableEq, Repr

/-- A row of table `ownerSessions` -/
structure OwnerSessionRow where
  ownerToken : String
  ownerHex : String
  loginDate : Nat
  deriving DecidableEq, Repr

/-- A row of table `resethexes`: the reset token and the identifier (`hex`) of the
owner or commenter it belongs to -/
structure ResetHexRow where
  resetHex : String
  hex : String
  entity : String
  deriving DecidableEq, Repr

/-- A row of table `domains`: the name, which is the key, and the owning owner -/
structure DomainRow where
  domain : String
  ownerHex : String
  deriving DecidableEq, Repr

/-- The tables of the relational store that `owner.go` reads and writes -/
structure OwnerDB where
  owners : List OwnerRow
  ownerSessions : List OwnerSessionRow
  resetHexes : List ResetHexRow
  domains : List DomainRow
  deriving DecidableEq, Repr

/-- The SQL statement sites of the owner code -/
inductive OwnerStmt where
  | ownerGetByOwnerTokenSelect
  | ownerLoginSelect
  | ownerLoginInsert
  | ownerDeleteOwners
  | ownerDeleteSessions
  | ownerDeleteResetHexes
  | domainListSelect
  | domainDeleteDelete (domain : String)
  deriving DecidableEq, Repr

/-- The collaborators of the owner code -/
structure OwnerEnv where
  /-- Result of `time.Now().UTC()` -/
  now : Nat
  /-- Whether the driver reports an error at a statement site -/
  fault : OwnerStmt → Bool
  /-- Result of `util.RandomHex(32)` -/
  randomHex : Except Error String
  /-- Whether `bcrypt.CompareHashAndPassword(hash, password)` returns no error -/
  compareHashAndPassword : String → String → Bool
  /-- The constant `util.WrongAuthDelay`, declared outside the source files -/
  wrongAuthDelay : Nat

/-- The fields of `models.Owner` -/
structure Owner where
  ownerHex : String
  email : String
  name : String
  confirmedEmail : Bool
  joinDate : Nat
  deriving DecidableEq, Repr

/-- Embedding of `ownersRowScan` -/
def ownersRowScan (o : OwnerRow) : Owner :=
  { ownerHex := o.ownerHex, email := o.email, name := o.name, confirmedEmail := o.confirmedEmail,
    joinDate := o.joinDate }

/-- Embedding of `ownerGetByOwnerToken` -/
def ownerGetByOwnerToken (env : OwnerEnv) (db : OwnerDB) (ownerToken : String) : Except Error Owner :=
  if ownerToken = "" then Except.error Error.MissingField
  else if env.fault OwnerStmt.ownerGetByOwnerTokenSelect then Except.error Error.Internal
  else
    match db.owners.find? (fun o => db.ownerSessions.any (fun s =>
        decide (s.ownerToken = ownerToken) && decide (s.ownerHex = o.ownerHex))) with
    | none => Except.error Error.Internal
    | some o => Except.ok (ownersRowScan o)

/-- Embedding of `ownerLogin`. The third component lists the durations of the
calls of `time.Sleep`, in order. -/
def ownerLogin (env : OwnerEnv) (db : OwnerDB) (email password : String) :
    Except Error String × OwnerDB × List Nat :=
  if email = "" ∨ password = "" then (Except.error Error.MissingField, db, [])
  else
    let scanned : Option OwnerRow :=
      if env.fault OwnerStmt.ownerLoginSelect then none
      else db.owners.find? (fun o => decide (o.email = email))
    match scanned with
    | none => (Except.error Error.InvalidEmailPassword, db, [env.wrongAuthDelay])
    | some o =>
      if !o.confirmedEmail then (Except.error Error.UnconfirmedEmail, db, [])
      else if !env.compareHashAndPassword o.passwordHash password then
        (Except.error Error.InvalidEmailPassword, db, [env.wrongAuthDelay])
      else
        match env.randomHex with
        | Except.error _ => (Except.error Error.Internal, db, [])
        | Except.ok ownerToken =>
          if env.fault OwnerStmt.ownerLoginInsert then (Except.error Error.Internal, db, [])
          else
            (Except.ok ownerToken,
              { db with ownerSessions := db.ownerSessions ++
                  [{ ownerToken := ownerToken, ownerHex := o.ownerHex, loginDate := env.now }] },
              [])

/-- The fields of `operations.OwnerLoginOKBody` -/
structure OwnerLoginOKBody where
  ownerToken : String
  message : Option Error
  success : Bool
  deriving DecidableEq, Repr

/-- Embedding of the handler `OwnerLogin` -/
def OwnerLogin (env : OwnerEnv) (db : OwnerDB) (email password : String) :
    OwnerLoginOKBody × OwnerDB × List Nat :=
  match ownerLogin env db email password with
  | (Except.error err, db1, delays) => ({ ownerToken := "", message := some err, success := false }, db1, delays)
  | (Except.ok ownerToken, db1, delays) =>
    ({ ownerToken := ownerToken, message := none, success := true }, db1, delays)

/-- Modelled from the spec: `domainList` is not among the source files. It lists
the domains whose owning owner is the given one. -/
def domainList (env : OwnerEnv) (db : OwnerDB) (ownerHex : String) : Except Error (List DomainRow) :=
  if env.fault OwnerStmt.domainListSelect then Except.error Error.Internal
  else Except.ok (db.domains.filter (fun d => decide (d.ownerHex = ownerHex)))

/-- Modelled from the spec: `domainDelete` is not among the source files. It
deletes the domain with the given name; the name is the key of a domain. -/
def domainDelete (env : OwnerEnv) (db : OwnerDB) (domain : String) : Except Error Unit × OwnerDB :=
  if env.fault (OwnerStmt.domainDeleteDelete domain) then (Except.error Error.Internal, db)
  else (Except.ok (), { db with domains := db.domains.filter (fun d => !decide (d.domain = domain)) })

/-- A write of `ownerDelete` to the store, for the order of its writes -/
inductive OwnerWrite where
  | domainDelete (domain : String)
  | ownersDelete (ownerHex : String)
  | ownerSessionsDelete (ownerHex : String)
  | resetHexesDelete (hex : String)
  deriving DecidableEq, Repr

/-- The loop `for _, d := range domains` of `ownerDelete`: deletes the domains in
turn and stops at the first error; the log lists the deletions done. -/
def ownerDeleteDomains (env : OwnerEnv) : List DomainRow → OwnerDB → Except Error Unit × OwnerDB × List OwnerWrite
  | [], db => (Except.ok (), db, [])
  | d :: rest, db =>
    match domainDelete env db d.domain with
    | (Except.error err, db1) => (Except.error err, db1, [])
    | (Except.ok _, db1) =>
      match ownerDeleteDomains env rest db1 with
      | (res, db2, log) => (res, db2, OwnerWrite.domainDelete d.domain :: log)

/-- Embedding of `ownerDelete`. The third component lists the writes done, in order. -/
def ownerDelete (env : OwnerEnv) (db : OwnerDB) (ownerHex : String) (deleteDomains : Bool) :
    Except Error Unit × OwnerDB × List OwnerWrite :=
  match domainList env db ownerHex with
  | Except.error err => (Except.error err, db, [])
  | Except.ok domains =>
    let cleared : Except Error Unit × OwnerDB × List OwnerWrite :=
      if domains.length > 0 then
        if !deleteDomains then (Except.error Error.CannotDeleteOwnerWithActiveDomains, db, [])
        else ownerDeleteDomains env domains db
      else (Except.ok (), db, [])
    match cleared with
    | (Except.error err, db1, log) => (Except.error err, db1, log)
    | (Except.ok _, db1, log) =>
      if env.fault OwnerStmt.ownerDeleteOwners then (Except.error Error.NoSuchOwner, db1, log)
      else
        let db2 : OwnerDB := { db1 with owners := db1.owners.filter (fun o => !decide (o.ownerHex = ownerHex)) }
        let log2 := log ++ [OwnerWrite.ownersDelete ownerHex]
        if env.fault OwnerStmt.ownerDeleteSessions then (Except.error Error.Internal, db2, log2)
        else
          let db3 : OwnerDB :=
            { db2 with ownerSessions := db2.ownerSessions.filter (fun s => !decide (s.ownerHex = ownerHex)) }
          let log3 := log2 ++ [OwnerWrite.ownerSessionsDelete ownerHex]
          if env.fault OwnerStmt.ownerDeleteResetHexes then (Except.error Error.Internal, db3, log3)
          else
            (Except.ok (),
              { db3 with resetHexes := db3.resetHexes.filter (fun r => !decide (r.hex = ownerHex)) },
              log3 ++ [OwnerWrite.resetHexesDelete ownerHex])

/-- Embedding of the handler `OwnerDelete` -/
def OwnerDelete (env : OwnerEnv) (db : OwnerDB) (ownerToken : String) : APIResponseBase × OwnerDB :=
  match ownerGetByOwnerToken env db ownerToken with
  | Except.error err => (APIResponseBase.failure err, db)
  | Except.ok owner =>
    match ownerDelete env db owner.ownerHex false with
    | (Except.error err, db1, _) => (APIResponseBase.failure err, db1)
    | (Except.ok _, db1, _) => (APIResponseBase.succeeded, db1)

/-! ## Specification-side definitions -/

/-- One request to a mutating comment endpoint -/
inductive CommentOp where
  | edit (params : CommentEditParams)
  | approve (params : CommentHexParams)
  | delete (params : CommentHexParams)
  | vote (params : CommentVoteParams)
  | create (params : CommentNewParams)
  deriving DecidableEq, Repr

/-- The store after serving one request -/
def CommentOp.run (env : Env) (db : DB) : CommentOp → DB
  | CommentOp.edit params => (CommentEdit env db params).2
  | CommentOp.approve params => (CommentApprove env db params).2
  | CommentOp.delete params => (CommentDelete env db params).2
  | CommentOp.vote params => (CommentVote env db params).2
  | CommentOp.create params => (CommentNew env db params).2.1

/-- The store after serving a sequence of requests, each in its own environment -/
def runOps : DB → List (Env × CommentOp) → DB
  | db, [] => db
  | db, (env, op) :: rest => runOps (op.run env db) rest

/-- Whether a request is an edit of the comment `commentHex` -/
def CommentOp.editsComment (commentHex : String) : CommentOp → Bool
  | CommentOp.edit params => decide (params.commentHex = commentHex)
  | _ => false

/-- The ledger holds at most one row per (comment, voter) pair -/
def UniqueVotes (votes : List VoteRow) : Prop :=
  (votes.map (fun v => (v.commentHex, v.commenterHex))).Nodup

/-- Uniqueness of the keys of a ledger can be computed -/
instance UniqueVotes.decidable (votes : List VoteRow) : Decidable (UniqueVotes votes) :=
  inferInstanceAs (Decidable (List.Nodup _))

/-- The rows of the ledger for one (comment, voter) pair -/
def votesOf (votes : List VoteRow) (commentHex commenterHex : String) : List VoteRow :=
  votes.filter (fun v => decide (v.commentHex = commentHex) && decide (v.commenterHex = commenterHex))

/-- Repeated deletion of one comment: each element is the environment and the
deleter of one call of `commentDelete`; `none` as soon as a call fails. -/
def commentDeleteTimes (commentHex : String) : List (Env × String) → DB → Option DB
  | [], db => some db
  | (env, deleterHex) :: rest, db =>
    match commentDelete env db commentHex deleterHex with
    | (Except.ok _, db1) => commentDeleteTimes commentHex rest db1
    | (Except.error _, _) => none

/-- The fields of a comment row other than the deleter and the deletion date -/
def CommentRow.content (r : CommentRow) : CommentRow :=
  { r with deleterHex := none, deletionDate := none }

/-- The authorisation block that `CommentDelete` and `CommentEdit` share verbatim
(`if comment.CommenterHex != commenter.CommenterHex ...`): the error with which
the handler returns early, `none` when it goes on to the mutation. -/
def moderatorGate (env : Env) (db : DB) (commentHex : String) (comment : Comment)
    (commenter : Commenter) : Option Error :=
  if comment.commenterHex ≠ commenter.commenterHex then
    match commentDomainPathGet env db commentHex with
    | Except.error err => some err
    | Except.ok (domain, _) =>
      match isDomainModerator env db domain commenter.email with
      | Except.error err => some err
      | Except.ok isModerator => if !isModerator then some Error.NotModerator else none
  else none

/-- The response and store of `CommentDelete` once the caller is cleared: those of `commentDelete` -/
def deleteOutcome (env : Env) (db : DB) (commentHex deleterHex : String) : APIResponseBase × DB :=
  match commentDelete env db commentHex deleterHex with
  | (Except.error err, db1) => (APIResponseBase.failure err, db1)
  | (Except.ok _, db1) => (APIResponseBase.succeeded, db1)

/-- The response and store of `CommentEdit` once the caller is cleared: those of `commentEdit` -/
def editOutcome (env : Env) (db : DB) (commentHex : String) (markdown : Option String) :
    CommentEditOKBody × DB :=
  match commentEdit env db commentHex (markdown.getD "") (env.markdownToHTML (markdown.getD "")) with
  | (Except.error err, db1) => (CommentEditOKBody.failure err, db1)
  | (Except.ok _, db1) =>
    ({ html := env.markdownToHTML (markdown.getD ""), message := none, success := true }, db1)

/-- The caller's email is in the moderator list of the domain of the comment -/
def specModeratorOf (db : DB) (commentHex email : String) : Prop :=
  ∃ row, db.comments.find? (fun r => decide (r.commentHex = commentHex)) = some row ∧
    ({ domain := row.domain, email := email } : ModeratorRow) ∈ db.moderators

/-- Membership in the moderator list of the comment's domain can be computed -/
instance specModeratorOf.decidable (db : DB) (commentHex email : String) :
    Decidable (specModeratorOf db commentHex email) :=
  match h : db.comments.find? (fun r => decide (r.commentHex = commentHex)) with
  | some row =>
    if hm : ({ domain := row.domain, email := email } : ModeratorRow) ∈ db.moderators then
      isTrue ⟨row, h, hm⟩
    else
      isFalse (fun hex => by
        obtain ⟨row2, h2, hm2⟩ := hex
        rw [h] at h2
        cases h2
        exact hm hm2)
  | none =>
    isFalse (fun hex => by
      obtain ⟨row2, h2, _⟩ := hex
      rw [h] at h2
      cases h2)

/-- The requester of a listing: nobody for the anonymous token, else the commenter
the token resolves to -/
def specRequester (env : Env) (commenterToken : String) : Option Commenter :=
  if commenterToken = AnonymousCommenterHexID then none
  else
    match env.commenterGetByCommenterToken commenterToken with
    | Except.ok c => some c
    | Except.error _ => none

/-- The requester is the author of the comment -/
def specIsAuthor (commenter : Option Commenter) (r : CommentRow) : Bool :=
  match commenter with
  | some c => decide (c.commenterHex = r.commenterHex)
  | none => false

/-- The redaction of a listed comment in the words of the spec: the markdown is the
stored one for a moderator or the author and cleared for everyone else, the
state is the stored one for a moderator and cleared for everyone else, the
rendered HTML is the stored one. -/
def specRedacted (commenter : Option Commenter) (isModerator : Bool) (r : CommentRow) (x : Comment) :
    Prop :=
  x.markdown = (if isModerator || specIsAuthor commenter r then r.markdown else "") ∧
  x.state = (if isModerator then r.state else "") ∧
  x.html = r.html

/-- The redaction rule can be computed -/
instance specRedacted.decidable (commenter : Option Commenter) (isModerator : Bool) (r : CommentRow)
    (x : Comment) : Decidable (specRedacted commenter isModerator r x) :=
  inferInstanceAs (Decidable (_ ∧ _ ∧ _))

/-- What the spec says a deleted comment reads as: the row with the deleted flag
set, markdown and HTML replaced by the fixed tombstone and the author replaced
by the anonymous sentinel; identifier, parent and all other fields kept. -/
def specTombstone (r : CommentRow) : CommentRow :=
  { r with deleted := true, markdown := "[deleted]", html := "[deleted]",
           commenterHex := AnonymousCommenterHexID }

/-- The part of `ssoCallbackHandler` after the signature check: the token lookup,
the resolution or creation of the commenter and the binding of the session. -/
def ssoResolveAndBind (env : Env) (db1 : DB) (domain commenterToken : String) (payload : ssoPayload) :
    ssoResponse × DB :=
  let tokenErr : Option Error :=
    match env.commenterGetByCommenterToken commenterToken with
    | Except.error err => if err ≠ Error.NoSuchToken then some err else none
    | Except.ok _ => none
  match tokenErr with
  | some err => (ssoResponse.error err, db1)
  | none =>
    match commenterGetByEmail env db1 ("sso:" ++ domain) payload.email with
    | Except.error err =>
      if err ≠ Error.NoSuchCommenter then (ssoResponse.error err, db1)
      else
        match commenterNew env db1 payload.email payload.name payload.link payload.photo
            ("sso:" ++ domain) "" with
        | (Except.error err1, db2) => (ssoResponse.error err1, db2)
        | (Except.ok commenterHex, db2) =>
          match commenterSessionUpdate env db2 commenterToken commenterHex with
          | (Except.error err2, db3) => (ssoResponse.error err2, db3)
          | (Except.ok _, db3) => (ssoResponse.closeWindow, db3)
    | Except.ok c =>
      let db2 := (commenterUpdate env db1 c.commenterHex payload.email payload.name
        payload.link payload.photo ("sso:" ++ domain)).2
      match commenterSessionUpdate env db2 commenterToken c.commenterHex with
      | (Except.error err2, db3) => (ssoResponse.error err2, db3)
      | (Except.ok _, db3) => (ssoResponse.closeWindow, db3)

/-- The payload after the defaults for an absent link and photo -/
def ssoPayloadDefaults (payload0 : ssoPayload) : ssoPayload :=
  let payload1 : ssoPayload :=
    if payload0.link = "" then { payload0 with link := "undefined" } else payload0
  if payload1.photo = "" then { payload1 with photo := "undefined" } else payload1

/-- The session table after binding a token to a commenter -/
def specBound (sessions : List CommenterSessionRow) (commenterToken commenterHex : String) :
    List CommenterSessionRow :=
  sessions.map (fun s => if s.commenterToken = commenterToken then { s with commenterHex := commenterHex } else s)

/-- The gates of the SSO callback in the words of the spec, steps (a) to (e): the
payload and the signature decode, the payload parses with a token, an email
and a name, the token resolves to the row `t`, the domain `d` is loaded with
an SSO secret and a callback URL, and the signature matches. -/
def specSsoGates (env : Env) (db : DB) (payloadHex signature : String) (payload0 : ssoPayload)
    (t : SsoTokenRow) (d : Domain) : Prop :=
  ∃ payloadBytes signatureBytes key,
    env.hexDecodeString payloadHex = Except.ok payloadBytes ∧
    env.hexDecodeString signature = Except.ok signatureBytes ∧
    env.jsonUnmarshal payloadBytes = Except.ok payload0 ∧
    payload0.token ≠ "" ∧ payload0.email ≠ "" ∧ payload0.name ≠ "" ∧
    db.ssoTokens.find? (fun u => decide (u.token = payload0.token)) = some t ∧
    env.domainGet t.domain = Except.ok d ∧ d.ssoSecret ≠ "" ∧ d.ssoUrl ≠ "" ∧
    env.hexDecodeString d.ssoSecret = Except.ok key ∧
    env.hmacSha256 key payloadBytes = signatureBytes

/-! ## A concrete store and environment -/

/-- The commenter Alice -/
def alice : Commenter :=
  { commenterHex := "a11ce", email := "alice@example.com", name := "Alice", link := "undefined",
    photo := "undefined", provider := "commento", isModerator := false }

/-- The commenter Bob -/
def bob : Commenter :=
  { commenterHex := "b0b", email := "bob@example.com", name := "Bob", link := "undefined",
    photo := "undefined", provider := "commento", isModerator := false }

/-- The commenter Mod, whose email is a moderator of example.com -/
def moderatorMod : Commenter :=
  { commenterHex := "d00d", email := "mod@example.com", name := "Mod", link := "undefined",
    photo := "undefined", provider := "commento", isModerator := false }

/-- A domain that requires moderation and filters spam -/
def exampleDomain : Domain :=
  { domain := "example.com", state := "unfrozen", requireIdentification := false,
    requireModeration := true, moderateAllAnonymous := false, autoSpamFilter := true,
    moderators := [{ email := "mod@example.com" }], defaultSortPolicy := "score-desc",
    idps := [("commento", true)], ssoSecret := "0a0b", ssoUrl := "https://sso.example.com" }

/-- One hexadecimal digit -/
def hexDigit (c : Char) : Option Nat :=
  if c.toNat ≥ 48 ∧ c.toNat ≤ 57 then some (c.toNat - 48)
  else if c.toNat ≥ 97 ∧ c.toNat ≤ 102 then some (c.toNat - 87)
  else if c.toNat ≥ 65 ∧ c.toNat ≤ 70 then some (c.toNat - 55)
  else none

/-- Decoding of a string of hexadecimal digit pairs -/
def hexDecode : List Char → Except Error (List Nat)
  | [] => Except.ok []
  | [_] => Except.error (Error.Other "odd length hex string")
  | a :: b :: rest =>
    match hexDigit a, hexDigit b, hexDecode rest with
    | some x, some y, Except.ok bytes => Except.ok ((16 * x + y) :: bytes)
    | _, _, _ => Except.error (Error.Other "invalid byte")

/-- An environment without storage faults, with three bearer tokens, one domain, a
keyword spam oracle and a toy keyed digest. -/
def exampleEnv : Env :=
  { now := 100
    fault := fun _ => false
    randomHex := Except.ok "c0ffee"
    markdownToHTML := fun m => "<p>" ++ m ++ "</p>"
    checkForSpam := fun _ _ _ _ _ _ markdown => decide (markdown = "buy pills")
    commenterGetByCommenterToken := fun t =>
      if t = "token-alice" then Except.ok alice
      else if t = "token-bob" then Except.ok bob
      else if t = "token-mod" then Except.ok moderatorMod
      else Except.error Error.NoSuchToken
    commenterGetByHex := fun h =>
      if h = "a11ce" then Except.ok alice
      else if h = "b0b" then Except.ok bob
      else if h = "d00d" then Except.ok moderatorMod
      else Except.error Error.NoSuchCommenter
    domainGet := fun d =>
      if d = "example.com" then Except.ok exampleDomain else Except.error Error.NoSuchDomain
    hexDecodeString := fun s => hexDecode s.toList
    jsonUnmarshal := fun bytes =>
      if bytes = [1, 2, 3] then
        Except.ok { token := "sso-1", email := "carol@example.com", name := "Carol", link := "", photo := "" }
      else if bytes = [1, 2, 4] then
        Except.ok { token := "sso-1", email := "mallory@example.com", name := "Carol", link := "", photo := "" }
      else Except.error (Error.Other "invalid character")
    hmacSha256 := fun key message => [(key.sum + 7 * message.sum) % 256]
    federatedIdProviders := [("github", "github")]
    gothProviderConfigured := fun _ => false }

/-- Alice's approved comment -/
def aliceComment : CommentRow :=
  { commentHex := "c1", domain := "example.com", path := "/post", commenterHex := "a11ce",
    parentHex := "root", markdown := "hello", html := "<p>hello</p>", score := 0,
    state := "approved", deleted := false, creationDate := 1, deleterHex := none,
    deletionDate := none }

/-- Bob's pending reply to Alice -/
def bobReply : CommentRow :=
  { commentHex := "c2", domain := "example.com", path := "/post", commenterHex := "b0b",
    parentHex := "c1", markdown := "pending", html := "<p>pending</p>", score := 0,
    state := "unapproved", deleted := false, creationDate := 2, deleterHex := none,
    deletionDate := none }

/-- A comment that Alice has deleted -/
def deletedComment : CommentRow :=
  { commentHex := "c3", domain := "example.com", path := "/post", commenterHex := "anonymous",
    parentHex := "root", markdown := "[deleted]", html := "[deleted]", score := 0,
    state := "approved", deleted := true, creationDate := 3, deleterHex := some "a11ce",
    deletionDate := some 4 }

/-- A store with an approved comment by Alice, a pending reply by Bob and a deleted
comment on example.com, and Bob's upvote of Alice's comment. -/
def exampleDB : DB :=
  { comments := [aliceComment, bobReply, deletedComment]
    votes := [{ commentHex := "c1", commenterHex := "b0b", direction := 1, voteDate := 5 }]
    pages := [{ domain := "example.com", path := "/post", isLocked := false, commentCount := 1 }]
    moderators := [{ domain := "example.com", email := "mod@example.com" }]
    commenters := []
    commenterSessions := [{ commenterToken := "session-1", commenterHex := "none" }]
    ssoTokens := [{ token := "sso-1", domain := "example.com", commenterToken := "session-1" }] }

/-- What `commentList` returns to Bob, who is no moderator, on the example page:
Alice's comment without markdown and with his vote, and his own pending reply. -/
def exampleListingForBob : List Comment × List (String × Commenter) :=
  ([{ commentHex := "c1", commenterHex := "a11ce", markdown := "", html := "<p>hello</p>",
      parentHex := "root", score := 0, state := "", deleted := false, creationDate := 1, direction := 1 },
    { commentHex := "c2", commenterHex := "b0b", markdown := "pending", html := "<p>pending</p>",
      parentHex := "c1", score := 0, state := "", deleted := false, creationDate := 2, direction := 0 }],
   [("anonymous",
      { commenterHex := "anonymous", email := "undefined", name := "Anonymous", link := "undefined",
        photo := "undefined", provider := "undefined", isModerator := false }),
    ("a11ce", alice), ("b0b", bob)])

/-- Alice asks to delete her comment -/
def aliceDeletes : CommentHexParams := { commenterToken := "token-alice", commentHex := "c1" }

/-- Mod edits Alice's comment -/
def modEdits : CommentEditParams :=
  { commenterToken := "token-mod", commentHex := "c1", markdown := some "rewritten" }

/-- An anonymous reply to Alice's comment -/
def anonymousReply : CommentNewParams :=
  { domain := "example.com", path := "/post", commenterToken := "anonymous", parentHex := "c1",
    markdown := "first", userIP := "10.0.0.1", userAgent := "curl" }

/-- Requests that follow the deletion of Alice's comment: an approval by Mod, a
vote by Bob, a second deletion and an anonymous reply. -/
def requestsAfterDeletion : List (Env × CommentOp) :=
  [(exampleEnv, CommentOp.approve { commenterToken := "token-mod", commentHex := "c1" }),
   (exampleEnv, CommentOp.vote { commenterToken := "token-bob", commentHex := "c1", direction := -3 }),
   (exampleEnv, CommentOp.delete { commenterToken := "token-mod", commentHex := "c1" }),
   (exampleEnv, CommentOp.create anonymousReply)]

/-- The example store after Alice and then Mod have deleted Alice's comment -/
def deletedTwice : DB :=
  (commentDelete exampleEnv (commentDelete exampleEnv exampleDB "c1" "a11ce").2 "c1" "d00d").2

/-- The example environment at a later time -/
def exampleEnvLater : Env := { exampleEnv with now := 200 }

/-- The example store after Mod upvotes Alice's comment at time 100 -/
def votedOnce : DB := (commentVote exampleEnv exampleDB "d00d" "c1" 1).2

/-- The store after Mod then downvotes Alice's comment at time 200 -/
def votedTwice : DB := (commentVote exampleEnvLater votedOnce "d00d" "c1" (-1)).2

/-- An owner environment without storage faults; a digest matches the password it
is built from. -/
def exampleOwnerEnv : OwnerEnv :=
  { now := 300
    fault := fun _ => false
    randomHex := Except.ok "f00d"
    compareHashAndPassword := fun hash password => decide (hash = "bcrypt:" ++ password)
    wrongAuthDelay := 10 }

/-- The confirmed owner Olivia, who owns two domains -/
def olivia : OwnerRow :=
  { ownerHex := "0a", email := "olivia@example.com", name := "Olivia", passwordHash := "bcrypt:secret",
    confirmedEmail := true, joinDate := 1 }

/-- The owner Nina, whose email is not confirmed yet -/
def nina : OwnerRow :=
  { ownerHex := "0b", email := "nina@example.com", name := "Nina", passwordHash := "bcrypt:hunter2",
    confirmedEmail := false, joinDate := 2 }

/-- An owner store with two owners, a session and a reset token of Olivia, and
three domains -/
def exampleOwnerDB : OwnerDB :=
  { owners := [olivia, nina]
    ownerSessions := [{ ownerToken := "session-olivia", ownerHex := "0a", loginDate := 3 }]
    resetHexes := [{ resetHex := "reset-1", hex := "0a", entity := "owner" }]
    domains := [{ domain := "example.com", ownerHex := "0a" },
                { domain := "blog.example.com", ownerHex := "0a" },
                { domain := "other.org", ownerHex := "0b" }] }

/-- The example domain, frozen -/
def frozenDomain : Domain := { exampleDomain with state := "frozen" }

/-- The example environment with the domain frozen -/
def frozenEnv : Env := { exampleEnv with domainGet := fun _ => Except.ok frozenDomain }

/-- The directory entry that `CommentList` returns for an entry of `commentList`:
the moderator mark is set when the email is in the domain's moderator list,
and the email is cleared. -/
def CommentListEntry (domain : Domain) (e : String × Commenter) : String × Commenter :=
  (e.1, { e.2 with
    isModerator := if domain.moderators.any (fun mod => decide (mod.email = e.2.email)) then true
      else e.2.isModerator,
    email := "" })

/-! ## Theorems -/

/-- Membership of an email in the moderator list, as the loop of `CommentNew` computes it -/
theorem moderators_any_iff (mods : List DomainModerator) (email : String) :
    mods.any (fun mod => decide (mod.email = email)) = decide (email ∈ mods.map (fun m => m.email)) := by
  induction mods with
  | nil => simp
  | cons m ms ih =>
    simp only [List.any_cons, ih, List.map_cons, List.mem_cons]
    by_cases h : m.email = email
    · simp [h]
    · have h2 : ¬ email = m.email := fun e => h e.symm
      simp [h, h2]

/-- The projection of a row keeps its identifier, author, rendered HTML and deleted flag -/
theorem commentListRow_fixed (env : Env) (db : DB) (commenter : Option Commenter)
    (isModerator : Bool) (r : CommentRow) :
    (commentListRow env db commenter isModerator r).commentHex = r.commentHex ∧
    (commentListRow env db commenter isModerator r).commenterHex = r.commenterHex ∧
    (commentListRow env db commenter isModerator r).html = r.html ∧
    (commentListRow env db commenter isModerator r).deleted = r.deleted := by
  unfold commentListRow commentsRowScan
  cases isModerator <;> simp only [Bool.not_true, Bool.not_false, if_true, Bool.false_eq_true, if_false] <;>
    split_ifs <;> exact ⟨rfl, rfl, rfl, rfl⟩

/-- When the row loop of `commentList` returns, the comments are the accumulator
followed by the projections of the rows, in order. -/
theorem commentListLoop_ok (env : Env) (db : DB) (commenter : Option Commenter) (isModerator : Bool)
    (rows : List CommentRow) :
    ∀ (acc : List Comment) (dir : List (String × Commenter)) (comments : List Comment)
      (commenters : List (String × Commenter)),
      commentListLoop env db commenter isModerator rows acc dir = Except.ok (comments, commenters) →
      comments = acc ++ rows.map (commentListRow env db commenter isModerator) := by
  induction rows with
  | nil =>
    intro acc dir comments commenters h
    simp only [commentListLoop, Except.ok.injEq, Prod.mk.injEq] at h
    simp [h.1]
  | cons r rows ih =>
    intro acc dir comments commenters h
    rw [commentListLoop] at h
    split at h
    · simp at h
    · simp only [] at h
      split at h
      · rw [ih _ _ _ _ h]; simp
      · split at h
        · simp at h
        · rw [ih _ _ _ _ h]; simp

/-- When `commentList` returns, the comments are the projections of the rows that
its where-clause selects, in store order. -/
theorem commentList_ok (env : Env) (db : DB) (commenter : Option Commenter) (domain path : String)
    (isModerator : Bool) (comments : List Comment) (commenters : List (String × Commenter))
    (h : commentList env db commenter domain path isModerator = Except.ok (comments, commenters)) :
    comments = (db.comments.filter (commentListWhere commenter domain path isModerator)).map
      (commentListRow env db commenter isModerator) := by
  unfold commentList at h
  split at h
  · simp at h
  · simpa using commentListLoop_ok env db commenter isModerator _ _ _ _ _ h

/-- `CommentList` never raises the moderator flag without a commenter -/
theorem CommentListIsModerator_none (moderators : List DomainModerator) :
    CommentListIsModerator moderators none = false := by
  unfold CommentListIsModerator
  simp

/-- A successful `CommentList` has loaded the domain, resolved the requester and
answers with the comments that `commentList` returns for that requester and
the moderator flag computed from the domain's moderator list. -/
theorem CommentList_success (env : Env) (db : DB) (params : CommentListParams)
    (h : (CommentList env db params).1.success = true) :
    ∃ domain comments commenters,
      env.domainGet params.domain = Except.ok domain ∧
      commentList env db (specRequester env params.commenterToken) params.domain params.path
        (CommentListIsModerator domain.moderators (specRequester env params.commenterToken))
        = Except.ok (comments, commenters) ∧
      (CommentList env db params).1.comments = comments ∧
      (CommentList env db params).1.isModerator =
        CommentListIsModerator domain.moderators (specRequester env params.commenterToken) ∧
      (CommentList env db params).1.commenters.map (fun e => e.1) = commenters.map (fun e => e.1) := by
  unfold CommentList at h
  simp only [] at h
  split at h
  · simp [CommentListOKBody.failure] at h
  · rename_i domain hd
    split at h
    · simp [CommentListOKBody.failure] at h
    · rename_i page hp
      split at h
      · simp [CommentListOKBody.failure] at h
      · rename_i commenter hres
        have hreq : specRequester env params.commenterToken = commenter := by
          unfold specRequester
          by_cases htok : params.commenterToken = AnonymousCommenterHexID
          · rw [if_pos htok]
            rw [if_neg (not_not.mpr htok)] at hres
            exact (Except.ok.inj hres)
          · rw [if_neg htok]
            rw [if_pos htok] at hres
            split at hres
            · simp at hres
            · rename_i c hc
              rw [hc]
              exact Except.ok.inj hres
        split at h
        · simp [CommentListOKBody.failure] at h
        · rename_i comments commenters hl
          refine ⟨domain, comments, commenters, hd, ?_, ?_, ?_, ?_⟩
          · rw [hreq]; exact hl
          · unfold CommentList
            simp only [hd, hp, hres, hl]
          · unfold CommentList
            simp only [hd, hp, hres, hl, hreq]
          · unfold CommentList
            simp only [hd, hp, hres, hl, List.map_map]
            rfl

/-- The projection of a stored row by `commentList` is the spec's redaction of it,
when the moderator flag is resolved from the requesting commenter. -/
theorem commentListRow_redacted (env : Env) (db : DB) (commenter : Option Commenter)
    (isModerator : Bool) (hflag : commenter = none → isModerator = false) (r : CommentRow) :
    specRedacted commenter isModerator r (commentListRow env db commenter isModerator r) := by
  unfold specRedacted specIsAuthor commentListRow commentListHidesMarkdown commentsRowScan
  cases commenter with
  | none =>
    rw [hflag rfl]
    simp
  | some c =>
    cases isModerator
    · by_cases ha : c.commenterHex = r.commenterHex <;> simp [ha]
    · simp

/-- C3: with the moderator flag resolved from the requesting commenter, every
comment that `commentList` returns is the projection of a stored row of the
same identifier in which the markdown is the stored markdown when the requester
is a moderator or the author and is empty otherwise, the state is the stored
state for a moderator and is empty otherwise, and the rendered HTML is the
stored HTML; the same holds of every comment in a successful `CommentList`
response, for the requester and the moderator flag of that response. -/
theorem C3_commentList_redaction (env : Env) (db : DB) (commenter : Option Commenter)
    (domain path : String) (isModerator : Bool)
    (hflag : commenter = none → isModerator = false)
    (comments : List Comment) (commenters : List (String × Commenter))
    (h : commentList env db commenter domain path isModerator = Except.ok (comments, commenters)) :
    (∀ x ∈ comments, ∃ r ∈ db.comments, x.commentHex = r.commentHex ∧
      specRedacted commenter isModerator r x ∧
      ((isModerator = true ∨ ∃ c, commenter = some c ∧ c.commenterHex = r.commenterHex) →
        x.markdown = r.markdown) ∧
      (¬ (isModerator = true ∨ ∃ c, commenter = some c ∧ c.commenterHex = r.commenterHex) →
        x.markdown = "") ∧
      (isModerator = true → x.state = r.state) ∧
      (isModerator = false → x.state = "") ∧
      x.html = r.html) ∧
    (∀ params, (CommentList env db params).1.success = true →
      ∀ x ∈ (CommentList env db params).1.comments, ∃ r ∈ db.comments, x.commentHex = r.commentHex ∧
        specRedacted (specRequester env params.commenterToken)
          (CommentList env db params).1.isModerator r x) := by
  constructor
  · intro x hx
    rw [commentList_ok env db commenter domain path isModerator comments commenters h] at hx
    obtain ⟨r, hr, rfl⟩ := List.mem_map.1 hx
    have hfix := commentListRow_fixed env db commenter isModerator r
    have hred := commentListRow_redacted env db commenter isModerator hflag r
    refine ⟨r, List.mem_of_mem_filter hr, hfix.1, hred, ?_, ?_, ?_, ?_, hfix.2.2.1⟩
    · intro hrole
      rw [hred.1]
      rcases hrole with hm | ⟨c, hc, hauthor⟩
      · simp [hm]
      · subst hc
        simp [specIsAuthor, hauthor]
    · intro hrole
      rw [hred.1]
      have hm : isModerator = false := by
        cases isModerator
        · rfl
        · exact absurd (Or.inl rfl) hrole
      have ha : specIsAuthor commenter r = false := by
        unfold specIsAuthor
        cases commenter with
        | none => rfl
        | some c =>
          simp only [decide_eq_false_iff_not]
          exact fun e => hrole (Or.inr ⟨c, rfl, e⟩)
      simp [hm, ha]
    · intro hm
      rw [hred.2.1, hm]
      rfl
    · intro hm
      rw [hred.2.1, hm]
      rfl
  · intro params hs x hx
    obtain ⟨dom, cs, dir, _, hl, hc, hm, _⟩ := CommentList_success env db params hs
    rw [hc, commentList_ok env db _ _ _ _ cs dir hl] at hx
    obtain ⟨r, hr, rfl⟩ := List.mem_map.1 hx
    rw [hm]
    refine ⟨r, List.mem_of_mem_filter hr, (commentListRow_fixed env db _ _ r).1, ?_⟩
    apply commentListRow_redacted
    intro hn
    rw [hn]
    exact CommentListIsModerator_none _

/-- Witness of C3: in Bob's listing of the example page his own pending reply keeps
its markdown, and its state is cleared. -/
theorem C3_commentList_redaction_witness :
    ∃ r ∈ exampleDB.comments, r.commentHex = "c2" ∧ r.markdown = "pending" ∧ r.state = "unapproved" ∧
      ∃ x ∈ exampleListingForBob.1, x.commentHex = "c2" ∧ x.markdown = r.markdown ∧ x.state = "" := by
  obtain ⟨r, hr, h1, _, h2, _, _, h5, _⟩ :=
    (C3_commentList_redaction exampleEnv exampleDB (some bob) "example.com" "/post" false
      (fun h => Option.noConfusion h) exampleListingForBob.1 exampleListingForBob.2 rfl).1
      { commentHex := "c2", commenterHex := "b0b", markdown := "pending", html := "<p>pending</p>",
        parentHex := "c1", score := 0, state := "", deleted := false, creationDate := 2, direction := 0 }
      (by decide)
  simp only [exampleDB, List.mem_cons, List.mem_singleton, List.not_mem_nil, or_false] at hr
  rcases hr with rfl | rfl | rfl
  · exact absurd h1 (by decide)
  · exact ⟨_, by decide, rfl, rfl, rfl, _, by decide, rfl, h2 (Or.inr ⟨bob, rfl, rfl⟩), h5 rfl⟩
  · exact absurd h1 (by decide)

/-- `CommentDelete` for a resolved caller and a found comment: the gate, then the deletion -/
theorem CommentDelete_resolved (env : Env) (db : DB) (params : CommentHexParams)
    (commenter : Commenter) (comment : Comment)
    (hc : env.commenterGetByCommenterToken params.commenterToken = Except.ok commenter)
    (hcm : commentGetByCommentHex env db params.commentHex = Except.ok comment) :
    CommentDelete env db params =
      match moderatorGate env db params.commentHex comment commenter with
      | some err => (APIResponseBase.failure err, db)
      | none => deleteOutcome env db params.commentHex commenter.commenterHex := by
  unfold CommentDelete
  rw [hc, hcm]
  rfl

/-- `CommentEdit` for a resolved caller and a found comment: the gate, then the edit -/
theorem CommentEdit_resolved (env : Env) (db : DB) (params : CommentEditParams)
    (commenter : Commenter) (comment : Comment)
    (hc : env.commenterGetByCommenterToken params.commenterToken = Except.ok commenter)
    (hcm : commentGetByCommentHex env db params.commentHex = Except.ok comment) :
    CommentEdit env db params =
      match moderatorGate env db params.commentHex comment commenter with
      | some err => (CommentEditOKBody.failure err, db)
      | none => editOutcome env db params.commentHex params.markdown := by
  unfold CommentEdit
  rw [hc, hcm]
  rfl

/-- A found comment is the scan of the first row with its identifier -/
theorem commentGetByCommentHex_ok (env : Env) (db : DB) (commentHex : String) (comment : Comment)
    (h : commentGetByCommentHex env db commentHex = Except.ok comment) :
    commentHex ≠ "" ∧ ∃ row, db.comments.find? (fun r => decide (r.commentHex = commentHex)) = some row ∧
      comment = commentsRowScan row := by
  unfold commentGetByCommentHex at h
  split at h
  · simp at h
  · split at h
    · simp at h
    · split at h
      · simp at h
      · rename_i hne _ _ row hrow
        exact ⟨hne, row, hrow, (Except.ok.inj h).symm⟩

/-- The gate lets the author through -/
theorem moderatorGate_author (env : Env) (db : DB) (commentHex : String) (comment : Comment)
    (commenter : Commenter) (h : comment.commenterHex = commenter.commenterHex) :
    moderatorGate env db commentHex comment commenter = none := by
  unfold moderatorGate
  rw [if_neg (not_not.mpr h)]

/-- The gate for a caller who is not the author: it opens only for a moderator of
the comment's domain, it is shut for everyone else, with `NotModerator` when the
two lookups report no fault, and it opens for a moderator when they report none. -/
theorem moderatorGate_other (env : Env) (db : DB) (commentHex : String) (comment : Comment)
    (commenter : Commenter) (h : comment.commenterHex ≠ commenter.commenterHex) :
    (moderatorGate env db commentHex comment commenter = none →
      specModeratorOf db commentHex commenter.email) ∧
    (¬ specModeratorOf db commentHex commenter.email →
      ∃ err, moderatorGate env db commentHex comment commenter = some err) ∧
    (commentHex ≠ "" → env.fault Stmt.commentDomainPathGetSelect = false →
      env.fault Stmt.isDomainModeratorSelect = false →
      ∀ row, db.comments.find? (fun r => decide (r.commentHex = commentHex)) = some row →
      moderatorGate env db commentHex comment commenter =
        if ({ domain := row.domain, email := commenter.email } : ModeratorRow) ∈ db.moderators then none
        else some Error.NotModerator) := by
  have hany : ∀ domain : String,
      db.moderators.any (fun m => decide (m.domain = domain) && decide (m.email = commenter.email)) = true ↔
      ({ domain := domain, email := commenter.email } : ModeratorRow) ∈ db.moderators := by
    intro domain
    rw [List.any_eq_true]
    constructor
    · rintro ⟨m, hm, hp⟩
      simp only [Bool.and_eq_true, decide_eq_true_eq] at hp
      obtain ⟨h1, h2⟩ := hp
      cases m
      simp only at h1 h2
      subst h1 h2
      exact hm
    · intro hm
      exact ⟨_, hm, by simp⟩
  have hopen : moderatorGate env db commentHex comment commenter = none →
      specModeratorOf db commentHex commenter.email := by
    intro hg
    unfold moderatorGate at hg
    rw [if_pos h] at hg
    unfold commentDomainPathGet isDomainModerator at hg
    split at hg
    · simp at hg
    · rename_i domain path hdp
      split at hdp
      · simp at hdp
      · split at hdp
        · simp at hdp
        · split at hdp
          · simp at hdp
          · rename_i row hrow
            simp only [Except.ok.injEq, Prod.mk.injEq] at hdp
            split at hg
            · simp at hg
            · rename_i isMod him
              split at him
              · simp at him
              · have him2 := Except.ok.inj him
                cases hmod : isMod with
                | false => rw [hmod] at hg; simp at hg
                | true =>
                  rw [hmod] at him2
                  refine ⟨row, hrow, ?_⟩
                  rw [hdp.1]
                  exact (hany domain).1 him2
  refine ⟨hopen, ?_, ?_⟩
  · intro hnot
    cases hg : moderatorGate env db commentHex comment commenter with
    | none => exact absurd (hopen hg) hnot
    | some err => exact ⟨err, rfl⟩
  · intro hne hf1 hf2 row hrow
    unfold moderatorGate
    rw [if_pos h]
    unfold commentDomainPathGet isDomainModerator
    simp only [hne, hf1, hf2, hrow, if_false, Bool.false_eq_true]
    by_cases hm : ({ domain := row.domain, email := commenter.email } : ModeratorRow) ∈ db.moderators
    · rw [if_pos hm, (hany row.domain).2 hm]
      rfl
    · rw [if_neg hm]
      have : db.moderators.any (fun m => decide (m.domain = row.domain) &&
          decide (m.email = commenter.email)) = false := by
        cases hb : db.moderators.any (fun m => decide (m.domain = row.domain) &&
          decide (m.email = commenter.email)) with
        | false => rfl
        | true => exact absurd ((hany row.domain).1 hb) hm
      rw [this]
      rfl

/-- C4: for a resolved caller and a found comment, `CommentDelete` and `CommentEdit`
(1) for the author yield exactly the outcome of the mutation, whatever the
moderator list holds, and succeed when the update reports no fault;
(2) for any other caller change the store or succeed only if the caller's email
is in the moderator list of the comment's domain; otherwise they fail and leave
the store unchanged, with `NotModerator` when the two lookups report no fault;
and for such a moderator they yield the outcome of the mutation. -/
theorem C4_edit_delete_authorisation (env : Env) (db : DB) (token commentHex : String)
    (markdown : Option String) (commenter : Commenter) (comment : Comment)
    (hc : env.commenterGetByCommenterToken token = Except.ok commenter)
    (hcm : commentGetByCommentHex env db commentHex = Except.ok comment) :
    (comment.commenterHex = commenter.commenterHex →
      (CommentDelete env db { commenterToken := token, commentHex := commentHex }) = deleteOutcome env db commentHex commenter.commenterHex ∧
      (CommentEdit env db { commenterToken := token, commentHex := commentHex, markdown := markdown }) = editOutcome env db commentHex markdown ∧
      (env.fault Stmt.commentDeleteUpdate = false → commenter.commenterHex ≠ "" →
        (CommentDelete env db { commenterToken := token, commentHex := commentHex }).1.success = true) ∧
      (env.fault Stmt.commentEditUpdate = false → (CommentEdit env db { commenterToken := token, commentHex := commentHex, markdown := markdown }).1.success = true)) ∧
    (comment.commenterHex ≠ commenter.commenterHex →
      (((CommentDelete env db { commenterToken := token, commentHex := commentHex }).1.success = true ∨ (CommentDelete env db { commenterToken := token, commentHex := commentHex }).2 ≠ db ∨
        (CommentEdit env db { commenterToken := token, commentHex := commentHex, markdown := markdown }).1.success = true ∨ (CommentEdit env db { commenterToken := token, commentHex := commentHex, markdown := markdown }).2 ≠ db) →
        specModeratorOf db commentHex commenter.email) ∧
      (¬ specModeratorOf db commentHex commenter.email →
        (CommentDelete env db { commenterToken := token, commentHex := commentHex }).1.success = false ∧ (CommentDelete env db { commenterToken := token, commentHex := commentHex }).2 = db ∧
        (CommentEdit env db { commenterToken := token, commentHex := commentHex, markdown := markdown }).1.success = false ∧ (CommentEdit env db { commenterToken := token, commentHex := commentHex, markdown := markdown }).2 = db ∧
        (env.fault Stmt.commentDomainPathGetSelect = false →
          env.fault Stmt.isDomainModeratorSelect = false →
          (CommentDelete env db { commenterToken := token, commentHex := commentHex }).1.message = some Error.NotModerator ∧
          (CommentEdit env db { commenterToken := token, commentHex := commentHex, markdown := markdown }).1.message = some Error.NotModerator)) ∧
      (specModeratorOf db commentHex commenter.email →
        env.fault Stmt.commentDomainPathGetSelect = false →
        env.fault Stmt.isDomainModeratorSelect = false →
        (CommentDelete env db { commenterToken := token, commentHex := commentHex }) = deleteOutcome env db commentHex commenter.commenterHex ∧
        (CommentEdit env db { commenterToken := token, commentHex := commentHex, markdown := markdown }) = editOutcome env db commentHex markdown)) := by
  have hD := CommentDelete_resolved env db { commenterToken := token, commentHex := commentHex }
    commenter comment hc hcm
  have hE := CommentEdit_resolved env db
    { commenterToken := token, commentHex := commentHex, markdown := markdown } commenter comment hc hcm
  simp only at hD hE
  obtain ⟨hne, row, hrow, _⟩ := commentGetByCommentHex_ok env db commentHex comment hcm
  constructor
  · intro hauthor
    have hg := moderatorGate_author env db commentHex comment commenter hauthor
    rw [hg] at hD hE
    simp only at hD hE
    refine ⟨hD, hE, ?_, ?_⟩
    · intro hf hdel
      rw [hD]
      unfold deleteOutcome commentDelete
      simp [hne, hdel, hf, APIResponseBase.succeeded]
    · intro hf
      rw [hE]
      unfold editOutcome commentEdit
      simp [hf]
  · intro hother
    obtain ⟨hopen, hshut, hexact⟩ := moderatorGate_other env db commentHex comment commenter hother
    refine ⟨?_, ?_, ?_⟩
    · intro hany
      cases hg : moderatorGate env db commentHex comment commenter with
      | none => exact hopen hg
      | some err =>
        rw [hg] at hD hE
        simp only at hD hE
        rw [hD, hE] at hany
        simp [APIResponseBase.failure, CommentEditOKBody.failure] at hany
    · intro hnot
      obtain ⟨err, hg⟩ := hshut hnot
      rw [hg] at hD hE
      simp only at hD hE
      rw [hD, hE]
      refine ⟨rfl, rfl, rfl, rfl, ?_⟩
      intro hf1 hf2
      have := hexact hne hf1 hf2 row hrow
      rw [hg, if_neg (fun hm => hnot ⟨row, hrow, hm⟩)] at this
      cases this
      exact ⟨rfl, rfl⟩
    · intro hmod hf1 hf2
      obtain ⟨row2, hrow2, hm⟩ := hmod
      have hg := hexact hne hf1 hf2 row2 hrow2
      rw [if_pos hm] at hg
      rw [hg] at hD hE
      exact ⟨hD, hE⟩

/-- Witness of C4: Bob, neither author nor moderator, cannot delete Alice's comment -/
theorem C4_edit_delete_authorisation_witness :
    (CommentDelete exampleEnv exampleDB { commenterToken := "token-bob", commentHex := "c1" }).1.message
      = some Error.NotModerator ∧
    (CommentDelete exampleEnv exampleDB { commenterToken := "token-bob", commentHex := "c1" }).2
      = exampleDB := by
  have h := (C4_edit_delete_authorisation exampleEnv exampleDB "token-bob" "c1" none bob
    (commentsRowScan aliceComment) rfl rfl).2 (by decide)
  have hnot : ¬ specModeratorOf exampleDB "c1" bob.email := by decide
  obtain ⟨_, hdb, _, _, hmsg⟩ := h.2.1 hnot
  exact ⟨(hmsg rfl rfl).1, hdb⟩

/-! ### Effect of the handlers on the store -/

/-- `CommentEdit` leaves the store alone or performs the update of `commentEdit` -/
theorem CommentEdit_store (env : Env) (db : DB) (params : CommentEditParams) :
    (CommentEdit env db params).2 = db ∨
    (CommentEdit env db params).2 =
      (commentEdit env db params.commentHex (params.markdown.getD "")
        (env.markdownToHTML (params.markdown.getD ""))).2 := by
  unfold CommentEdit
  split
  · exact Or.inl rfl
  · split
    · exact Or.inl rfl
    · simp only []
      split
      · exact Or.inl rfl
      · split
        · rename_i h; right; rw [h]
        · rename_i h; right; rw [h]

/-- `CommentDelete` leaves the store alone or performs the update of `commentDelete` -/
theorem CommentDelete_store (env : Env) (db : DB) (params : CommentHexParams) :
    (CommentDelete env db params).2 = db ∨
    ∃ deleterHex, (CommentDelete env db params).2 =
      (commentDelete env db params.commentHex deleterHex).2 := by
  unfold CommentDelete
  split
  · exact Or.inl rfl
  · split
    · exact Or.inl rfl
    · simp only []
      split
      · exact Or.inl rfl
      · split
        · rename_i h; right; exact ⟨_, by rw [h]⟩
        · rename_i h; right; exact ⟨_, by rw [h]⟩

/-- `CommentApprove` leaves the store alone or performs the update of `commentApprove` -/
theorem CommentApprove_store (env : Env) (db : DB) (params : CommentHexParams) :
    (CommentApprove env db params).2 = db ∨
    (CommentApprove env db params).2 = (commentApprove env db params.commentHex).2 := by
  unfold CommentApprove
  split
  · exact Or.inl rfl
  · split
    · exact Or.inl rfl
    · split
      · exact Or.inl rfl
      · split
        · exact Or.inl rfl
        · split
          · rename_i h; right; rw [h]
          · rename_i h; right; rw [h]

/-- `CommentVote` leaves the store alone or performs the upsert of `commentVote`
with a direction among -1, 0 and 1 -/
theorem CommentVote_store (env : Env) (db : DB) (params : CommentVoteParams) :
    (CommentVote env db params).2 = db ∨
    ∃ voterHex direction, (CommentVote env db params).2 =
      (commentVote env db voterHex params.commentHex direction).2 := by
  unfold CommentVote
  split
  · exact Or.inl rfl
  · split
    · exact Or.inl rfl
    · simp only []
      split
      · rename_i h; right; exact ⟨_, _, by rw [h]⟩
      · rename_i h; right; exact ⟨_, _, by rw [h]⟩

/-- `pageNew` only writes to table `pages` -/
theorem pageNew_tables (env : Env) (db : DB) (domain path : String) :
    (pageNew env db domain path).2.comments = db.comments ∧
    (pageNew env db domain path).2.votes = db.votes ∧
    (pageNew env db domain path).2.commenters = db.commenters ∧
    (pageNew env db domain path).2.commenterSessions = db.commenterSessions := by
  unfold pageNew
  split_ifs <;> exact ⟨rfl, rfl, rfl, rfl⟩

/-- `commentNew` leaves table `comments` alone or appends one row whose identifier is new -/
theorem commentNew_comments (env : Env) (db : DB) (commenterHex domain path parentHex markdown
    state : String) (creationDate : Nat) :
    (commentNew env db commenterHex domain path parentHex markdown state creationDate).2.comments
      = db.comments ∨
    ∃ row, (∀ r ∈ db.comments, r.commentHex ≠ row.commentHex) ∧ row.deleted = false ∧
      (commentNew env db commenterHex domain path parentHex markdown state creationDate).2.comments
        = db.comments ++ [row] := by
  unfold commentNew
  split
  · exact Or.inl rfl
  · split
    · exact Or.inl rfl
    · split
      · exact Or.inl rfl
      · split
        · exact Or.inl rfl
        · simp only []
          split
          · rename_i h
            left
            have := (pageNew_tables env db domain path).1
            rw [h] at this
            exact this
          · rename_i h
            have hp := (pageNew_tables env db domain path).1
            rw [h] at hp
            simp only at hp
            split
            · left; exact hp
            · rename_i hfree
              right
              refine ⟨_, ?_, ?_, by simp only [hp]; rfl⟩
              · intro r hr hEq
                apply hfree
                simp only [Bool.or_eq_true, List.any_eq_true, decide_eq_true_eq]
                right
                exact ⟨r, by rw [hp]; exact hr, hEq⟩
              · rfl

/-- `CommentNew` leaves table `comments` alone or appends one row whose identifier is new -/
theorem CommentNew_comments (env : Env) (db : DB) (params : CommentNewParams) :
    (CommentNew env db params).2.1.comments = db.comments ∨
    ∃ row, (∀ r ∈ db.comments, r.commentHex ≠ row.commentHex) ∧ row.deleted = false ∧
      (CommentNew env db params).2.1.comments = db.comments ++ [row] := by
  unfold CommentNew
  simp only []
  split
  · exact Or.inl rfl
  · split
    · exact Or.inl rfl
    · split
      · exact Or.inl rfl
      · split
        · exact Or.inl rfl
        · rename_i _ domain _ _ _ _ hex email name link isMod _
          have key := commentNew_comments env db hex params.domain params.path params.parentHex
            params.markdown (CommentNewState env domain params hex email name link isMod) env.now
          split
          · rename_i h
            rw [h] at key
            exact key
          · rename_i h
            rw [h] at key
            exact key

/-- Every request maps the rows of `comments` one by one, keeping identifier, parent
and a set deleted flag, and appends at most rows with new identifiers; unless
it is an edit of the comment, it keeps a tombstone content. -/
theorem CommentOp_run_comments (env : Env) (db : DB) (op : CommentOp) :
    ∃ (f : CommentRow → CommentRow) (extra : List CommentRow),
      (op.run env db).comments = db.comments.map f ++ extra ∧
      (∀ r, (f r).commentHex = r.commentHex ∧ (f r).parentHex = r.parentHex ∧
        (r.deleted = true → (f r).deleted = true)) ∧
      (∀ x ∈ extra, ∀ r ∈ db.comments, r.commentHex ≠ x.commentHex) ∧
      (∀ commentHex, op.editsComment commentHex = false → ∀ r, r.commentHex = commentHex →
        r.markdown = "[deleted]" ∧ r.html = "[deleted]" →
        (f r).markdown = "[deleted]" ∧ (f r).html = "[deleted]") := by
  have hid : ∃ (f : CommentRow → CommentRow) (extra : List CommentRow),
      db.comments = db.comments.map f ++ extra ∧
      (∀ r, (f r).commentHex = r.commentHex ∧ (f r).parentHex = r.parentHex ∧
        (r.deleted = true → (f r).deleted = true)) ∧
      (∀ x ∈ extra, ∀ r ∈ db.comments, r.commentHex ≠ x.commentHex) ∧
      (∀ commentHex, op.editsComment commentHex = false → ∀ r, r.commentHex = commentHex →
        r.markdown = "[deleted]" ∧ r.html = "[deleted]" →
        (f r).markdown = "[deleted]" ∧ (f r).html = "[deleted]") :=
    ⟨id, [], by simp, fun r => ⟨rfl, rfl, id⟩, by simp, fun _ _ _ _ h => h⟩
  cases op with
  | edit params =>
    show ∃ f extra, (CommentEdit env db params).2.comments = _ ∧ _
    rcases CommentEdit_store env db params with h | h
    · rw [h]; exact hid
    · rw [h]
      unfold commentEdit
      split
      · exact hid
      · refine ⟨_, [], (List.append_nil _).symm, ?_, by simp, ?_⟩
        · intro r
          by_cases hr : r.commentHex = params.commentHex <;> simp [hr]
        · intro commentHex hop r hr hcontent
          have hne : ¬ r.commentHex = params.commentHex := by
            intro e
            simp only [CommentOp.editsComment, decide_eq_false_iff_not] at hop
            exact hop (e.symm.trans hr)
          simp only [hne, if_false]
          exact hcontent
  | approve params =>
    show ∃ f extra, (CommentApprove env db params).2.comments = _ ∧ _
    rcases CommentApprove_store env db params with h | h
    · rw [h]; exact hid
    · rw [h]
      unfold commentApprove
      split
      · exact hid
      · split
        · exact hid
        · refine ⟨_, [], (List.append_nil _).symm, ?_, by simp, ?_⟩
          · intro r
            by_cases hr : r.commentHex = params.commentHex <;> simp [hr]
          · intro commentHex _ r _ hcontent
            by_cases hr : r.commentHex = params.commentHex <;> simp [hr, hcontent]
  | delete params =>
    show ∃ f extra, (CommentDelete env db params).2.comments = _ ∧ _
    rcases CommentDelete_store env db params with h | ⟨deleterHex, h⟩
    · rw [h]; exact hid
    · rw [h]
      unfold commentDelete
      split
      · exact hid
      · split
        · exact hid
        · refine ⟨_, [], (List.append_nil _).symm, ?_, by simp, ?_⟩
          · intro r
            by_cases hr : r.commentHex = params.commentHex <;> simp [hr]
          · intro commentHex _ r _ hcontent
            by_cases hr : r.commentHex = params.commentHex <;> simp [hr, hcontent]
  | vote params =>
    show ∃ f extra, (CommentVote env db params).2.comments = _ ∧ _
    rcases CommentVote_store env db params with h | ⟨voterHex, direction, h⟩
    · rw [h]; exact hid
    · rw [h]
      unfold commentVote
      split
      · exact hid
      · simp only []
        split
        · exact hid
        · split_ifs <;> exact hid
  | create params =>
    show ∃ f extra, (CommentNew env db params).2.1.comments = _ ∧ _
    rcases CommentNew_comments env db params with h | ⟨row, hnew, _, h⟩
    · rw [h]; exact hid
    · rw [h]
      refine ⟨id, [row], by simp, fun r => ⟨rfl, rfl, id⟩, ?_, fun _ _ _ _ hc => hc⟩
      intro x hx r hr
      rw [List.mem_singleton.1 hx]
      exact hnew r hr

/-- One request keeps a deleted comment present and deleted, and keeps its
tombstone content unless the request is an edit of that comment. -/
theorem CommentOp_run_keeps_deleted (env : Env) (db : DB) (op : CommentOp) (commentHex : String)
    (hE : ∃ r ∈ db.comments, r.commentHex = commentHex)
    (hD : ∀ r ∈ db.comments, r.commentHex = commentHex → r.deleted = true) :
    (∃ r ∈ (op.run env db).comments, r.commentHex = commentHex) ∧
    (∀ r ∈ (op.run env db).comments, r.commentHex = commentHex → r.deleted = true) ∧
    (op.editsComment commentHex = false →
      (∀ r ∈ db.comments, r.commentHex = commentHex → r.markdown = "[deleted]" ∧ r.html = "[deleted]") →
      ∀ r ∈ (op.run env db).comments, r.commentHex = commentHex →
        r.markdown = "[deleted]" ∧ r.html = "[deleted]") := by
  obtain ⟨f, extra, hrun, hf, hextra, hcontent⟩ := CommentOp_run_comments env db op
  obtain ⟨r0, hr0, hr0hex⟩ := hE
  have hsplit : ∀ r ∈ (op.run env db).comments, r.commentHex = commentHex →
      ∃ r1 ∈ db.comments, r = f r1 ∧ r1.commentHex = commentHex := by
    intro r hr hhex
    rw [hrun, List.mem_append] at hr
    rcases hr with hr | hr
    · obtain ⟨r1, hr1, rfl⟩ := List.mem_map.1 hr
      exact ⟨r1, hr1, rfl, by rw [← (hf r1).1]; exact hhex⟩
    · exact absurd (hr0hex.trans hhex.symm) (hextra r hr r0 hr0)
  refine ⟨⟨f r0, ?_, by rw [(hf r0).1]; exact hr0hex⟩, ?_, ?_⟩
  · rw [hrun]
    exact List.mem_append_left _ (List.mem_map_of_mem f hr0)
  · intro r hr hhex
    obtain ⟨r1, hr1, rfl, h1⟩ := hsplit r hr hhex
    exact (hf r1).2.2 (hD r1 hr1 h1)
  · intro hop hC r hr hhex
    obtain ⟨r1, hr1, rfl, h1⟩ := hsplit r hr hhex
    exact hcontent commentHex hop r1 h1 (hC r1 hr1 h1)

/-- Any sequence of requests keeps a deleted comment present and deleted, and keeps
its tombstone content when no request of the sequence is an edit of that comment. -/
theorem runOps_keeps_deleted (commentHex : String) (ops : List (Env × CommentOp)) :
    ∀ db : DB, (∃ r ∈ db.comments, r.commentHex = commentHex) →
      (∀ r ∈ db.comments, r.commentHex = commentHex → r.deleted = true) →
      (∃ r ∈ (runOps db ops).comments, r.commentHex = commentHex) ∧
      (∀ r ∈ (runOps db ops).comments, r.commentHex = commentHex → r.deleted = true) ∧
      ((∀ e ∈ ops, e.2.editsComment commentHex = false) →
        (∀ r ∈ db.comments, r.commentHex = commentHex → r.markdown = "[deleted]" ∧ r.html = "[deleted]") →
        ∀ r ∈ (runOps db ops).comments, r.commentHex = commentHex →
          r.markdown = "[deleted]" ∧ r.html = "[deleted]") := by
  induction ops with
  | nil =>
    intro db hE hD
    exact ⟨hE, hD, fun _ hC => hC⟩
  | cons e ops ih =>
    intro db hE hD
    obtain ⟨env, op⟩ := e
    obtain ⟨hE1, hD1, hC1⟩ := CommentOp_run_keeps_deleted env db op commentHex hE hD
    obtain ⟨hE2, hD2, hC2⟩ := ih (op.run env db) hE1 hD1
    refine ⟨hE2, hD2, ?_⟩
    intro hops hC
    exact hC2 (fun e he => hops e (List.mem_cons_of_mem _ he))
      (hC1 (hops (env, op) (List.mem_cons_self _ _)) hC)

/-- A successful `CommentDelete` has run the update of `commentDelete` -/
theorem CommentDelete_success (env : Env) (db : DB) (params : CommentHexParams)
    (h : (CommentDelete env db params).1.success = true) :
    ∃ deleterHex, (CommentDelete env db params).2.comments = db.comments.map (fun r =>
      if r.commentHex = params.commentHex then
        { r with deleted := true, markdown := "[deleted]", html := "[deleted]",
                 commenterHex := "anonymous", deleterHex := some deleterHex,
                 deletionDate := some env.now }
      else r) := by
  unfold CommentDelete at h ⊢
  split at h
  · simp [APIResponseBase.failure] at h
  · split at h
    · simp [APIResponseBase.failure] at h
    · simp only [] at h ⊢
      split at h
      · simp [APIResponseBase.failure] at h
      · split at h
        · simp [APIResponseBase.failure] at h
        · rename_i hdel
          unfold commentDelete at hdel
          split at hdel
          · simp at hdel
          · split at hdel
            · simp at hdel
            · simp only [Prod.mk.injEq] at hdel
              rw [← hdel.2]
              exact ⟨_, rfl⟩

/-- C5 (amended): once `CommentDelete` has succeeded on an existing comment, the
comment is deleted with tombstone markdown and HTML, and in every state reached
afterwards by any sequence of edit, approve, delete, vote and create requests
the comment is still present with `deleted = true`; its markdown and HTML are
still the tombstone `[deleted]` as long as none of the requests is an edit of
that comment. -/
theorem C5_deleted_flag_permanent (env : Env) (db : DB) (params : CommentHexParams)
    (ops : List (Env × CommentOp))
    (hexists : ∃ r ∈ db.comments, r.commentHex = params.commentHex)
    (hsucc : (CommentDelete env db params).1.success = true) :
    (∀ r ∈ (CommentDelete env db params).2.comments, r.commentHex = params.commentHex →
      r.deleted = true ∧ r.markdown = "[deleted]" ∧ r.html = "[deleted]") ∧
    (∃ r ∈ (runOps (CommentDelete env db params).2 ops).comments, r.commentHex = params.commentHex) ∧
    (∀ r ∈ (runOps (CommentDelete env db params).2 ops).comments,
      r.commentHex = params.commentHex → r.deleted = true) ∧
    ((∀ e ∈ ops, e.2.editsComment params.commentHex = false) →
      ∀ r ∈ (runOps (CommentDelete env db params).2 ops).comments,
        r.commentHex = params.commentHex → r.markdown = "[deleted]" ∧ r.html = "[deleted]") := by
  obtain ⟨deleterHex, hdb⟩ := CommentDelete_success env db params hsucc
  have hT : ∀ r ∈ (CommentDelete env db params).2.comments, r.commentHex = params.commentHex →
      r.deleted = true ∧ r.markdown = "[deleted]" ∧ r.html = "[deleted]" := by
    intro r hr hhex
    rw [hdb] at hr
    obtain ⟨r1, _, rfl⟩ := List.mem_map.1 hr
    by_cases h1 : r1.commentHex = params.commentHex
    · simp [h1]
    · simp [h1] at hhex
  have hE : ∃ r ∈ (CommentDelete env db params).2.comments, r.commentHex = params.commentHex := by
    obtain ⟨r0, hr0, h0⟩ := hexists
    rw [hdb]
    refine ⟨_, List.mem_map_of_mem _ hr0, ?_⟩
    simp [h0]
  obtain ⟨h1, h2, h3⟩ := runOps_keeps_deleted params.commentHex ops _ hE (fun r hr hh => (hT r hr hh).1)
  exact ⟨hT, h1, h2, fun hops => h3 hops (fun r hr hh => (hT r hr hh).2)⟩

/-- Witness of C5 (amended): after Alice deletes her comment, an approval by Mod, a
vote by Bob, a second deletion and a new comment leave it deleted with the
tombstone content. -/
theorem C5_deleted_flag_permanent_witness :
    (∃ r ∈ (runOps (CommentDelete exampleEnv exampleDB aliceDeletes).2 requestsAfterDeletion).comments,
      r.commentHex = "c1") ∧
    ¬ ∃ r ∈ (runOps (CommentDelete exampleEnv exampleDB aliceDeletes).2 requestsAfterDeletion).comments,
      r.commentHex = "c1" ∧ ¬ (r.deleted = true ∧ r.markdown = "[deleted]" ∧ r.html = "[deleted]") := by
  have h := C5_deleted_flag_permanent exampleEnv exampleDB aliceDeletes requestsAfterDeletion
    (by decide) (by decide)
  refine ⟨h.2.1, ?_⟩
  rintro ⟨r, hr, hhex, hn⟩
  exact hn ⟨h.2.2.1 r hr hhex, h.2.2.2 (by decide) r hr hhex⟩

/-- Counterexample to C5 as stated: Alice deletes her comment, which then reads as
the tombstone; the moderator Mod edits the deleted comment, and the edit goes
through: the comment is still deleted but its markdown and HTML are the edit's. -/
theorem C5_tombstone_overwritten_by_edit :
    (CommentDelete exampleEnv exampleDB aliceDeletes).1.success = true ∧
    (∀ r ∈ (CommentDelete exampleEnv exampleDB aliceDeletes).2.comments,
      r.commentHex = "c1" → r.deleted = true ∧ r.markdown = "[deleted]" ∧ r.html = "[deleted]") ∧
    (CommentEdit exampleEnv (CommentDelete exampleEnv exampleDB aliceDeletes).2 modEdits).1.success = true ∧
    ¬ (∀ r ∈ (runOps (CommentDelete exampleEnv exampleDB aliceDeletes).2
        [(exampleEnv, CommentOp.edit modEdits)]).comments,
      r.commentHex = "c1" → r.deleted = true ∧ r.markdown = "[deleted]" ∧ r.html = "[deleted]") ∧
    (∃ r ∈ (runOps (CommentDelete exampleEnv exampleDB aliceDeletes).2
        [(exampleEnv, CommentOp.edit modEdits)]).comments,
      r.commentHex = "c1" ∧ r.deleted = true ∧ r.markdown = "rewritten" ∧ r.html = "<p>rewritten</p>") := by
  decide

/-- A successful `commentDelete` has arguments that are not empty and has rewritten
the rows with the identifier -/
theorem commentDelete_ok (env : Env) (db db1 : DB) (commentHex deleterHex : String) (u : Unit)
    (h : commentDelete env db commentHex deleterHex = (Except.ok u, db1)) :
    commentHex ≠ "" ∧ deleterHex ≠ "" ∧ env.fault Stmt.commentDeleteUpdate = false ∧
    db1.comments = db.comments.map (fun r =>
      if r.commentHex = commentHex then
        { r with deleted := true, markdown := "[deleted]", html := "[deleted]",
                 commenterHex := "anonymous", deleterHex := some deleterHex,
                 deletionDate := some env.now }
      else r) := by
  unfold commentDelete at h
  split at h
  · simp at h
  · split at h
    · simp at h
    · rename_i h1 h2
      simp only [Prod.mk.injEq] at h
      rw [← h.2]
      refine ⟨fun e => h1 (Or.inl e), fun e => h1 (Or.inr e), by simpa using h2, rfl⟩

/-- After one or more successful deletions of a comment, the rows, read without the
deleter and the deletion date, are the original rows with the rows of that
identifier replaced by their tombstone. -/
theorem commentDeleteTimes_content (commentHex : String) (calls : List (Env × String)) :
    ∀ db db1 : DB, calls ≠ [] → commentDeleteTimes commentHex calls db = some db1 →
      db1.comments.map CommentRow.content = db.comments.map (fun r =>
        if r.commentHex = commentHex then (specTombstone r).content else r.content) := by
  induction calls with
  | nil => intro db db1 hne; exact absurd rfl hne
  | cons call rest ih =>
    intro db db1 _ hrun
    obtain ⟨env, deleterHex⟩ := call
    rw [commentDeleteTimes] at hrun
    split at hrun
    · rename_i u dbm hdel
      obtain ⟨_, _, _, hm⟩ := commentDelete_ok env db dbm commentHex deleterHex u hdel
      by_cases hrest : rest = []
      · subst hrest
        simp only [commentDeleteTimes, Option.some.injEq] at hrun
        subst hrun
        rw [hm, List.map_map]
        apply List.map_congr_left
        intro r _
        by_cases hr : r.commentHex = commentHex <;>
          simp [hr, CommentRow.content, specTombstone, AnonymousCommenterHexID]
      · rw [ih dbm db1 hrest hrun, hm, List.map_map]
        apply List.map_congr_left
        intro r _
        by_cases hr : r.commentHex = commentHex <;>
          simp [hr, CommentRow.content, specTombstone, AnonymousCommenterHexID]
    · simp at hrun

/-- C6: after one or any larger number of successful calls of `commentDelete` on a
comment, every row that had the identifier is still present with the same
identifier and parent, `deleted = true`, markdown and HTML equal to `[deleted]`
and the anonymous sentinel as author; a further successful deletion leaves
every field other than the deleter and the deletion date as it was; and a call
with non-empty arguments succeeds when the update reports no fault. -/
theorem C6_commentDelete_idempotent (db db1 : DB) (commentHex : String) (calls : List (Env × String))
    (hne : calls ≠ []) (hrun : commentDeleteTimes commentHex calls db = some db1) :
    db1.comments.length = db.comments.length ∧
    (∀ r ∈ db.comments, r.commentHex = commentHex →
      ∃ r1 ∈ db1.comments, r1.commentHex = commentHex ∧ r1.parentHex = r.parentHex ∧
        r1.deleted = true ∧ r1.markdown = "[deleted]" ∧ r1.html = "[deleted]" ∧
        r1.commenterHex = AnonymousCommenterHexID) ∧
    (∀ r1 ∈ db1.comments, r1.commentHex = commentHex →
      r1.deleted = true ∧ r1.markdown = "[deleted]" ∧ r1.html = "[deleted]" ∧
      r1.commenterHex = AnonymousCommenterHexID) ∧
    (∀ env deleterHex db2 u, commentDelete env db1 commentHex deleterHex = (Except.ok u, db2) →
      db2.comments.map CommentRow.content = db1.comments.map CommentRow.content) ∧
    (∀ env deleterHex, commentHex ≠ "" → deleterHex ≠ "" →
      env.fault Stmt.commentDeleteUpdate = false →
      ∃ db2, commentDelete env db1 commentHex deleterHex = (Except.ok (), db2)) := by
  have hc := commentDeleteTimes_content commentHex calls db db1 hne hrun
  refine ⟨?_, ?_, ?_, ?_, ?_⟩
  · have := congrArg List.length hc
    simpa using this
  · intro r hr hhex
    have hmem : (specTombstone r).content ∈ db1.comments.map CommentRow.content := by
      rw [hc]
      have := List.mem_map_of_mem (fun r => if r.commentHex = commentHex then
        (specTombstone r).content else r.content) hr
      simpa [hhex] using this
    obtain ⟨r1, hr1, he⟩ := List.mem_map.1 hmem
    have h1 : r1.commentHex = r.commentHex := by
      have := congrArg (fun x : CommentRow => x.commentHex) he
      exact this
    have h2 : r1.parentHex = r.parentHex := by
      have := congrArg (fun x : CommentRow => x.parentHex) he
      exact this
    have h3 : r1.deleted = true := congrArg (fun x : CommentRow => x.deleted) he
    have h4 : r1.markdown = "[deleted]" := congrArg (fun x : CommentRow => x.markdown) he
    have h5 : r1.html = "[deleted]" := congrArg (fun x : CommentRow => x.html) he
    have h6 : r1.commenterHex = AnonymousCommenterHexID :=
      congrArg (fun x : CommentRow => x.commenterHex) he
    exact ⟨r1, hr1, h1.trans hhex, h2, h3, h4, h5, h6⟩
  · intro r1 hr1 hhex
    have hmem : r1.content ∈ db.comments.map (fun r => if r.commentHex = commentHex then
        (specTombstone r).content else r.content) := by
      rw [← hc]
      exact List.mem_map_of_mem _ hr1
    obtain ⟨r, _, he⟩ := List.mem_map.1 hmem
    by_cases hr : r.commentHex = commentHex
    · rw [if_pos hr] at he
      exact ⟨(congrArg (fun x : CommentRow => x.deleted) he).symm,
        (congrArg (fun x : CommentRow => x.markdown) he).symm,
        (congrArg (fun x : CommentRow => x.html) he).symm,
        (congrArg (fun x : CommentRow => x.commenterHex) he).symm⟩
    · rw [if_neg hr] at he
      have hk := congrArg (fun x : CommentRow => x.commentHex) he
      have : r.commentHex = r1.commentHex := hk
      exact absurd (this.trans hhex) hr
  · intro env deleterHex db2 u hdel
    have hrun2 : commentDeleteTimes commentHex (calls ++ [(env, deleterHex)]) db = some db2 := by
      clear hc hne
      induction calls generalizing db with
      | nil =>
        simp only [commentDeleteTimes, Option.some.injEq] at hrun
        subst hrun
        simp only [List.nil_append, commentDeleteTimes, hdel]
      | cons call rest ih =>
        obtain ⟨e, d⟩ := call
        rw [commentDeleteTimes] at hrun
        rw [List.cons_append, commentDeleteTimes]
        split at hrun
        · exact ih _ hrun
        · simp at hrun
    rw [commentDeleteTimes_content commentHex _ db db2 (by simp) hrun2, hc]
  · intro env deleterHex h1 h2 h3
    unfold commentDelete
    simp [h1, h2, h3]

/-- Witness of C6: after Alice and then Mod delete Alice's comment, the row is still
there, under its parent, as an anonymous tombstone. -/
theorem C6_commentDelete_idempotent_witness :
    ∃ r1 ∈ deletedTwice.comments, r1.commentHex = "c1" ∧ r1.parentHex = "root" ∧
      r1.deleted = true ∧ r1.markdown = "[deleted]" ∧ r1.html = "[deleted]" ∧
      r1.commenterHex = AnonymousCommenterHexID :=
  (C6_commentDelete_idempotent exampleDB deletedTwice "c1" [(exampleEnv, "a11ce"), (exampleEnv, "d00d")]
    (by simp) rfl).2.1 aliceComment (by decide) rfl

/-! ### The vote ledger -/

/-- A successful `commentVote` had non-empty identifiers, found the comment, whose
author is not the voter, and has run the upsert. -/
theorem commentVote_ok (env : Env) (db db1 : DB) (commenterHex commentHex : String) (direction : Int)
    (u : Unit) (h : commentVote env db commenterHex commentHex direction = (Except.ok u, db1)) :
    commentHex ≠ "" ∧ commenterHex ≠ "" ∧
    (∃ row, db.comments.find? (fun r => decide (r.commentHex = commentHex)) = some row ∧
      row.commenterHex ≠ commenterHex) ∧
    db1 = { db with votes := voteUpsert db.votes commentHex commenterHex direction env.now } := by
  unfold commentVote at h
  split at h
  · simp at h
  · rename_i hne
    simp only [] at h
    split at h
    · simp at h
    · rename_i authorHex hscan
      split at h
      · simp at h
      · rename_i hauthor
        split at h
        · simp at h
        · simp only [Prod.mk.injEq] at h
          refine ⟨fun e => hne (Or.inl e), fun e => hne (Or.inr e), ?_, h.2.symm⟩
          split at hscan
          · simp at hscan
          · cases hfind : db.comments.find? (fun r => decide (r.commentHex = commentHex)) with
            | none => rw [hfind] at hscan; simp at hscan
            | some row =>
              rw [hfind] at hscan
              simp only [Option.map_some', Option.some.injEq] at hscan
              exact ⟨row, rfl, by rw [hscan]; exact hauthor⟩

/-- `commentVote` succeeds for non-empty identifiers on a found comment by another
author when the storage reports no fault -/
theorem commentVote_succeeds (env : Env) (db : DB) (commenterHex commentHex : String) (direction : Int)
    (row : CommentRow) (h1 : commentHex ≠ "") (h2 : commenterHex ≠ "")
    (hrow : db.comments.find? (fun r => decide (r.commentHex = commentHex)) = some row)
    (hauthor : row.commenterHex ≠ commenterHex)
    (hf1 : env.fault Stmt.commentVoteSelect = false) (hf2 : env.fault Stmt.commentVoteUpsert = false) :
    commentVote env db commenterHex commentHex direction =
      (Except.ok (), { db with votes := voteUpsert db.votes commentHex commenterHex direction env.now }) := by
  unfold commentVote
  simp [h1, h2, hrow, hauthor, hf1, hf2]

/-- After the upsert there is a row with the key, and every row with the key has the direction -/
theorem voteUpsert_direction (votes : List VoteRow) (commentHex commenterHex : String) (direction : Int)
    (voteDate : Nat) :
    (∃ v ∈ voteUpsert votes commentHex commenterHex direction voteDate,
      v.commentHex = commentHex ∧ v.commenterHex = commenterHex) ∧
    (∀ v ∈ voteUpsert votes commentHex commenterHex direction voteDate,
      v.commentHex = commentHex → v.commenterHex = commenterHex → v.direction = direction) := by
  unfold voteUpsert
  split
  · rename_i hany
    obtain ⟨v0, hv0, hk⟩ := List.any_eq_true.1 hany
    simp only [Bool.and_eq_true, decide_eq_true_eq] at hk
    constructor
    · refine ⟨_, List.mem_map_of_mem _ hv0, ?_⟩
      simp [hk]
    · intro v hv h1 h2
      obtain ⟨w, _, rfl⟩ := List.mem_map.1 hv
      by_cases hw : w.commentHex = commentHex ∧ w.commenterHex = commenterHex
      · simp [hw]
      · simp only [hw, if_false] at h1 h2
        exact absurd ⟨h1, h2⟩ hw
  · rename_i hany
    constructor
    · exact ⟨_, List.mem_append_right _ (List.mem_singleton_self _), rfl, rfl⟩
    · intro v hv h1 h2
      rcases List.mem_append.1 hv with hv | hv
      · exfalso
        apply hany
        exact List.any_eq_true.2 ⟨v, hv, by simp [h1, h2]⟩
      · rw [List.mem_singleton.1 hv]

/-- C7: for every integer direction submitted to `CommentVote` by a resolved,
non-anonymous voter, a successful call leaves a ledger row for the pair
(comment, voter), and every such row holds the sign of the submitted direction:
+1 if it is positive, -1 if it is negative, 0 if it is zero. The call succeeds
for non-empty identifiers on a found comment of another author when the
storage reports no fault. -/
theorem C7_CommentVote_direction_sign (env : Env) (db : DB) (params : CommentVoteParams)
    (voter : Commenter)
    (htok : params.commenterToken ≠ AnonymousCommenterHexID)
    (hc : env.commenterGetByCommenterToken params.commenterToken = Except.ok voter) :
    ((CommentVote env db params).1.success = true →
      (∃ row, db.comments.find? (fun r => decide (r.commentHex = params.commentHex)) = some row ∧
        row.commenterHex ≠ voter.commenterHex) ∧
      (∃ v ∈ (CommentVote env db params).2.votes,
        v.commentHex = params.commentHex ∧ v.commenterHex = voter.commenterHex) ∧
      (∀ v ∈ (CommentVote env db params).2.votes,
        v.commentHex = params.commentHex → v.commenterHex = voter.commenterHex →
        v.direction = Int.sign params.direction ∧
        (0 < params.direction → v.direction = 1) ∧
        (params.direction < 0 → v.direction = -1) ∧
        (params.direction = 0 → v.direction = 0))) ∧
    (∀ row, params.commentHex ≠ "" → voter.commenterHex ≠ "" →
      db.comments.find? (fun r => decide (r.commentHex = params.commentHex)) = some row →
      row.commenterHex ≠ voter.commenterHex →
      env.fault Stmt.commentVoteSelect = false → env.fault Stmt.commentVoteUpsert = false →
      (CommentVote env db params).1.success = true) := by
  have hsign : (if params.direction > 0 then (1 : Int) else if params.direction < 0 then -1 else 0)
      = Int.sign params.direction := by
    rcases lt_trichotomy params.direction 0 with h | h | h
    · rw [Int.sign_eq_neg_one_of_neg h, if_neg (by omega), if_pos h]
    · rw [h]; rfl
    · rw [Int.sign_eq_one_of_pos h, if_pos h]
  have hform : CommentVote env db params =
      match commentVote env db voter.commenterHex params.commentHex (Int.sign params.direction) with
      | (Except.error err, db1) => (APIResponseBase.failure err, db1)
      | (Except.ok _, db1) => (APIResponseBase.succeeded, db1) := by
    unfold CommentVote
    rw [if_neg htok, hc]
    simp only [hsign]
  constructor
  · intro hs
    rw [hform] at hs ⊢
    split at hs
    · simp [APIResponseBase.failure] at hs
    · rename_i u db1 hv
      obtain ⟨_, _, hrow, hdb⟩ := commentVote_ok env db db1 _ _ _ u hv
      simp only
      subst hdb
      obtain ⟨hex, hall⟩ := voteUpsert_direction db.votes params.commentHex voter.commenterHex
        (Int.sign params.direction) env.now
      refine ⟨hrow, hex, ?_⟩
      intro v hv1 h1 h2
      have hd := hall v hv1 h1 h2
      refine ⟨hd, ?_, ?_, ?_⟩
      · intro hpos; rw [hd, Int.sign_eq_one_of_pos hpos]
      · intro hneg; rw [hd, Int.sign_eq_neg_one_of_neg hneg]
      · intro hz; rw [hd, hz]; rfl
  · intro row h1 h2 hrow hauthor hf1 hf2
    rw [hform, commentVote_succeeds env db _ _ _ row h1 h2 hrow hauthor hf1 hf2]
    rfl

/-- Witness of C7: Bob's vote of -9 on Alice's comment is stored as -1 -/
theorem C7_CommentVote_direction_sign_witness :
    ∃ v ∈ (CommentVote exampleEnv exampleDB
        { commenterToken := "token-bob", commentHex := "c1", direction := -9 }).2.votes,
      v.commentHex = "c1" ∧ v.commenterHex = "b0b" ∧ v.direction = -1 := by
  have h := (C7_CommentVote_direction_sign exampleEnv exampleDB
    { commenterToken := "token-bob", commentHex := "c1", direction := -9 } bob (by decide) rfl).1
    (by decide)
  obtain ⟨v, hv, h1, h2⟩ := h.2.1
  exact ⟨v, hv, h1, h2, (h.2.2 v hv h1 h2).2.2.1 (by decide)⟩

/-- C8: `commentVote` fails with `MissingField` when the voter or the comment
identifier is empty; otherwise with `Internal` when the comment cannot be
resolved (no row, or the lookup fails); otherwise with `SelfVote` when the
voter is the comment's author, whatever the direction. In each of these cases
the store, and so the ledger, is returned unchanged; and `CommentVote` by the
author of the comment fails and writes nothing. -/
theorem C8_commentVote_failures (env : Env) (db : DB) (commenterHex commentHex : String)
    (direction : Int) :
    ((commentHex = "" ∨ commenterHex = "") →
      commentVote env db commenterHex commentHex direction = (Except.error Error.MissingField, db)) ∧
    (commentHex ≠ "" → commenterHex ≠ "" →
      (env.fault Stmt.commentVoteSelect = true ∨
        db.comments.find? (fun r => decide (r.commentHex = commentHex)) = none) →
      commentVote env db commenterHex commentHex direction = (Except.error Error.Internal, db)) ∧
    (∀ row, commentHex ≠ "" → commenterHex ≠ "" → env.fault Stmt.commentVoteSelect = false →
      db.comments.find? (fun r => decide (r.commentHex = commentHex)) = some row →
      row.commenterHex = commenterHex →
      commentVote env db commenterHex commentHex direction = (Except.error Error.SelfVote, db)) ∧
    (∀ row token voter d, env.commenterGetByCommenterToken token = Except.ok voter →
      voter.commenterHex = commenterHex →
      db.comments.find? (fun r => decide (r.commentHex = commentHex)) = some row →
      row.commenterHex = commenterHex →
      (CommentVote env db { commenterToken := token, commentHex := commentHex, direction := d }).1.success
        = false ∧
      (CommentVote env db { commenterToken := token, commentHex := commentHex, direction := d }).2
        = db) := by
  refine ⟨?_, ?_, ?_, ?_⟩
  · intro h
    unfold commentVote
    rw [if_pos h]
  · intro h1 h2 h
    unfold commentVote
    rw [if_neg (by simp [h1, h2])]
    rcases h with h | h
    · simp [h]
    · cases hf : env.fault Stmt.commentVoteSelect <;> simp [h]
  · intro row h1 h2 hf hrow hauthor
    unfold commentVote
    rw [if_neg (by simp [h1, h2])]
    simp [hf, hrow, hauthor]
  · intro row token voter d hc hv hrow hauthor
    have hfail : ∀ dir, ∃ err, commentVote env db commenterHex commentHex dir = (Except.error err, db) := by
      intro dir
      unfold commentVote
      split
      · exact ⟨_, rfl⟩
      · simp only [hrow, Option.map_some']
        split
        · exact ⟨_, rfl⟩
        · rename_i authorHex hscan
          have ha : authorHex = commenterHex := by
            split at hscan
            · simp at hscan
            · simp only [Option.some.injEq] at hscan
              rw [← hscan]
              exact hauthor
          rw [if_pos ha]
          exact ⟨_, rfl⟩
    unfold CommentVote
    simp only []
    split
    · exact ⟨rfl, rfl⟩
    · rw [hc]
      simp only [hv]
      obtain ⟨err, he⟩ := hfail (if d > 0 then 1 else if d < 0 then -1 else 0)
      rw [he]
      exact ⟨rfl, rfl⟩

/-- Witness of C8: Alice's upvote of her own comment fails with `SelfVote` and
leaves the store unchanged. -/
theorem C8_commentVote_failures_witness :
    commentVote exampleEnv exampleDB "a11ce" "c1" 1 = (Except.error Error.SelfVote, exampleDB) :=
  (C8_commentVote_failures exampleEnv exampleDB "a11ce" "c1" 1).2.2.1 aliceComment
    (by decide) (by decide) rfl rfl rfl

/-- In a ledger with unique keys, at most one row has a given key -/
theorem votesOf_length_le_one (votes : List VoteRow) (commentHex commenterHex : String)
    (hu : UniqueVotes votes) : (votesOf votes commentHex commenterHex).length ≤ 1 := by
  induction votes with
  | nil => simp [votesOf]
  | cons v vs ih =>
    unfold UniqueVotes at hu
    rw [List.map_cons, List.nodup_cons] at hu
    have ih1 := ih hu.2
    unfold votesOf at ih1 ⊢
    by_cases hk : v.commentHex = commentHex ∧ v.commenterHex = commenterHex
    · have hnil : vs.filter (fun v => decide (v.commentHex = commentHex) &&
          decide (v.commenterHex = commenterHex)) = [] := by
        rw [List.filter_eq_nil_iff]
        intro w hw hp
        simp only [Bool.and_eq_true, decide_eq_true_eq] at hp
        apply hu.1
        rw [List.mem_map]
        exact ⟨w, hw, by rw [hp.1, hp.2, hk.1, hk.2]⟩
      rw [List.filter_cons_of_pos (by simp [hk]), hnil]
      simp
    · rw [List.filter_cons_of_neg (by simpa using hk)]
      exact ih1

/-- The upsert keeps the keys of the ledger unique -/
theorem voteUpsert_unique (votes : List VoteRow) (commentHex commenterHex : String) (direction : Int)
    (voteDate : Nat) (hu : UniqueVotes votes) :
    UniqueVotes (voteUpsert votes commentHex commenterHex direction voteDate) := by
  unfold voteUpsert
  split
  · unfold UniqueVotes at hu ⊢
    rw [List.map_map]
    have : ((fun v : VoteRow => (v.commentHex, v.commenterHex)) ∘ fun v =>
        if v.commentHex = commentHex ∧ v.commenterHex = commenterHex then
          { v with direction := direction } else v) = fun v => (v.commentHex, v.commenterHex) := by
      funext v
      by_cases hk : v.commentHex = commentHex ∧ v.commenterHex = commenterHex <;> simp [hk]
    rw [this]
    exact hu
  · rename_i hany
    unfold UniqueVotes at hu ⊢
    rw [List.map_append, List.nodup_append]
    refine ⟨hu, by simp, ?_⟩
    intro k hk1 hk2
    simp only [List.map_cons, List.map_nil, List.mem_singleton] at hk2
    obtain ⟨w, hw, rfl⟩ := List.mem_map.1 hk1
    apply hany
    simp only [Prod.mk.injEq] at hk2
    exact List.any_eq_true.2 ⟨w, hw, by simp [hk2.1, hk2.2]⟩

/-- The rows of a key after the upsert, in a ledger with unique keys: a new row
with the given date when there was none, else the one old row with the new
direction and its old date. -/
theorem voteUpsert_votesOf (votes : List VoteRow) (commentHex commenterHex : String) (direction : Int)
    (voteDate : Nat) (hu : UniqueVotes votes) :
    (votesOf votes commentHex commenterHex = [] ∧
      votesOf (voteUpsert votes commentHex commenterHex direction voteDate) commentHex commenterHex =
        [{ commentHex := commentHex, commenterHex := commenterHex, direction := direction,
           voteDate := voteDate }]) ∨
    (∃ v, votesOf votes commentHex commenterHex = [v] ∧
      votesOf (voteUpsert votes commentHex commenterHex direction voteDate) commentHex commenterHex =
        [{ commentHex := commentHex, commenterHex := commenterHex, direction := direction,
           voteDate := v.voteDate }]) := by
  have hlen := votesOf_length_le_one votes commentHex commenterHex hu
  unfold voteUpsert
  split
  · rename_i hany
    right
    obtain ⟨v0, hv0, hk⟩ := List.any_eq_true.1 hany
    have hmem : v0 ∈ votesOf votes commentHex commenterHex := List.mem_filter.2 ⟨hv0, hk⟩
    obtain ⟨v, hv⟩ : ∃ v, votesOf votes commentHex commenterHex = [v] := by
      cases hl : votesOf votes commentHex commenterHex with
      | nil => rw [hl] at hmem; simp at hmem
      | cons a rest =>
        cases rest with
        | nil => exact ⟨a, rfl⟩
        | cons b rest2 => rw [hl] at hlen; simp at hlen
    refine ⟨v, hv, ?_⟩
    have hvk : v.commentHex = commentHex ∧ v.commenterHex = commenterHex := by
      have : v ∈ votesOf votes commentHex commenterHex := by rw [hv]; simp
      simpa [votesOf] using (List.mem_filter.1 this).2
    unfold votesOf at hv ⊢
    rw [List.filter_map]
    have hcomp : ((fun v : VoteRow => decide (v.commentHex = commentHex) &&
        decide (v.commenterHex = commenterHex)) ∘ fun v =>
        if v.commentHex = commentHex ∧ v.commenterHex = commenterHex then
          { v with direction := direction } else v) =
        fun v => decide (v.commentHex = commentHex) && decide (v.commenterHex = commenterHex) := by
      funext w
      by_cases hw : w.commentHex = commentHex ∧ w.commenterHex = commenterHex <;> simp [hw]
    rw [hcomp, hv]
    simp [hvk]
  · rename_i hany
    left
    have hnil : votesOf votes commentHex commenterHex = [] := by
      unfold votesOf
      rw [List.filter_eq_nil_iff]
      intro w hw hp
      exact hany (List.any_eq_true.2 ⟨w, hw, hp⟩)
    refine ⟨hnil, ?_⟩
    unfold votesOf at hnil ⊢
    rw [List.filter_append, hnil]
    simp

/-- `commentEdit`, `commentApprove`, `commentDelete` and `commentNew` do not write to the ledger -/
theorem comment_updates_keep_votes (env : Env) (db : DB) :
    (∀ commentHex markdown html, (commentEdit env db commentHex markdown html).2.votes = db.votes) ∧
    (∀ commentHex, (commentApprove env db commentHex).2.votes = db.votes) ∧
    (∀ commentHex deleterHex, (commentDelete env db commentHex deleterHex).2.votes = db.votes) ∧
    (∀ commenterHex domain path parentHex markdown state creationDate,
      (commentNew env db commenterHex domain path parentHex markdown state creationDate).2.votes
        = db.votes) := by
  refine ⟨?_, ?_, ?_, ?_⟩
  · intro commentHex markdown html
    unfold commentEdit
    split <;> rfl
  · intro commentHex
    unfold commentApprove
    split_ifs <;> rfl
  · intro commentHex deleterHex
    unfold commentDelete
    split_ifs <;> rfl
  · intro commenterHex domain path parentHex markdown state creationDate
    unfold commentNew
    split
    · rfl
    · split
      · rfl
      · split
        · rfl
        · split
          · rfl
          · simp only []
            have hp := (pageNew_tables env db domain path).2.1
            split
            · rename_i h; rw [h] at hp; exact hp
            · rename_i h
              rw [h] at hp
              split
              · exact hp
              · exact hp

/-- `CommentNew` does not write to the ledger -/
theorem CommentNew_votes (env : Env) (db : DB) (params : CommentNewParams) :
    (CommentNew env db params).2.1.votes = db.votes := by
  unfold CommentNew
  simp only []
  split
  · rfl
  · split
    · rfl
    · split
      · rfl
      · split
        · rfl
        · rename_i _ domain _ _ _ _ hex email name link isMod _
          have key := (comment_updates_keep_votes env db).2.2.2 hex params.domain params.path
            params.parentHex params.markdown (CommentNewState env domain params hex email name link isMod)
            env.now
          split
          · rename_i h; rw [h] at key; exact key
          · rename_i h; rw [h] at key; exact key

/-- Every request leaves the ledger alone or runs one upsert on it -/
theorem CommentOp_run_votes (env : Env) (db : DB) (op : CommentOp) :
    (op.run env db).votes = db.votes ∨
    ∃ commentHex commenterHex direction voteDate,
      (op.run env db).votes = voteUpsert db.votes commentHex commenterHex direction voteDate := by
  cases op with
  | edit params =>
    left
    show (CommentEdit env db params).2.votes = _
    rcases CommentEdit_store env db params with h | h
    · rw [h]
    · rw [h]; exact (comment_updates_keep_votes env db).1 _ _ _
  | approve params =>
    left
    show (CommentApprove env db params).2.votes = _
    rcases CommentApprove_store env db params with h | h
    · rw [h]
    · rw [h]; exact (comment_updates_keep_votes env db).2.1 _
  | delete params =>
    left
    show (CommentDelete env db params).2.votes = _
    rcases CommentDelete_store env db params with h | ⟨d, h⟩
    · rw [h]
    · rw [h]; exact (comment_updates_keep_votes env db).2.2.1 _ _
  | vote params =>
    have hrun : CommentOp.run env db (CommentOp.vote params) = (CommentVote env db params).2 := rfl
    rw [hrun]
    rcases CommentVote_store env db params with h | ⟨x, d, h⟩
    · left; rw [h]
    · rw [h]
      unfold commentVote
      split
      · left; rfl
      · simp only []
        split
        · left; rfl
        · split_ifs
          · left; rfl
          · left; rfl
          · right; exact ⟨_, _, _, _, rfl⟩
  | create params =>
    left
    exact CommentNew_votes env db params

/-- Any sequence of requests keeps the keys of the ledger unique -/
theorem runOps_unique_votes (ops : List (Env × CommentOp)) :
    ∀ db : DB, UniqueVotes db.votes → UniqueVotes (runOps db ops).votes := by
  induction ops with
  | nil => intro db hu; exact hu
  | cons e ops ih =>
    intro db hu
    obtain ⟨env, op⟩ := e
    apply ih
    rcases CommentOp_run_votes env db op with h | ⟨c, x, d, t, h⟩
    · rw [h]; exact hu
    · rw [h]; exact voteUpsert_unique _ _ _ _ _ hu

/-- C9 (amended): the ledger holds at most one row per (comment, voter) pair, in
every state reached by the comment requests from a ledger that does; and after
a successful vote by a voter on a comment followed by a successful vote by the
same voter on the same comment with direction `d2`, the ledger has exactly one
row for the pair, its direction is `d2`, and its timestamp is that of the row
after the first vote, which the repeat vote does not touch: the time of the
first vote when the pair had no row before it, the timestamp of the earlier
row otherwise. -/
theorem C9_vote_upsert_keeps_first_timestamp (env1 env2 : Env) (db db1 db2 : DB)
    (commenterHex commentHex : String) (d1 d2 : Int) (u1 u2 : Unit)
    (hu : UniqueVotes db.votes)
    (h1 : commentVote env1 db commenterHex commentHex d1 = (Except.ok u1, db1))
    (h2 : commentVote env2 db1 commenterHex commentHex d2 = (Except.ok u2, db2)) :
    UniqueVotes db1.votes ∧ UniqueVotes db2.votes ∧
    (∀ ops, UniqueVotes (runOps db ops).votes) ∧
    ∃ t, votesOf db1.votes commentHex commenterHex =
          [{ commentHex := commentHex, commenterHex := commenterHex, direction := d1, voteDate := t }] ∧
      votesOf db2.votes commentHex commenterHex =
          [{ commentHex := commentHex, commenterHex := commenterHex, direction := d2, voteDate := t }] ∧
      (votesOf db.votes commentHex commenterHex = [] → t = env1.now) ∧
      (∀ v ∈ votesOf db.votes commentHex commenterHex, t = v.voteDate) := by
  obtain ⟨_, _, _, hdb1⟩ := commentVote_ok env1 db db1 _ _ _ u1 h1
  obtain ⟨_, _, _, hdb2⟩ := commentVote_ok env2 db1 db2 _ _ _ u2 h2
  have hv1 : db1.votes = voteUpsert db.votes commentHex commenterHex d1 env1.now := by rw [hdb1]
  have hv2 : db2.votes = voteUpsert db1.votes commentHex commenterHex d2 env2.now := by rw [hdb2]
  have hu1 : UniqueVotes db1.votes := by rw [hv1]; exact voteUpsert_unique _ _ _ _ _ hu
  have hu2 : UniqueVotes db2.votes := by rw [hv2]; exact voteUpsert_unique _ _ _ _ _ hu1
  refine ⟨hu1, hu2, fun ops => runOps_unique_votes ops db hu, ?_⟩
  have hsecond : ∀ t, votesOf db1.votes commentHex commenterHex =
        [{ commentHex := commentHex, commenterHex := commenterHex, direction := d1, voteDate := t }] →
      votesOf db2.votes commentHex commenterHex =
        [{ commentHex := commentHex, commenterHex := commenterHex, direction := d2, voteDate := t }] := by
    intro t ht
    rcases voteUpsert_votesOf db1.votes commentHex commenterHex d2 env2.now hu1 with ⟨hnil, _⟩ | ⟨v, hv, hres⟩
    · rw [hnil] at ht; simp at ht
    · rw [hv2, hres]
      rw [hv] at ht
      simp only [List.cons.injEq, and_true] at ht
      rw [ht]
  rcases voteUpsert_votesOf db.votes commentHex commenterHex d1 env1.now hu with ⟨hnil, hres⟩ | ⟨v, hv, hres⟩
  · rw [← hv1] at hres
    refine ⟨env1.now, hres, hsecond _ hres, fun _ => rfl, ?_⟩
    intro v hv
    rw [hnil] at hv
    simp at hv
  · rw [← hv1] at hres
    refine ⟨v.voteDate, hres, hsecond _ hres, ?_, ?_⟩
    · intro hnil
      rw [hnil] at hv
      simp at hv
    · intro w hw
      rw [hv] at hw
      rw [List.mem_singleton.1 hw]

/-- Witness of C9 (amended): Mod upvotes Alice's comment at time 100 and downvotes
it at time 200; the ledger then holds one row for the pair, with direction -1
and the time 100. -/
theorem C9_vote_upsert_keeps_first_timestamp_witness :
    votesOf votedTwice.votes "c1" "d00d" =
      [{ commentHex := "c1", commenterHex := "d00d", direction := -1, voteDate := 100 }] := by
  obtain ⟨t, _, h2, h3, _⟩ := (C9_vote_upsert_keeps_first_timestamp exampleEnv exampleEnvLater
    exampleDB votedOnce votedTwice "d00d" "c1" 1 (-1) () () (by decide) rfl rfl).2.2.2
  rw [h2, h3 (by decide)]
  rfl

/-- Counterexample to C9 as stated: Mod votes on Alice's comment at time 100 and
again, with direction -1, at time 200; both votes succeed, and the one ledger
row of the pair has direction -1 but still the timestamp 100, not 200. -/
theorem C9_repeat_vote_keeps_old_timestamp :
    (commentVote exampleEnv exampleDB "d00d" "c1" 1).1 = Except.ok () ∧
    exampleEnv.now = 100 ∧
    (commentVote exampleEnvLater votedOnce "d00d" "c1" (-1)).1 = Except.ok () ∧
    exampleEnvLater.now = 200 ∧
    votesOf votedTwice.votes "c1" "d00d" =
      [{ commentHex := "c1", commenterHex := "d00d", direction := -1, voteDate := 100 }] ∧
    ¬ (∃ v ∈ votedTwice.votes, v.commentHex = "c1" ∧ v.commenterHex = "d00d" ∧ v.voteDate = 200) :=
  ⟨rfl, rfl, rfl, rfl, by decide, by decide⟩

/-! ### The SSO callback -/

/-- `ssoTokenExtract` writes to table `ssoTokens` only, and a resolved token is the
first row with that token -/
theorem ssoTokenExtract_tables (env : Env) (db : DB) (token : String) :
    (ssoTokenExtract env db token).2.commenters = db.commenters ∧
    (ssoTokenExtract env db token).2.commenterSessions = db.commenterSessions ∧
    (∀ domain commenterToken, (ssoTokenExtract env db token).1 = Except.ok (domain, commenterToken) →
      ∃ t, db.ssoTokens.find? (fun t => decide (t.token = token)) = some t ∧ t.domain = domain ∧
        t.commenterToken = commenterToken) := by
  unfold ssoTokenExtract
  split
  · exact ⟨rfl, rfl, fun _ _ h => by simp at h⟩
  · split
    · exact ⟨rfl, rfl, fun _ _ h => by simp at h⟩
    · rename_i t ht
      split
      · exact ⟨rfl, rfl, fun _ _ h => by simp at h⟩
      · refine ⟨rfl, rfl, ?_⟩
        intro domain commenterToken h
        simp only [Except.ok.injEq, Prod.mk.injEq] at h
        exact ⟨t, ht, h.1, h.2⟩

/-- C10: in the SSO callback, whenever the supplied signature bytes differ from the
HMAC-SHA256 of the decoded payload bytes under the decoded SSO secret of the
domain that the payload's token resolves to, the handler answers with an error
text and the commenter table and the session table are as before the call: no
commenter is created or updated and no session is bound. -/
theorem C10_sso_signature_mismatch (env : Env) (db : DB) (payloadHex signature : String)
    (hmis : ∀ payloadBytes signatureBytes payload t d key,
      env.hexDecodeString payloadHex = Except.ok payloadBytes →
      env.hexDecodeString signature = Except.ok signatureBytes →
      env.jsonUnmarshal payloadBytes = Except.ok payload →
      db.ssoTokens.find? (fun t => decide (t.token = payload.token)) = some t →
      env.domainGet t.domain = Except.ok d →
      env.hexDecodeString d.ssoSecret = Except.ok key →
      env.hmacSha256 key payloadBytes ≠ signatureBytes) :
    (ssoCallbackHandler env db payloadHex signature).1.isError = true ∧
    (ssoCallbackHandler env db payloadHex signature).2.commenters = db.commenters ∧
    (ssoCallbackHandler env db payloadHex signature).2.commenterSessions = db.commenterSessions := by
  unfold ssoCallbackHandler
  split
  · exact ⟨rfl, rfl, rfl⟩
  · rename_i payloadBytes hp
    split
    · exact ⟨rfl, rfl, rfl⟩
    · rename_i signatureBytes hs
      split
      · exact ⟨rfl, rfl, rfl⟩
      · rename_i payload0 hj
        split
        · exact ⟨rfl, rfl, rfl⟩
        · simp only []
          have htoken : (if (if payload0.link = "" then { payload0 with link := "undefined" } else payload0).photo = ""
              then { (if payload0.link = "" then { payload0 with link := "undefined" } else payload0) with
                photo := "undefined" }
              else (if payload0.link = "" then { payload0 with link := "undefined" } else payload0)).token
              = payload0.token := by
            split_ifs <;> rfl
          rw [htoken]
          have ht := ssoTokenExtract_tables env db payload0.token
          split
          · rename_i h
            rw [h] at ht
            exact ⟨rfl, ht.1, ht.2.1⟩
          · rename_i domain commenterToken db1 h
            rw [h] at ht
            obtain ⟨hc1, hc2, hfind⟩ := ht
            obtain ⟨t, hfindt, htd, _⟩ := hfind domain commenterToken rfl
            split
            · split <;> exact ⟨rfl, hc1, hc2⟩
            · rename_i d hd
              split
              · exact ⟨rfl, hc1, hc2⟩
              · split
                · exact ⟨rfl, hc1, hc2⟩
                · rename_i key hk
                  split
                  · exact ⟨rfl, hc1, hc2⟩
                  · rename_i heq
                    exfalso
                    simp only [Bool.not_eq_true', decide_eq_false_iff_not, not_not] at heq
                    rw [← htd] at hd
                    exact hmis payloadBytes signatureBytes payload0 t d key hp hs hj hfindt hd hk heq

/-- Witness of C10: the signature `3f` was made for the payload `010203`; the
callback with the payload `010204` is answered with an error and leaves the
commenter table empty and the session pending. -/
theorem C10_sso_signature_mismatch_witness :
    (ssoCallbackHandler exampleEnv exampleDB "010204" "3f").1.isError = true ∧
    (ssoCallbackHandler exampleEnv exampleDB "010204" "3f").2.commenters = [] ∧
    (ssoCallbackHandler exampleEnv exampleDB "010204" "3f").2.commenterSessions
      = [{ commenterToken := "session-1", commenterHex := "none" }] :=
  C10_sso_signature_mismatch exampleEnv exampleDB "010204" "3f" (by
    intro payloadBytes signatureBytes payload t d key hp hs hj hf hd hk
    have e1 : (Except.ok [1, 2, 4] : Except Error (List Nat)) = Except.ok payloadBytes := hp
    cases e1
    have e2 : (Except.ok [63] : Except Error (List Nat)) = Except.ok signatureBytes := hs
    cases e2
    have e3 : (Except.ok ⟨"sso-1", "mallory@example.com", "Carol", "", ""⟩ : Except Error ssoPayload)
        = Except.ok payload := hj
    cases e3
    have e4 : some (⟨"sso-1", "example.com", "session-1"⟩ : SsoTokenRow) = some t := hf
    cases e4
    have e5 : (Except.ok exampleDomain : Except Error Domain) = Except.ok d := hd
    cases e5
    have e6 : (Except.ok [10, 11] : Except Error (List Nat)) = Except.ok key := hk
    cases e6
    decide)

/-- The callback with the payload `010203` and its signature `3f` goes through: it
creates the commenter and binds the pending session to it. -/
theorem ssoCallbackHandler_accepts_signed_payload :
    (ssoCallbackHandler exampleEnv exampleDB "010203" "3f").1 = ssoResponse.closeWindow ∧
    (ssoCallbackHandler exampleEnv exampleDB "010203" "3f").2.commenterSessions
      = [{ commenterToken := "session-1", commenterHex := "c0ffee" }] ∧
    (ssoCallbackHandler exampleEnv exampleDB "010203" "3f").2.commenters.map
      (fun c => (c.commenterHex, c.email, c.provider))
      = [("c0ffee", "carol@example.com", "sso:example.com")] := by
  decide

/-- What the helpers of the SSO callback do to the commenter and session tables -/
theorem sso_helpers_tables (env : Env) (db : DB) :
    (∀ provider email c, commenterGetByEmail env db provider email = Except.ok c →
      c ∈ db.commenters ∧ c.email = email ∧ c.provider = provider) ∧
    (∀ email name link photo provider password,
      (commenterNew env db email name link photo provider password).2.commenterSessions
        = db.commenterSessions ∧
      ∀ commenterHex, (commenterNew env db email name link photo provider password).1
          = Except.ok commenterHex →
        ∃ c ∈ (commenterNew env db email name link photo provider password).2.commenters,
          c.commenterHex = commenterHex ∧ c.provider = provider ∧ c.email = email) ∧
    (∀ commenterHex email name link photo provider,
      (commenterUpdate env db commenterHex email name link photo provider).2.commenterSessions
        = db.commenterSessions ∧
      ∀ c ∈ db.commenters, c.commenterHex = commenterHex → c.provider = provider → c.email = email →
        ∃ c1 ∈ (commenterUpdate env db commenterHex email name link photo provider).2.commenters,
          c1.commenterHex = commenterHex ∧ c1.provider = provider ∧ c1.email = email) ∧
    (∀ commenterToken commenterHex,
      (commenterSessionUpdate env db commenterToken commenterHex).2.commenters = db.commenters ∧
      (∀ err, (commenterSessionUpdate env db commenterToken commenterHex).1 = Except.error err →
        (commenterSessionUpdate env db commenterToken commenterHex).2 = db) ∧
      (∀ u, (commenterSessionUpdate env db commenterToken commenterHex).1 = Except.ok u →
        (commenterSessionUpdate env db commenterToken commenterHex).2.commenterSessions
          = specBound db.commenterSessions commenterToken commenterHex)) := by
  refine ⟨?_, ?_, ?_, ?_⟩
  · intro provider email c h
    unfold commenterGetByEmail at h
    split at h
    · simp at h
    · split at h
      · simp at h
      · split at h
        · simp at h
        · rename_i c0 hfind
          have hc : c0 = c := Except.ok.inj h
          subst hc
          have hp := List.find?_some hfind
          simp only [Bool.and_eq_true, decide_eq_true_eq] at hp
          exact ⟨List.mem_of_find?_eq_some hfind, hp.1, hp.2⟩
  · intro email name link photo provider password
    unfold commenterNew
    split
    · exact ⟨rfl, fun _ h => by simp at h⟩
    · split
      · exact ⟨rfl, fun _ h => by simp at h⟩
      · split
        · exact ⟨rfl, fun _ h => by simp at h⟩
        · refine ⟨rfl, ?_⟩
          intro commenterHex h
          simp only [Except.ok.injEq] at h
          subst h
          exact ⟨_, List.mem_append_right _ (List.mem_singleton_self _), rfl, rfl, rfl⟩
  · intro commenterHex email name link photo provider
    unfold commenterUpdate
    split
    · exact ⟨rfl, fun c hc h1 h2 h3 => ⟨c, hc, h1, h2, h3⟩⟩
    · split
      · exact ⟨rfl, fun c hc h1 h2 h3 => ⟨c, hc, h1, h2, h3⟩⟩
      · refine ⟨rfl, ?_⟩
        intro c hc h1 h2 h3
        refine ⟨_, List.mem_map_of_mem _ hc, ?_⟩
        simp [h1, h2]
  · intro commenterToken commenterHex
    unfold commenterSessionUpdate
    split
    · exact ⟨rfl, fun _ _ => rfl, fun _ h => by simp at h⟩
    · split
      · exact ⟨rfl, fun _ _ => rfl, fun _ h => by simp at h⟩
      · exact ⟨rfl, fun _ h => by simp at h, fun _ _ => rfl⟩

/-- After the signature check: an error leaves the session table as it was, and a
success has bound the session to a commenter that is in the commenter table
under the provider `sso:` + domain with the payload's email. -/
theorem ssoResolveAndBind_spec (env : Env) (db1 : DB) (domain commenterToken : String)
    (payload : ssoPayload) :
    ((ssoResolveAndBind env db1 domain commenterToken payload).1.isError = true →
      (ssoResolveAndBind env db1 domain commenterToken payload).2.commenterSessions
        = db1.commenterSessions) ∧
    ((ssoResolveAndBind env db1 domain commenterToken payload).1 = ssoResponse.closeWindow →
      ∃ commenterHex,
        (∃ c ∈ (ssoResolveAndBind env db1 domain commenterToken payload).2.commenters,
          c.commenterHex = commenterHex ∧ c.provider = "sso:" ++ domain ∧ c.email = payload.email) ∧
        (ssoResolveAndBind env db1 domain commenterToken payload).2.commenterSessions
          = specBound db1.commenterSessions commenterToken commenterHex) := by
  unfold ssoResolveAndBind
  simp only []
  split
  · exact ⟨fun _ => rfl, fun h => by simp at h⟩
  · split
    · split
      · exact ⟨fun _ => rfl, fun h => by simp at h⟩
      · obtain ⟨hnew1, hnew2⟩ := (sso_helpers_tables env db1).2.1 payload.email payload.name
          payload.link payload.photo ("sso:" ++ domain) ""
        split
        · rename_i hcn
          rw [hcn] at hnew1
          exact ⟨fun _ => hnew1, fun h => by simp at h⟩
        · rename_i commenterHex db2 hcn
          rw [hcn] at hnew1 hnew2
          simp only at hnew1 hnew2
          obtain ⟨c, hc, hc1, hc2, hc3⟩ := hnew2 commenterHex rfl
          obtain ⟨hs1, hs2, hs3⟩ := (sso_helpers_tables env db2).2.2.2 commenterToken commenterHex
          split
          · rename_i err2 db3 hsu
            rw [hsu] at hs2
            have := hs2 err2 rfl
            simp only at this
            subst this
            exact ⟨fun _ => hnew1, fun h => by simp at h⟩
          · rename_i u db3 hsu
            rw [hsu] at hs1 hs3
            simp only at hs1 hs3
            refine ⟨fun h => by simp [ssoResponse.isError] at h, fun _ => ⟨commenterHex, ?_, ?_⟩⟩
            · exact ⟨c, by rw [hs1]; exact hc, hc1, hc2, hc3⟩
            · rw [hs3 u trivial, hnew1]
    · rename_i c hget
      obtain ⟨hmem, hemail, hprov⟩ := (sso_helpers_tables env db1).1 _ _ c hget
      obtain ⟨hup1, hup2⟩ := (sso_helpers_tables env db1).2.2.1 c.commenterHex payload.email
        payload.name payload.link payload.photo ("sso:" ++ domain)
      obtain ⟨c1, hc1mem, hc1a, hc1b, hc1c⟩ := hup2 c hmem rfl hprov hemail
      obtain ⟨hs1, hs2, hs3⟩ := (sso_helpers_tables env
        (commenterUpdate env db1 c.commenterHex payload.email payload.name payload.link payload.photo
          ("sso:" ++ domain)).2).2.2.2 commenterToken c.commenterHex
      split
      · rename_i err2 db3 hsu
        rw [hsu] at hs2
        have := hs2 err2 rfl
        simp only at this
        subst this
        exact ⟨fun _ => hup1, fun h => by simp at h⟩
      · rename_i u db3 hsu
        rw [hsu] at hs1 hs3
        simp only at hs1 hs3
        refine ⟨fun h => by simp [ssoResponse.isError] at h, fun _ => ⟨c.commenterHex, ?_, ?_⟩⟩
        · exact ⟨c1, by rw [hs1]; exact hc1mem, hc1a, hc1b, hc1c⟩
        · rw [hs3 u trivial, hup1]

/-- The defaults for link and photo keep the token, the email and the name -/
theorem ssoPayloadDefaults_fixed (payload0 : ssoPayload) :
    (ssoPayloadDefaults payload0).token = payload0.token ∧
    (ssoPayloadDefaults payload0).email = payload0.email ∧
    (ssoPayloadDefaults payload0).name = payload0.name := by
  unfold ssoPayloadDefaults
  simp only []
  split_ifs <;> exact ⟨rfl, rfl, rfl⟩

/-- `ssoCallbackHandler` either answers with an error before touching the commenter
and session tables, or has passed the gates (a) to (e) and continues with the
resolution and binding on a store with the same commenter and session tables. -/
theorem ssoCallbackHandler_gates (env : Env) (db : DB) (payloadHex signature : String) :
    ((ssoCallbackHandler env db payloadHex signature).1.isError = true ∧
      (ssoCallbackHandler env db payloadHex signature).2.commenterSessions = db.commenterSessions ∧
      (ssoCallbackHandler env db payloadHex signature).2.commenters = db.commenters) ∨
    (∃ payload0 t d db1, specSsoGates env db payloadHex signature payload0 t d ∧
      db1.commenterSessions = db.commenterSessions ∧ db1.commenters = db.commenters ∧
      ssoCallbackHandler env db payloadHex signature =
        ssoResolveAndBind env db1 t.domain t.commenterToken (ssoPayloadDefaults payload0)) := by
  unfold ssoCallbackHandler
  split
  · exact Or.inl ⟨rfl, rfl, rfl⟩
  · rename_i payloadBytes hp
    split
    · exact Or.inl ⟨rfl, rfl, rfl⟩
    · rename_i signatureBytes hs
      split
      · exact Or.inl ⟨rfl, rfl, rfl⟩
      · rename_i payload0 hj
        split
        · exact Or.inl ⟨rfl, rfl, rfl⟩
        · rename_i hfields
          simp only []
          have htoken : (if (if payload0.link = "" then { payload0 with link := "undefined" } else payload0).photo = ""
              then { (if payload0.link = "" then { payload0 with link := "undefined" } else payload0) with
                photo := "undefined" }
              else (if payload0.link = "" then { payload0 with link := "undefined" } else payload0)).token
              = payload0.token := by
            split_ifs <;> rfl
          rw [htoken]
          have ht := ssoTokenExtract_tables env db payload0.token
          split
          · rename_i h
            rw [h] at ht
            exact Or.inl ⟨rfl, ht.2.1, ht.1⟩
          · rename_i domain commenterToken db1 h
            rw [h] at ht
            obtain ⟨hc1, hc2, hfind⟩ := ht
            obtain ⟨t, hfindt, htd, htc⟩ := hfind domain commenterToken rfl
            subst htd htc
            split
            · split <;> exact Or.inl ⟨rfl, hc2, hc1⟩
            · rename_i d hd
              split
              · exact Or.inl ⟨rfl, hc2, hc1⟩
              · rename_i hcfg
                split
                · exact Or.inl ⟨rfl, hc2, hc1⟩
                · rename_i key hk
                  split
                  · exact Or.inl ⟨rfl, hc2, hc1⟩
                  · rename_i heq
                    simp only [Bool.not_eq_true', decide_eq_false_iff_not, not_not] at heq
                    refine Or.inr ⟨payload0, t, d, db1, ?_, hc2, hc1, rfl⟩
                    refine ⟨payloadBytes, signatureBytes, key, hp, hs, hj, ?_, ?_, ?_, hfindt, hd, ?_, ?_,
                      hk, heq⟩
                    · exact fun e => hfields (Or.inl e)
                    · exact fun e => hfields (Or.inr (Or.inl e))
                    · exact fun e => hfields (Or.inr (Or.inr e))
                    · exact fun e => hcfg (Or.inl e)
                    · exact fun e => hcfg (Or.inr e)

/-- C11: the SSO callback binds the pending session only on the path where every
gate has passed. Every call that answers with an error leaves the session
table unchanged, so the pending session stays unbound; a call that does not
answer with an error has decoded payload and signature, parsed a payload with
token, email and name, resolved the token, loaded a domain with an SSO secret
and a callback URL and matched the signature; and it has bound the session of
the resolved token to the identifier of a commenter that is in the commenter
table under the provider `sso:` + domain with the payload's email. -/
theorem C11_sso_binding (env : Env) (db : DB) (payloadHex signature : String) :
    ((ssoCallbackHandler env db payloadHex signature).1.isError = true →
      (ssoCallbackHandler env db payloadHex signature).2.commenterSessions = db.commenterSessions) ∧
    ((ssoCallbackHandler env db payloadHex signature).2.commenterSessions ≠ db.commenterSessions →
      (ssoCallbackHandler env db payloadHex signature).1 = ssoResponse.closeWindow) ∧
    ((ssoCallbackHandler env db payloadHex signature).1 = ssoResponse.closeWindow →
      ∃ payload0 t d commenterHex, specSsoGates env db payloadHex signature payload0 t d ∧
        (∃ c ∈ (ssoCallbackHandler env db payloadHex signature).2.commenters,
          c.commenterHex = commenterHex ∧ c.provider = "sso:" ++ t.domain ∧ c.email = payload0.email) ∧
        (ssoCallbackHandler env db payloadHex signature).2.commenterSessions
          = specBound db.commenterSessions t.commenterToken commenterHex) := by
  have herr : (ssoCallbackHandler env db payloadHex signature).1.isError = true →
      (ssoCallbackHandler env db payloadHex signature).2.commenterSessions = db.commenterSessions := by
    intro he
    rcases ssoCallbackHandler_gates env db payloadHex signature with h | ⟨payload0, t, d, db1, _, hs, _, heq⟩
    · exact h.2.1
    · rw [heq] at he ⊢
      rw [(ssoResolveAndBind_spec env db1 _ _ _).1 he, hs]
  refine ⟨herr, ?_, ?_⟩
  · intro hne
    cases hr : (ssoCallbackHandler env db payloadHex signature).1 with
    | closeWindow => rfl
    | invalidPayloadHex e => exact absurd (herr (by rw [hr]; rfl)) hne
    | invalidSignatureHex e => exact absurd (herr (by rw [hr]; rfl)) hne
    | cannotUnmarshal e => exact absurd (herr (by rw [hr]; rfl)) hne
    | error e => exact absurd (herr (by rw [hr]; rfl)) hne
    | hmacVerificationFailed => exact absurd (herr (by rw [hr]; rfl)) hne
  · intro hok
    rcases ssoCallbackHandler_gates env db payloadHex signature with h | ⟨payload0, t, d, db1, hg, hs, _, heq⟩
    · rw [hok] at h
      exact absurd h.1 (by decide)
    · rw [heq] at hok ⊢
      obtain ⟨commenterHex, ⟨c, hc, h1, h2, h3⟩, hb⟩ := (ssoResolveAndBind_spec env db1 _ _ _).2 hok
      refine ⟨payload0, t, d, commenterHex, hg, ⟨c, hc, h1, h2, ?_⟩, ?_⟩
      · rw [h3, (ssoPayloadDefaults_fixed payload0).2.1]
      · rw [hb, hs]

/-- Witness of C11: the callback with the payload `010203` and its signature `3f`
closes the window, so it has bound the pending session `session-1` to a
commenter of provider `sso:example.com` that is in the commenter table. -/
theorem C11_sso_binding_witness :
    ∃ commenterHex, (∃ c ∈ (ssoCallbackHandler exampleEnv exampleDB "010203" "3f").2.commenters,
        c.commenterHex = commenterHex ∧ c.provider = "sso:example.com") ∧
      { commenterToken := "session-1", commenterHex := commenterHex } ∈
        (ssoCallbackHandler exampleEnv exampleDB "010203" "3f").2.commenterSessions := by
  obtain ⟨payload0, t, d, commenterHex, hg, ⟨c, hc, h1, h2, _⟩, hb⟩ :=
    (C11_sso_binding exampleEnv exampleDB "010203" "3f").2.2 (by decide)
  obtain ⟨payloadBytes, signatureBytes, key, hp, _, hj, _, _, _, hfind, _⟩ := hg
  have e1 : (Except.ok [1, 2, 3] : Except Error (List Nat)) = Except.ok payloadBytes := hp
  cases e1
  have e3 : (Except.ok ⟨"sso-1", "carol@example.com", "Carol", "", ""⟩ : Except Error ssoPayload)
      = Except.ok payload0 := hj
  cases e3
  have e4 : some (⟨"sso-1", "example.com", "session-1"⟩ : SsoTokenRow) = some t := hfind
  cases e4
  refine ⟨commenterHex, ⟨c, hc, h1, h2⟩, ?_⟩
  rw [hb]
  simp [specBound, exampleDB]

/-! ### Owner login -/

/-- The lookup of `ownerLogin` finds nothing when no owner has the email -/
theorem owners_find_none (owners : List OwnerRow) (email : String)
    (h : ∀ o ∈ owners, o.email ≠ email) :
    owners.find? (fun o => decide (o.email = email)) = none := by
  rw [List.find?_eq_none]
  intro o ho
  simpa using h o ho

/-- The two ways in which `ownerLogin` answers `InvalidEmailPassword` -/
theorem ownerLogin_invalid (env : OwnerEnv) (db : OwnerDB) (email password : String)
    (he : email ≠ "") (hp : password ≠ "") :
    ((env.fault OwnerStmt.ownerLoginSelect = true ∨ ∀ o ∈ db.owners, o.email ≠ email) →
      (ownerLogin env db email password).1 = Except.error Error.InvalidEmailPassword) ∧
    (∀ o, env.fault OwnerStmt.ownerLoginSelect = false →
      db.owners.find? (fun o => decide (o.email = email)) = some o →
      o.confirmedEmail = true → env.compareHashAndPassword o.passwordHash password = false →
      (ownerLogin env db email password).1 = Except.error Error.InvalidEmailPassword) := by
  constructor
  · intro h
    unfold ownerLogin
    rw [if_neg (by simp [he, hp])]
    rcases h with h | h
    · simp [h]
    · simp only [owners_find_none db.owners email h]
      split_ifs <;> rfl
  · intro o hf hfind hc hcmp
    unfold ownerLogin
    rw [if_neg (by simp [he, hp])]
    simp [hf, hfind, hc, hcmp]

/-- C12 (amended): for every non-empty email and password, `ownerLogin` fails with
`InvalidEmailPassword` when no owner has that email (or the lookup fails), and
when the owner is confirmed and the password does not match the stored digest,
the identical error in both cases; it fails with `UnconfirmedEmail` when the
account exists but is unverified, whether the password matches or not; and in
every failure case the store is returned unchanged, so no session row is
created. -/
theorem C12_ownerLogin_failures (env : OwnerEnv) (db : OwnerDB) (email password : String)
    (he : email ≠ "") (hp : password ≠ "") :
    ((env.fault OwnerStmt.ownerLoginSelect = true ∨ ∀ o ∈ db.owners, o.email ≠ email) →
      (ownerLogin env db email password).1 = Except.error Error.InvalidEmailPassword) ∧
    (∀ o, env.fault OwnerStmt.ownerLoginSelect = false →
      db.owners.find? (fun o => decide (o.email = email)) = some o →
      (o.confirmedEmail = true → env.compareHashAndPassword o.passwordHash password = false →
        (ownerLogin env db email password).1 = Except.error Error.InvalidEmailPassword) ∧
      (o.confirmedEmail = false →
        (ownerLogin env db email password).1 = Except.error Error.UnconfirmedEmail)) ∧
    (∀ err, (ownerLogin env db email password).1 = Except.error err →
      (ownerLogin env db email password).2.1 = db) := by
  refine ⟨?_, ?_, ?_⟩
  · intro h
    unfold ownerLogin
    rw [if_neg (by simp [he, hp])]
    rcases h with h | h
    · simp [h]
    · simp only [owners_find_none db.owners email h]
      split_ifs <;> rfl
  · intro o hf hfind
    constructor
    · intro hc hcmp
      unfold ownerLogin
      rw [if_neg (by simp [he, hp])]
      simp [hf, hfind, hc, hcmp]
    · intro hc
      unfold ownerLogin
      rw [if_neg (by simp [he, hp])]
      simp [hf, hfind, hc]
  · intro err herr
    unfold ownerLogin at herr ⊢
    split
    · rfl
    · simp only [] at herr ⊢
      split
      · rfl
      · split
        · rfl
        · split
          · rfl
          · split
            · rfl
            · split
              · rfl
              · rename_i h1 _ o hs h2 h3 _ tok hr h4
                simp [h1, hs, h2, h3, hr, h4] at herr

/-- Witness of C12 (amended): Olivia's login with a wrong password fails with
`InvalidEmailPassword` and creates no session. -/
theorem C12_ownerLogin_failures_witness :
    (ownerLogin exampleOwnerEnv exampleOwnerDB "olivia@example.com" "guess").1
      = Except.error Error.InvalidEmailPassword ∧
    (ownerLogin exampleOwnerEnv exampleOwnerDB "olivia@example.com" "guess").2.1 = exampleOwnerDB :=
  ⟨((C12_ownerLogin_failures exampleOwnerEnv exampleOwnerDB "olivia@example.com" "guess"
      (by decide) (by decide)).2.1 olivia rfl rfl).1 rfl rfl,
   (C12_ownerLogin_failures exampleOwnerEnv exampleOwnerDB "olivia@example.com" "guess"
      (by decide) (by decide)).2.2 Error.InvalidEmailPassword rfl⟩

/-- Counterexample to C12 as stated: Nina's account exists and is not confirmed;
a login with a password that does not match her digest fails with
`UnconfirmedEmail`, not with `InvalidEmailPassword`. -/
theorem C12_unconfirmed_wrong_password :
    nina ∈ exampleOwnerDB.owners ∧ nina.confirmedEmail = false ∧
    exampleOwnerEnv.compareHashAndPassword nina.passwordHash "guess" = false ∧
    (ownerLogin exampleOwnerEnv exampleOwnerDB "nina@example.com" "guess").1
      = Except.error Error.UnconfirmedEmail ∧
    (ownerLogin exampleOwnerEnv exampleOwnerDB "nina@example.com" "guess").1
      ≠ Except.error Error.InvalidEmailPassword :=
  ⟨by decide, rfl, rfl, rfl, fun h => by cases h⟩

/-- C13 (amended): with the sleep of `ownerLogin` recorded, a call that fails for
an unknown email and a call on a confirmed account that fails for a wrong
password each record exactly one delay of the duration `WrongAuthDelay`; a call
records that delay exactly when it fails with `InvalidEmailPassword` and records
nothing otherwise; a successful login records no delay; a call on an account
whose email is not confirmed fails with `UnconfirmedEmail` and records no delay,
whether or not the password matches. -/
theorem C13_ownerLogin_delay (env : OwnerEnv) (db : OwnerDB) (email password : String)
    (he : email ≠ "") (hp : password ≠ "") :
    ((env.fault OwnerStmt.ownerLoginSelect = true ∨ ∀ o ∈ db.owners, o.email ≠ email) →
      (ownerLogin env db email password).2.2 = [env.wrongAuthDelay]) ∧
    (∀ o, env.fault OwnerStmt.ownerLoginSelect = false →
      db.owners.find? (fun o => decide (o.email = email)) = some o →
      o.confirmedEmail = true → env.compareHashAndPassword o.passwordHash password = false →
      (ownerLogin env db email password).2.2 = [env.wrongAuthDelay]) ∧
    ((ownerLogin env db email password).1 = Except.error Error.InvalidEmailPassword ↔
      (ownerLogin env db email password).2.2 = [env.wrongAuthDelay]) ∧
    ((ownerLogin env db email password).1 ≠ Except.error Error.InvalidEmailPassword →
      (ownerLogin env db email password).2.2 = []) ∧
    (∀ ownerToken, (ownerLogin env db email password).1 = Except.ok ownerToken →
      (ownerLogin env db email password).2.2 = []) ∧
    (∀ o, env.fault OwnerStmt.ownerLoginSelect = false →
      db.owners.find? (fun o => decide (o.email = email)) = some o →
      o.confirmedEmail = false →
      (ownerLogin env db email password).1 = Except.error Error.UnconfirmedEmail ∧
      (ownerLogin env db email password).2.2 = []) := by
  have hcases : ((ownerLogin env db email password).1 = Except.error Error.InvalidEmailPassword ∧
        (ownerLogin env db email password).2.2 = [env.wrongAuthDelay]) ∨
      ((ownerLogin env db email password).1 ≠ Except.error Error.InvalidEmailPassword ∧
        (ownerLogin env db email password).2.2 = []) := by
    unfold ownerLogin
    split
    · exact Or.inr ⟨by simp, rfl⟩
    · simp only []
      split
      · exact Or.inl ⟨rfl, rfl⟩
      · split
        · exact Or.inr ⟨by simp, rfl⟩
        · split
          · exact Or.inl ⟨rfl, rfl⟩
          · split
            · exact Or.inr ⟨by simp, rfl⟩
            · split
              · exact Or.inr ⟨by simp, rfl⟩
              · exact Or.inr ⟨by simp, rfl⟩
  have h12 := ownerLogin_invalid env db email password he hp
  refine ⟨?_, ?_, ?_, ?_, ?_, ?_⟩
  · intro h
    rcases hcases with hc | hc
    · exact hc.2
    · exact absurd (h12.1 h) hc.1
  · intro o hf hfind hconf hcmp
    rcases hcases with hc | hc
    · exact hc.2
    · exact absurd (h12.2 o hf hfind hconf hcmp) hc.1
  · constructor
    · intro h
      rcases hcases with hc | hc
      · exact hc.2
      · exact absurd h hc.1
    · intro h
      rcases hcases with hc | hc
      · exact hc.1
      · rw [hc.2] at h; simp at h
  · intro h
    rcases hcases with hc | hc
    · exact absurd hc.1 h
    · exact hc.2
  · intro ownerToken h
    rcases hcases with hc | hc
    · rw [h] at hc; simp at hc
    · exact hc.2
  · intro o hf hfind hc
    unfold ownerLogin
    rw [if_neg (by simp [he, hp])]
    simp [hf, hfind, hc]

/-- Witness of C13 (amended): a login with an unknown email and Olivia's login
with a wrong password record the same single delay. -/
theorem C13_ownerLogin_delay_witness :
    (ownerLogin exampleOwnerEnv exampleOwnerDB "nobody@example.com" "guess").2.2 = [10] ∧
    (ownerLogin exampleOwnerEnv exampleOwnerDB "olivia@example.com" "guess").2.2 = [10] :=
  ⟨(C13_ownerLogin_delay exampleOwnerEnv exampleOwnerDB "nobody@example.com" "guess"
      (by decide) (by decide)).1 (Or.inr (by decide)),
   (C13_ownerLogin_delay exampleOwnerEnv exampleOwnerDB "olivia@example.com" "guess"
      (by decide) (by decide)).2.1 olivia rfl rfl rfl rfl⟩

/-- Counterexample to C13 as stated: Nina's account exists and is not confirmed;
a login with a password that does not match her digest fails and records no
delay, while a login with an unknown email and the same password records the
delay `WrongAuthDelay`, so the two failures differ in their recorded delay. -/
theorem C13_unconfirmed_wrong_password_no_delay :
    nina ∈ exampleOwnerDB.owners ∧ nina.confirmedEmail = false ∧
    exampleOwnerEnv.compareHashAndPassword nina.passwordHash "guess" = false ∧
    (∀ o ∈ exampleOwnerDB.owners, o.email ≠ "nobody@example.com") ∧
    (∀ ownerToken, (ownerLogin exampleOwnerEnv exampleOwnerDB "nina@example.com" "guess").1
      ≠ Except.ok ownerToken) ∧
    (ownerLogin exampleOwnerEnv exampleOwnerDB "nina@example.com" "guess").2.2 = [] ∧
    (ownerLogin exampleOwnerEnv exampleOwnerDB "nobody@example.com" "guess").2.2
      = [exampleOwnerEnv.wrongAuthDelay] ∧
    (ownerLogin exampleOwnerEnv exampleOwnerDB "nina@example.com" "guess").2.2
      ≠ (ownerLogin exampleOwnerEnv exampleOwnerDB "nobody@example.com" "guess").2.2 := by
  refine ⟨by decide, rfl, rfl, by decide, ?_, rfl, rfl, by decide⟩
  intro ownerToken h
  cases h

/-! ### Owner deletion -/

/-- The domain loop of `ownerDelete` writes to table `domains` only and removes
rows only; when it succeeds, no domain with one of the names is left and the
log lists one deletion per domain, in order. -/
theorem ownerDeleteDomains_spec (env : OwnerEnv) (ds : List DomainRow) :
    ∀ db : OwnerDB,
      (ownerDeleteDomains env ds db).2.1.owners = db.owners ∧
      (ownerDeleteDomains env ds db).2.1.ownerSessions = db.ownerSessions ∧
      (ownerDeleteDomains env ds db).2.1.resetHexes = db.resetHexes ∧
      (∀ d ∈ (ownerDeleteDomains env ds db).2.1.domains, d ∈ db.domains) ∧
      (∀ u, (ownerDeleteDomains env ds db).1 = Except.ok u →
        (∀ d ∈ (ownerDeleteDomains env ds db).2.1.domains, ∀ x ∈ ds, d.domain ≠ x.domain) ∧
        (ownerDeleteDomains env ds db).2.2 = ds.map (fun d => OwnerWrite.domainDelete d.domain)) := by
  induction ds with
  | nil =>
    intro db
    exact ⟨rfl, rfl, rfl, fun _ h => h, fun _ _ => ⟨fun _ _ x hx => by simp at hx, rfl⟩⟩
  | cons x rest ih =>
    intro db
    rw [ownerDeleteDomains]
    unfold domainDelete
    split
    · rename_i h
      split at h
      · simp only [Prod.mk.injEq] at h
        rw [← h.2]
        exact ⟨rfl, rfl, rfl, fun _ hd => hd, fun _ hu => by simp at hu⟩
      · simp at h
    · rename_i u1 db1 h
      split at h
      · simp at h
      · simp only [Prod.mk.injEq] at h
        obtain ⟨i1, i2, i3, i4, i5⟩ := ih db1
        have hdb1 : db1.domains = db.domains.filter (fun d => !decide (d.domain = x.domain)) := by
          rw [← h.2]
        refine ⟨?_, ?_, ?_, ?_, ?_⟩
        · rw [i1, ← h.2]
        · rw [i2, ← h.2]
        · rw [i3, ← h.2]
        · intro d hd
          have := i4 d hd
          rw [hdb1] at this
          exact List.mem_of_mem_filter this
        · intro u hu
          obtain ⟨j1, j2⟩ := i5 u hu
          refine ⟨?_, ?_⟩
          · intro d hd y hy
            rcases List.mem_cons.1 hy with rfl | hy
            · have := i4 d hd
              rw [hdb1] at this
              simpa using (List.mem_filter.1 this).2
            · exact j1 d hd y hy
          · simp only [j2, List.map_cons]

/-- C14: for every owner that has at least one domain, `ownerDelete(owner, false)`
fails, with `CannotDeleteOwnerWithActiveDomains` when the listing of the
domains reports no fault, writes nothing and returns the store unchanged: the
owner record, its domains, its sessions and its reset tokens are still there.
The same holds of the handler `OwnerDelete` for a token of that owner. -/
theorem C14_ownerDelete_refuses_with_domains (env : OwnerEnv) (db : OwnerDB) (ownerHex : String)
    (hdom : ∃ d ∈ db.domains, d.ownerHex = ownerHex) :
    (ownerDelete env db ownerHex false).2.1 = db ∧
    (ownerDelete env db ownerHex false).2.2 = [] ∧
    (∃ err, (ownerDelete env db ownerHex false).1 = Except.error err) ∧
    (env.fault OwnerStmt.domainListSelect = false →
      (ownerDelete env db ownerHex false).1 = Except.error Error.CannotDeleteOwnerWithActiveDomains) ∧
    (∀ ownerToken owner, ownerGetByOwnerToken env db ownerToken = Except.ok owner →
      owner.ownerHex = ownerHex →
      (OwnerDelete env db ownerToken).1.success = false ∧
      (OwnerDelete env db ownerToken).2 = db ∧
      (env.fault OwnerStmt.domainListSelect = false →
        (OwnerDelete env db ownerToken).1.message = some Error.CannotDeleteOwnerWithActiveDomains)) := by
  have hlen : (db.domains.filter (fun d => decide (d.ownerHex = ownerHex))).length > 0 := by
    obtain ⟨d, hd, ho⟩ := hdom
    exact List.length_pos_of_mem (List.mem_filter.2 ⟨hd, by simpa using ho⟩)
  have hmain : (env.fault OwnerStmt.domainListSelect = true ∧
        ownerDelete env db ownerHex false = (Except.error Error.Internal, db, [])) ∨
      (env.fault OwnerStmt.domainListSelect = false ∧
        ownerDelete env db ownerHex false =
          (Except.error Error.CannotDeleteOwnerWithActiveDomains, db, [])) := by
    unfold ownerDelete domainList
    cases hf : env.fault OwnerStmt.domainListSelect
    · right
      simp only [Bool.false_eq_true, if_false, hlen, if_true, Bool.not_false]
      exact ⟨trivial, trivial⟩
    · left
      simp
  refine ⟨?_, ?_, ?_, ?_, ?_⟩
  · rcases hmain with h | h <;> rw [h.2]
  · rcases hmain with h | h <;> rw [h.2]
  · rcases hmain with h | h <;> rw [h.2] <;> exact ⟨_, rfl⟩
  · intro hf
    rcases hmain with h | h
    · rw [h.1] at hf; exact absurd hf (by decide)
    · rw [h.2]
  · intro ownerToken owner hown hhex
    unfold OwnerDelete
    rw [hown]
    simp only [hhex]
    rcases hmain with h | h <;> rw [h.2]
    · refine ⟨rfl, rfl, fun hf => ?_⟩
      rw [h.1] at hf; exact absurd hf (by decide)
    · exact ⟨rfl, rfl, fun _ => rfl⟩

/-- Witness of C14: Olivia owns two domains; her deletion without cascade is
refused and leaves the store as it was. -/
theorem C14_ownerDelete_refuses_with_domains_witness :
    (ownerDelete exampleOwnerEnv exampleOwnerDB "0a" false).1
      = Except.error Error.CannotDeleteOwnerWithActiveDomains ∧
    (ownerDelete exampleOwnerEnv exampleOwnerDB "0a" false).2.1 = exampleOwnerDB :=
  ⟨(C14_ownerDelete_refuses_with_domains exampleOwnerEnv exampleOwnerDB "0a" (by decide)).2.2.2.1 rfl,
   (C14_ownerDelete_refuses_with_domains exampleOwnerEnv exampleOwnerDB "0a" (by decide)).1⟩

/-- C15: when `ownerDelete` succeeds (which needs the cascade flag or an owner
without domains), the resulting store has no domain owned by that owner, no
owner record for it, no owner session bound to it and no reset token belonging
to it; the writes are the deletions of the owned domains, then the owner
record, then the sessions, then the reset tokens; and the call does succeed
with the cascade flag, or for an owner without domains, when the storage
reports no fault. -/
theorem C15_ownerDelete_cascade (env : OwnerEnv) (db db1 : OwnerDB) (ownerHex : String)
    (deleteDomains : Bool) (u : Unit) (log : List OwnerWrite)
    (h : ownerDelete env db ownerHex deleteDomains = (Except.ok u, db1, log)) :
    (deleteDomains = true ∨ ∀ d ∈ db.domains, d.ownerHex ≠ ownerHex) ∧
    (∀ d ∈ db1.domains, d.ownerHex ≠ ownerHex) ∧
    (∀ o ∈ db1.owners, o.ownerHex ≠ ownerHex) ∧
    (∀ s ∈ db1.ownerSessions, s.ownerHex ≠ ownerHex) ∧
    (∀ r ∈ db1.resetHexes, r.hex ≠ ownerHex) ∧
    log = (db.domains.filter (fun d => decide (d.ownerHex = ownerHex))).map
        (fun d => OwnerWrite.domainDelete d.domain) ++
      [OwnerWrite.ownersDelete ownerHex, OwnerWrite.ownerSessionsDelete ownerHex,
       OwnerWrite.resetHexesDelete ownerHex] ∧
    (∀ env2 : OwnerEnv, (∀ st, env2.fault st = false) →
      ∃ db2 log2, ownerDelete env2 db ownerHex deleteDomains = (Except.ok (), db2, log2)) := by
  have key : ∃ (dbc : OwnerDB) (logc : List OwnerWrite),
      (deleteDomains = true ∨ ∀ d ∈ db.domains, d.ownerHex ≠ ownerHex) ∧
      dbc.owners = db.owners ∧ dbc.ownerSessions = db.ownerSessions ∧ dbc.resetHexes = db.resetHexes ∧
      (∀ d ∈ dbc.domains, d.ownerHex ≠ ownerHex) ∧
      logc = (db.domains.filter (fun d => decide (d.ownerHex = ownerHex))).map
        (fun d => OwnerWrite.domainDelete d.domain) ∧
      (db1.domains = dbc.domains ∧
        db1.owners = dbc.owners.filter (fun o => !decide (o.ownerHex = ownerHex)) ∧
        db1.ownerSessions = dbc.ownerSessions.filter (fun s => !decide (s.ownerHex = ownerHex)) ∧
        db1.resetHexes = dbc.resetHexes.filter (fun r => !decide (r.hex = ownerHex))) ∧
      log = logc ++ [OwnerWrite.ownersDelete ownerHex, OwnerWrite.ownerSessionsDelete ownerHex,
        OwnerWrite.resetHexesDelete ownerHex] := by
    unfold ownerDelete domainList at h
    split at h
    · simp at h
    · rename_i domains hdl
      split at hdl
      · simp at hdl
      · have hds : domains = db.domains.filter (fun d => decide (d.ownerHex = ownerHex)) :=
          (Except.ok.inj hdl).symm
        simp only [] at h
        split at h
        · simp at h
        · rename_i u1 dbc logc hcl
          split at h
          · simp at h
          · split at h
            · simp at h
            · split at h
              · simp at h
              · simp only [Prod.mk.injEq, List.append_assoc, List.cons_append, List.nil_append] at h
                refine ⟨dbc, logc, ?_⟩
                have hfin : (db1.domains = dbc.domains ∧
                    db1.owners = dbc.owners.filter (fun o => !decide (o.ownerHex = ownerHex)) ∧
                    db1.ownerSessions = dbc.ownerSessions.filter (fun s => !decide (s.ownerHex = ownerHex)) ∧
                    db1.resetHexes = dbc.resetHexes.filter (fun r => !decide (r.hex = ownerHex))) ∧
                    log = logc ++ [OwnerWrite.ownersDelete ownerHex,
                      OwnerWrite.ownerSessionsDelete ownerHex, OwnerWrite.resetHexesDelete ownerHex] := by
                  rw [← h.2.1, ← h.2.2]
                  exact ⟨⟨rfl, rfl, rfl, rfl⟩, rfl⟩
                by_cases hlen : domains.length > 0
                · rw [if_pos hlen] at hcl
                  cases hdd : deleteDomains with
                  | false => rw [hdd] at hcl; simp at hcl
                  | true =>
                    rw [hdd] at hcl
                    simp only [Bool.not_true, Bool.false_eq_true, if_false] at hcl
                    obtain ⟨i1, i2, i3, i4, i5⟩ := ownerDeleteDomains_spec env domains db
                    rw [hcl] at i1 i2 i3 i4 i5
                    simp only at i1 i2 i3 i4 i5
                    obtain ⟨j1, j2⟩ := i5 u1 trivial
                    refine ⟨Or.inl rfl, i1, i2, i3, ?_, by rw [j2, hds], hfin.1, hfin.2⟩
                    intro d hd ho
                    have hmem : d ∈ domains := by
                      rw [hds]
                      exact List.mem_filter.2 ⟨i4 d hd, by simpa using ho⟩
                    exact j1 d hd d hmem rfl
                · rw [if_neg hlen] at hcl
                  simp only [Prod.mk.injEq] at hcl
                  obtain ⟨_, hc1, hc2⟩ := hcl
                  subst hc1
                  have hnil : domains = [] := by
                    cases domains with
                    | nil => rfl
                    | cons a b => simp at hlen
                  have hnone : ∀ d ∈ db.domains, d.ownerHex ≠ ownerHex := by
                    intro d hd ho
                    have : d ∈ domains := by
                      rw [hds]
                      exact List.mem_filter.2 ⟨hd, by simpa using ho⟩
                    rw [hnil] at this
                    simp at this
                  refine ⟨Or.inr hnone, rfl, rfl, rfl, hnone, ?_, hfin.1, hfin.2⟩
                  rw [← hc2, ← hds, hnil]
                  rfl
  obtain ⟨dbc, logc, hflag, ho, hs, hr, hd, hlogc, hdb1, hlog⟩ := key
  refine ⟨hflag, ?_, ?_, ?_, ?_, ?_, ?_⟩
  · intro d hdm
    rw [hdb1.1] at hdm
    exact hd d hdm
  · intro o hom
    rw [hdb1.2.1] at hom
    simpa using (List.mem_filter.1 hom).2
  · intro s hsm
    rw [hdb1.2.2.1] at hsm
    simpa using (List.mem_filter.1 hsm).2
  · intro r hrm
    rw [hdb1.2.2.2] at hrm
    simpa using (List.mem_filter.1 hrm).2
  · rw [hlog, hlogc]
  · intro env2 hnf
    have hloop : ∀ (ds : List DomainRow) (dbx : OwnerDB),
        ∃ dby logy, ownerDeleteDomains env2 ds dbx = (Except.ok (), dby, logy) := by
      intro ds
      induction ds with
      | nil => intro dbx; exact ⟨_, _, rfl⟩
      | cons x rest ih =>
        intro dbx
        rw [ownerDeleteDomains]
        unfold domainDelete
        rw [hnf]
        simp only [Bool.false_eq_true, if_false]
        obtain ⟨dby, logy, hy⟩ := ih { dbx with domains := dbx.domains.filter (fun d => !decide (d.domain = x.domain)) }
        rw [hy]
        exact ⟨_, _, rfl⟩
    unfold ownerDelete domainList
    simp only [hnf, Bool.false_eq_true, if_false]
    by_cases hlen : (db.domains.filter (fun d => decide (d.ownerHex = ownerHex))).length > 0
    · rw [if_pos hlen]
      rcases hflag with hdd | hnone
      · rw [hdd]
        simp only [Bool.not_true, Bool.false_eq_true, if_false]
        obtain ⟨dby, logy, hy⟩ := hloop (db.domains.filter (fun d => decide (d.ownerHex = ownerHex))) db
        rw [hy]
        exact ⟨_, _, rfl⟩
      · exfalso
        obtain ⟨d, hdm⟩ := List.exists_mem_of_length_pos hlen
        have := List.mem_filter.1 hdm
        exact hnone d this.1 (by simpa using this.2)
    · rw [if_neg hlen]
      exact ⟨_, _, rfl⟩

/-- Witness of C15: the deletion of Olivia with the cascade flag, on the example
owner store, leaves Nina, her domain and nothing of Olivia. -/
theorem C15_ownerDelete_cascade_witness :
    (∀ d ∈ (ownerDelete exampleOwnerEnv exampleOwnerDB "0a" true).2.1.domains, d.ownerHex ≠ "0a") ∧
    (ownerDelete exampleOwnerEnv exampleOwnerDB "0a" true).2.2 =
      [OwnerWrite.domainDelete "example.com", OwnerWrite.domainDelete "blog.example.com",
       OwnerWrite.ownersDelete "0a", OwnerWrite.ownerSessionsDelete "0a",
       OwnerWrite.resetHexesDelete "0a"] :=
  ⟨(C15_ownerDelete_cascade exampleOwnerEnv exampleOwnerDB
      (ownerDelete exampleOwnerEnv exampleOwnerDB "0a" true).2.1 "0a" true ()
      (ownerDelete exampleOwnerEnv exampleOwnerDB "0a" true).2.2 rfl).2.1,
   (C15_ownerDelete_cascade exampleOwnerEnv exampleOwnerDB
      (ownerDelete exampleOwnerEnv exampleOwnerDB "0a" true).2.1 "0a" true ()
      (ownerDelete exampleOwnerEnv exampleOwnerDB "0a" true).2.2 rfl).2.2.2.2.2.1⟩

/-! ### Approval -/

/-- The test of `isDomainModerator` is membership of the pair in table `moderators` -/
theorem moderators_any_mem (moderators : List ModeratorRow) (domain email : String) :
    moderators.any (fun m => decide (m.domain = domain) && decide (m.email = email)) = true ↔
    ({ domain := domain, email := email } : ModeratorRow) ∈ moderators := by
  rw [List.any_eq_true]
  constructor
  · rintro ⟨m, hm, hp⟩
    simp only [Bool.and_eq_true, decide_eq_true_eq] at hp
    obtain ⟨h1, h2⟩ := hp
    cases m
    simp only at h1 h2
    subst h1 h2
    exact hm
  · intro hm
    exact ⟨_, hm, by simp⟩

/-- A resolved domain of a comment is the domain of the first row with the identifier -/
theorem commentDomainPathGet_ok (env : Env) (db : DB) (commentHex domain path : String)
    (h : commentDomainPathGet env db commentHex = Except.ok (domain, path)) :
    commentHex ≠ "" ∧ ∃ row, db.comments.find? (fun r => decide (r.commentHex = commentHex)) = some row ∧
      row.domain = domain := by
  unfold commentDomainPathGet at h
  split at h
  · simp at h
  · split at h
    · simp at h
    · split at h
      · simp at h
      · rename_i hne _ _ row hrow
        simp only [Except.ok.injEq, Prod.mk.injEq] at h
        exact ⟨hne, row, hrow, h.1⟩

/-- C16: `CommentApprove` is moderator-only. For a resolved caller and a comment
whose domain resolves: if the caller's email is not in the moderator list of
the comment's domain the call fails, with `NotModerator` when the moderator
lookup reports no fault, and the store is unchanged; the call succeeds only for
such a moderator; and for a moderator, when the storage reports no fault, it
succeeds and rewrites exactly the state of the rows of that comment to
`approved`, leaving markdown, HTML, author and deleted flag as they were. -/
theorem C16_CommentApprove_moderator_only (env : Env) (db : DB) (params : CommentHexParams)
    (caller : Commenter) (domain path : String)
    (hc : env.commenterGetByCommenterToken params.commenterToken = Except.ok caller)
    (hdp : commentDomainPathGet env db params.commentHex = Except.ok (domain, path)) :
    (¬ specModeratorOf db params.commentHex caller.email →
      (CommentApprove env db params).1.success = false ∧
      (CommentApprove env db params).2 = db ∧
      (env.fault Stmt.isDomainModeratorSelect = false →
        (CommentApprove env db params).1.message = some Error.NotModerator)) ∧
    ((CommentApprove env db params).1.success = true →
      specModeratorOf db params.commentHex caller.email) ∧
    (specModeratorOf db params.commentHex caller.email →
      env.fault Stmt.isDomainModeratorSelect = false →
      env.fault Stmt.commentApproveUpdate = false →
      (CommentApprove env db params).1 = APIResponseBase.succeeded ∧
      (CommentApprove env db params).2.comments = db.comments.map (fun r =>
        if r.commentHex = params.commentHex then { r with state := "approved" } else r) ∧
      (∀ r ∈ (CommentApprove env db params).2.comments, r.commentHex = params.commentHex →
        r.state = "approved") ∧
      (∀ r ∈ db.comments, r.commentHex = params.commentHex →
        ∃ r1 ∈ (CommentApprove env db params).2.comments, r1.commentHex = r.commentHex ∧
          r1.state = "approved" ∧ r1.markdown = r.markdown ∧ r1.html = r.html ∧
          r1.commenterHex = r.commenterHex ∧ r1.deleted = r.deleted)) := by
  obtain ⟨hne, row, hrow, hrd⟩ := commentDomainPathGet_ok env db _ _ _ hdp
  have hspec : specModeratorOf db params.commentHex caller.email ↔
      db.moderators.any (fun m => decide (m.domain = domain) && decide (m.email = caller.email)) = true := by
    rw [moderators_any_mem]
    constructor
    · rintro ⟨row2, hrow2, hm⟩
      rw [hrow] at hrow2
      cases hrow2
      rw [← hrd]
      exact hm
    · intro hm
      exact ⟨row, hrow, by rw [hrd]; exact hm⟩
  have hform : CommentApprove env db params =
      match isDomainModerator env db domain caller.email with
      | Except.error err => (APIResponseBase.failure err, db)
      | Except.ok isModerator =>
        if !isModerator then (APIResponseBase.failure Error.NotModerator, db)
        else
          match commentApprove env db params.commentHex with
          | (Except.error err, db1) => (APIResponseBase.failure err, db1)
          | (Except.ok _, db1) => (APIResponseBase.succeeded, db1) := by
    unfold CommentApprove
    rw [hc, hdp]
  refine ⟨?_, ?_, ?_⟩
  · intro hnot
    have hfalse : db.moderators.any (fun m => decide (m.domain = domain) &&
        decide (m.email = caller.email)) = false := by
      cases hb : db.moderators.any (fun m => decide (m.domain = domain) &&
        decide (m.email = caller.email)) with
      | false => rfl
      | true => exact absurd (hspec.2 hb) hnot
    rw [hform]
    unfold isDomainModerator
    cases hf : env.fault Stmt.isDomainModeratorSelect
    · simp [hfalse, APIResponseBase.failure]
    · simp [APIResponseBase.failure]
  · intro hs
    rw [hform] at hs
    unfold isDomainModerator at hs
    split at hs
    · rename_i herr
      split at herr
      · simp [APIResponseBase.failure] at hs
      · simp at herr
    · rename_i isMod hok
      split at hok
      · simp at hok
      · have hm := Except.ok.inj hok
        cases hmod : isMod with
        | false => rw [hmod] at hs; simp [APIResponseBase.failure] at hs
        | true => rw [hmod] at hm; exact hspec.2 hm
  · intro hmod hf1 hf2
    have htrue := hspec.1 hmod
    have hval : CommentApprove env db params = (APIResponseBase.succeeded,
        { db with comments := db.comments.map (fun r =>
            if r.commentHex = params.commentHex then { r with state := "approved" } else r) }) := by
      rw [hform]
      unfold isDomainModerator commentApprove
      simp [hf1, hf2, htrue, hne]
    rw [hval]
    refine ⟨rfl, rfl, ?_, ?_⟩
    · intro r hr hhex
      obtain ⟨r0, _, rfl⟩ := List.mem_map.1 hr
      by_cases h0 : r0.commentHex = params.commentHex
      · simp [h0]
      · simp [h0] at hhex
    · intro r hr hhex
      refine ⟨_, List.mem_map_of_mem _ hr, ?_⟩
      simp [hhex]

/-- Witness of C16: Bob is no moderator of example.com; his approval of his own
pending reply is refused with `NotModerator` and changes nothing. -/
theorem C16_CommentApprove_moderator_only_witness :
    (CommentApprove exampleEnv exampleDB { commenterToken := "token-bob", commentHex := "c2" }).1.message
      = some Error.NotModerator ∧
    (CommentApprove exampleEnv exampleDB { commenterToken := "token-bob", commentHex := "c2" }).2
      = exampleDB := by
  have h := (C16_CommentApprove_moderator_only exampleEnv exampleDB
    { commenterToken := "token-bob", commentHex := "c2" } bob "example.com" "/post" rfl rfl).1
    (by decide)
  exact ⟨h.2.2 rfl, h.2.1⟩

/-! ### Rejections of `CommentNew` -/

/-- C17: with the domain loaded, `CommentNew` answers `DomainFrozen` whenever the
domain's state is frozen, whoever the actor is, and otherwise `NotAuthorised`
whenever the domain requires identification and the token is the anonymous
one; in both cases it returns the store unchanged and performs no effect: no
comment row, no page row, no spam check and no notification. -/
theorem C17_CommentNew_rejections (env : Env) (db : DB) (params : CommentNewParams) (domain : Domain)
    (hdom : env.domainGet params.domain = Except.ok domain) :
    (domain.state = "frozen" →
      CommentNew env db params = (CommentNewOKBody.failure Error.DomainFrozen, db, []) ∧
      (CommentNew env db params).1.message = some Error.DomainFrozen ∧
      (CommentNew env db params).2.1.comments = db.comments ∧
      (CommentNew env db params).2.1.pages = db.pages ∧
      (CommentNew env db params).2.2 = []) ∧
    (domain.state ≠ "frozen" → domain.requireIdentification = true →
      params.commenterToken = AnonymousCommenterHexID →
      CommentNew env db params = (CommentNewOKBody.failure Error.NotAuthorised, db, []) ∧
      (CommentNew env db params).1.message = some Error.NotAuthorised ∧
      (CommentNew env db params).2.1.comments = db.comments ∧
      (CommentNew env db params).2.1.pages = db.pages ∧
      (CommentNew env db params).2.2 = []) := by
  constructor
  · intro hfz
    have h : CommentNew env db params = (CommentNewOKBody.failure Error.DomainFrozen, db, []) := by
      unfold CommentNew
      simp only [hdom, hfz, if_true]
    rw [h]
    exact ⟨rfl, rfl, rfl, rfl, rfl⟩
  · intro hfz hid htok
    have h : CommentNew env db params = (CommentNewOKBody.failure Error.NotAuthorised, db, []) := by
      unfold CommentNew
      simp only [hdom, hfz, if_false, hid, htok, decide_True, Bool.and_self, if_true]
    rw [h]
    exact ⟨rfl, rfl, rfl, rfl, rfl⟩

/-- Witness of C17: on a frozen domain an anonymous reply is refused with
`DomainFrozen`, and nothing is written or triggered. -/
theorem C17_CommentNew_rejections_witness :
    CommentNew frozenEnv exampleDB anonymousReply
      = (CommentNewOKBody.failure Error.DomainFrozen, exampleDB, []) :=
  ((C17_CommentNew_rejections frozenEnv exampleDB anonymousReply frozenDomain rfl).1 rfl).1

/-! ### The commenter directory of a listing -/

/-- The directory that the row loop of `commentList` returns keeps the entries it
started with, has an entry for the author of every row, and every other entry
is what `commenterGetByHex` returned for the author of a row. -/
theorem commentListLoop_directory (env : Env) (db : DB) (commenter : Option Commenter)
    (isModerator : Bool) (rows : List CommentRow) :
    ∀ (acc : List Comment) (dir : List (String × Commenter)) (comments : List Comment)
      (commenters : List (String × Commenter)),
      commentListLoop env db commenter isModerator rows acc dir = Except.ok (comments, commenters) →
      (∀ e ∈ dir, e ∈ commenters) ∧
      (∀ r ∈ rows, ∃ e ∈ commenters, e.1 = r.commenterHex) ∧
      (∀ e ∈ commenters, e ∈ dir ∨
        ∃ r ∈ rows, e.1 = r.commenterHex ∧ env.commenterGetByHex r.commenterHex = Except.ok e.2) := by
  induction rows with
  | nil =>
    intro acc dir comments commenters h
    simp only [commentListLoop, Except.ok.injEq, Prod.mk.injEq] at h
    rw [← h.2]
    exact ⟨fun _ he => he, fun r hr => by simp at hr, fun _ he => Or.inl he⟩
  | cons r rows ih =>
    intro acc dir comments commenters h
    rw [commentListLoop] at h
    have hhex := (commentListRow_fixed env db commenter isModerator r).2.1
    split at h
    · simp at h
    · simp only [hhex] at h
      split at h
      · rename_i hany
        obtain ⟨i1, i2, i3⟩ := ih _ _ _ _ h
        refine ⟨i1, ?_, ?_⟩
        · intro x hx
          rcases List.mem_cons.1 hx with rfl | hx
          · obtain ⟨e, he, hk⟩ := List.any_eq_true.1 hany
            exact ⟨e, i1 e he, by simpa using hk⟩
          · exact i2 x hx
        · intro e he
          rcases i3 e he with hd | ⟨x, hx, h1, h2⟩
          · exact Or.inl hd
          · exact Or.inr ⟨x, List.mem_cons_of_mem _ hx, h1, h2⟩
      · split at h
        · simp at h
        · rename_i cr hcr
          obtain ⟨i1, i2, i3⟩ := ih _ _ _ _ h
          refine ⟨fun e he => i1 e (List.mem_append_left _ he), ?_, ?_⟩
          · intro x hx
            rcases List.mem_cons.1 hx with rfl | hx
            · exact ⟨_, i1 _ (List.mem_append_right _ (List.mem_singleton_self _)), rfl⟩
            · exact i2 x hx
          · intro e he
            rcases i3 e he with hd | ⟨x, hx, h1, h2⟩
            · rcases List.mem_append.1 hd with hd | hd
              · exact Or.inl hd
              · rw [List.mem_singleton.1 hd]
                exact Or.inr ⟨r, List.mem_cons_self _ _, rfl, hcr⟩
            · exact Or.inr ⟨x, List.mem_cons_of_mem _ hx, h1, h2⟩

/-- A successful `CommentList` returns the directory of `commentList`, entry by
entry, with the moderator mark set from the domain's moderator list and the
email cleared. -/
theorem CommentList_success_commenters (env : Env) (db : DB) (params : CommentListParams)
    (h : (CommentList env db params).1.success = true) :
    ∃ domain comments commenters,
      env.domainGet params.domain = Except.ok domain ∧
      commentList env db (specRequester env params.commenterToken) params.domain params.path
        (CommentListIsModerator domain.moderators (specRequester env params.commenterToken))
        = Except.ok (comments, commenters) ∧
      (CommentList env db params).1.comments = comments ∧
      (CommentList env db params).1.commenters = commenters.map (CommentListEntry domain) := by
  unfold CommentList at h
  simp only [] at h
  split at h
  · simp [CommentListOKBody.failure] at h
  · rename_i domain hd
    split at h
    · simp [CommentListOKBody.failure] at h
    · rename_i page hp
      split at h
      · simp [CommentListOKBody.failure] at h
      · rename_i commenter hres
        have hreq : specRequester env params.commenterToken = commenter := by
          unfold specRequester
          by_cases htok : params.commenterToken = AnonymousCommenterHexID
          · rw [if_pos htok]
            rw [if_neg (not_not.mpr htok)] at hres
            exact (Except.ok.inj hres)
          · rw [if_neg htok]
            rw [if_pos htok] at hres
            split at hres
            · simp at hres
            · rename_i c hc
              rw [hc]
              exact Except.ok.inj hres
        split at h
        · simp [CommentListOKBody.failure] at h
        · rename_i comments commenters hl
          refine ⟨domain, comments, commenters, hd, ?_, ?_, ?_⟩
          · rw [hreq]; exact hl
          · unfold CommentList
            simp only [hd, hp, hres, hl]
          · unfold CommentList
            simp only [hd, hp, hres, hl]
            rfl

/-- C18: no commenter email leaves the listing. In every successful `CommentList`
response every entry of the commenter directory has an empty email; the
directory holds the anonymous sentinel and the author of every returned
comment, and nothing else; each entry is the entry that `commentList` built
(the fixed anonymous entry, or what `commenterGetByHex` returned for the
author) with the email cleared, and it is marked as moderator whenever the
email it had is in the domain's moderator list. -/
theorem C18_CommentList_directory (env : Env) (db : DB) (params : CommentListParams)
    (hs : (CommentList env db params).1.success = true) :
    (∀ e ∈ (CommentList env db params).1.commenters, e.2.email = "") ∧
    (∃ e ∈ (CommentList env db params).1.commenters, e.1 = AnonymousCommenterHexID) ∧
    (∀ x ∈ (CommentList env db params).1.comments,
      ∃ e ∈ (CommentList env db params).1.commenters, e.1 = x.commenterHex) ∧
    (∃ (domain : Domain) (directory : List (String × Commenter)),
      env.domainGet params.domain = Except.ok domain ∧
      (CommentList env db params).1.commenters = directory.map (CommentListEntry domain) ∧
      (∀ e ∈ directory, e.1 = AnonymousCommenterHexID ∨
        ∃ x ∈ (CommentList env db params).1.comments, x.commenterHex = e.1 ∧
          env.commenterGetByHex e.1 = Except.ok e.2) ∧
      (∀ e ∈ directory, ∃ e1 ∈ (CommentList env db params).1.commenters,
        e1.1 = e.1 ∧ e1.2.commenterHex = e.2.commenterHex ∧ e1.2.name = e.2.name ∧
        e1.2.email = "" ∧
        (e.2.email ∈ domain.moderators.map (fun m => m.email) → e1.2.isModerator = true) ∧
        (e.2.email ∉ domain.moderators.map (fun m => m.email) →
          e1.2.isModerator = e.2.isModerator))) := by
  obtain ⟨domain, comments, directory, hd, hl, hc, hdir⟩ := CommentList_success_commenters env db params hs
  have hrows := commentList_ok env db _ _ _ _ comments directory hl
  have hloop : (∀ e ∈ [(AnonymousCommenterHexID,
        ({ commenterHex := AnonymousCommenterHexID, email := "undefined", name := "Anonymous",
           link := "undefined", photo := "undefined", provider := "undefined",
           isModerator := false } : Commenter))], e ∈ directory) ∧
      (∀ r ∈ db.comments.filter (commentListWhere (specRequester env params.commenterToken)
          params.domain params.path
          (CommentListIsModerator domain.moderators (specRequester env params.commenterToken))),
        ∃ e ∈ directory, e.1 = r.commenterHex) ∧
      (∀ e ∈ directory, e ∈ [(AnonymousCommenterHexID,
        ({ commenterHex := AnonymousCommenterHexID, email := "undefined", name := "Anonymous",
           link := "undefined", photo := "undefined", provider := "undefined",
           isModerator := false } : Commenter))] ∨
        ∃ r ∈ db.comments.filter (commentListWhere (specRequester env params.commenterToken)
          params.domain params.path
          (CommentListIsModerator domain.moderators (specRequester env params.commenterToken))),
          e.1 = r.commenterHex ∧ env.commenterGetByHex r.commenterHex = Except.ok e.2) := by
    unfold commentList at hl
    split at hl
    · simp at hl
    · exact commentListLoop_directory env db _ _ _ _ _ _ _ hl
  obtain ⟨l1, l2, l3⟩ := hloop
  have hentry : ∀ e : String × Commenter, (CommentListEntry domain e).1 = e.1 ∧
      (CommentListEntry domain e).2.email = "" := fun e => ⟨rfl, rfl⟩
  refine ⟨?_, ?_, ?_, domain, directory, hd, hdir, ?_, ?_⟩
  · intro e he
    rw [hdir] at he
    obtain ⟨e0, _, rfl⟩ := List.mem_map.1 he
    rfl
  · rw [hdir]
    exact ⟨_, List.mem_map_of_mem _ (l1 _ (List.mem_singleton_self _)), rfl⟩
  · intro x hx
    rw [hc, hrows] at hx
    obtain ⟨r, hr, rfl⟩ := List.mem_map.1 hx
    obtain ⟨e, he, hk⟩ := l2 r hr
    rw [hdir]
    refine ⟨_, List.mem_map_of_mem _ he, ?_⟩
    rw [(commentListRow_fixed env db _ _ r).2.1]
    exact hk
  · intro e he
    rcases l3 e he with h0 | ⟨r, hr, h1, h2⟩
    · left
      rw [List.mem_singleton.1 h0]
    · right
      refine ⟨commentListRow env db (specRequester env params.commenterToken)
        (CommentListIsModerator domain.moderators (specRequester env params.commenterToken)) r,
        ?_, ?_, ?_⟩
      · rw [hc, hrows]
        exact List.mem_map_of_mem _ hr
      · rw [(commentListRow_fixed env db _ _ r).2.1, h1]
      · rw [h1]; exact h2
  · intro e he
    refine ⟨CommentListEntry domain e, ?_, rfl, rfl, rfl, rfl, ?_, ?_⟩
    · rw [hdir]; exact List.mem_map_of_mem _ he
    · intro hm
      have : domain.moderators.any (fun mod => decide (mod.email = e.2.email)) = true := by
        rw [moderators_any_iff]
        simpa using hm
      simp [CommentListEntry, this]
    · intro hm
      have : domain.moderators.any (fun mod => decide (mod.email = e.2.email)) = false := by
        rw [moderators_any_iff]
        simpa using hm
      simp [CommentListEntry, this]

/-- Witness of C18: Mod's listing of the example page succeeds, and no entry of its
directory has an email. -/
theorem C18_CommentList_directory_witness :
    ¬ ∃ e ∈ (CommentList exampleEnv exampleDB
        { domain := "example.com", path := "/post", commenterToken := "token-mod" }).1.commenters,
      e.2.email ≠ "" := by
  rintro ⟨e, he, hne⟩
  exact hne ((C18_CommentList_directory exampleEnv exampleDB
    { domain := "example.com", path := "/post", commenterToken := "token-mod" } (by decide)).1 e he)

end Comentario
